import Mathlib

/-!
TouNetCore: permission hierarchy and NKey protocol

A shallow embedding of `internal/models/models.go`, `internal/auth/auth.go`,
`internal/config/config.go`, `internal/handlers/nkey.go` (`ApplyNKey`,
`ValidateNKey`, `userHasAppPermission`), `internal/handlers/user.go`
(`Register`, `Login`, `ListAllowedApps`) and `internal/handlers/admin.go`
(`DeleteUser`, `DeleteInviteCode`), followed by theorems about them.

Modelling conventions.

* Go `string` values are Lean `String`s; `uint` is `Nat`.
* An instant (`time.Time`) is an `Int` count of nanoseconds, a `time.Duration`
  an `Int` number of nanoseconds. `t.After(u)` is `u < t`.
* One handler invocation happens at one instant `now`: every `time.Now()` read
  inside the invocation returns it. The function `GenerateJWT` on its own takes
  its two clock reads as two arguments; a handler passes `now` for both.
* The database is a record of tables, each table the list of its rows in
  primary-key order, so that gorm's `First` (which orders by primary key) is
  `List.find?`. Queries fail only with "record not found"; `Create` fails only
  on a unique-index violation. The two writes of `Register` can in addition be
  made to fail through an explicit `StoreFaults` argument.
* Library calls (bcrypt, JWT signing) are fields of a `CryptoLib` argument; the
  parsing and signature check of `jwt.ParseWithClaims` are fields of a `JWTLib`
  argument.
* A path parameter is the string gin hands to the handler.
-/

namespace TouNetCore

/-! ## internal/models/models.go -/

/-- An instant, in nanoseconds. -/
abbrev Time := Int

/-- A `time.Duration`, in nanoseconds. -/
abbrev Duration := Int

/-- The Go type `UserStatus`, a named string type. -/
abbrev UserStatus := String

def StatusAdmin : UserStatus := "admin"
def StatusTrusted : UserStatus := "trusted"
def StatusUser : UserStatus := "user"
def StatusDisabledUser : UserStatus := "disableduser"

/-- The method `UserStatus.GetPermissionLevel`. -/
def GetPermissionLevel (us : UserStatus) : Int :=
  if us = StatusAdmin then 4
  else if us = StatusTrusted then 3
  else if us = StatusUser then 2
  else if us = StatusDisabledUser then 1
  else 0

/-- The method `UserStatus.HasPermission`. -/
def HasPermission (us required : UserStatus) : Bool :=
  decide (GetPermissionLevel us ≥ GetPermissionLevel required)

/-- The gorm model `User`; `DeletedAt` is the soft-delete column. -/
structure User where
  ID : Nat
  Username : String
  PasswordHash : String
  Phone : String
  PushDeerToken : String
  Status : UserStatus
  CreatedAt : Time
  UpdatedAt : Time
  DeletedAt : Option Time
  LastLogin : Option Time
deriving DecidableEq, Repr

/-- The gorm model `NKey` (the preloaded `User` relation is not a column). -/
structure NKey where
  ID : Nat
  KeyValue : String
  UserID : Nat
  AppIDs : String
  ExpiresAt : Time
  FirstUsedAt : Option Time
  FirstUsedApp : String
  IsUsed : Bool
  CreatedAt : Time
deriving DecidableEq, Repr

/-- The gorm model `App`. -/
structure App where
  AppID : String
  SecretKey : String
  Name : String
  Description : String
  URL : String
  RequiredPermissionLevel : UserStatus
  IsActive : Bool
  CreatedAt : Time
  UpdatedAt : Time
deriving DecidableEq, Repr

/-- The gorm model `UserAllowedApp`. -/
structure UserAllowedApp where
  ID : Nat
  UserID : Nat
  AppID : String
  Enabled : Bool
  ValidUntil : Option Time
  CustomLimit : String
  CreatedAt : Time
  UpdatedAt : Time
deriving DecidableEq, Repr

/-- The gorm model `InviteCode`; `CodeUserID` and `UsedAt` are nullable. -/
structure InviteCode where
  Code : String
  Time : Time
  CodeUserID : Option Nat
  UsedAt : Option TouNetCore.Time
deriving DecidableEq, Repr

/-- The gorm model `AuditLog` (the `Operator` relation is not a column). -/
structure AuditLog where
  ID : Nat
  ActionType : String
  TargetType : String
  TargetID : String
  OperatorID : Nat
  IPAddress : String
  UserAgent : String
  Details : String
  CreatedAt : Time
deriving DecidableEq, Repr

/-! ## The database -/

/-- The tables the handlers read and write, rows in primary-key order. -/
structure Store where
  users : List User
  apps : List App
  userAllowedApps : List UserAllowedApp
  nkeys : List NKey
  inviteCodes : List InviteCode := []
  auditLogs : List AuditLog := []
deriving DecidableEq, Repr

/-- The query `db.First(&user, userID)`: soft-deleted rows are invisible. -/
def findUser (s : Store) (userID : Nat) : Option User :=
  s.users.find? (fun u => decide (u.ID = userID) && u.DeletedAt.isNone)

/-- The query `db.Where("app_id = ? AND is_active = ?", appID, true).First(&app)`. -/
def findActiveApp (s : Store) (appID : String) : Option App :=
  s.apps.find? (fun a => decide (a.AppID = appID) && a.IsActive)

/-- The query `db.Where("user_id = ? AND app_id = ?", userID, appID).First(&userApp)`. -/
def findUserAllowedApp (s : Store) (userID : Nat) (appID : String) : Option UserAllowedApp :=
  s.userAllowedApps.find? (fun ua => decide (ua.UserID = userID) && decide (ua.AppID = appID))

/-- The query `db.Where("key_value = ?", v).First(&nkey)`. -/
def findNKey (s : Store) (v : String) : Option NKey :=
  s.nkeys.find? (fun k => decide (k.KeyValue = v))

/-! ## internal/handlers/nkey.go: userHasAppPermission -/

/-- The `switch requiredLevel` at the head of `userHasAppPermission`: `true` when
one of its cases returns `false` from the function. The cases are `StatusAdmin`,
`StatusUser` and `StatusDisabledUser`; any other value matches no case. -/
def basicLevelDenied (userStatus requiredLevel : UserStatus) : Bool :=
  if requiredLevel = StatusAdmin then decide (userStatus ≠ StatusAdmin)
  else if requiredLevel = StatusUser then decide (userStatus = StatusDisabledUser)
  else if requiredLevel = StatusDisabledUser then false
  else false

/-- The second half of `userHasAppPermission`, on the result of the
`UserAllowedApp` lookup: `true` when it returns `false` from the function. -/
def overrideDenied (now : Time) : Option UserAllowedApp → Bool
  | none => false
  | some userApp =>
    if !userApp.Enabled then true
    else
      match userApp.ValidUntil with
      | some validUntil => decide (validUntil < now)
      | none => false

/-- The method `NKeyHandler.userHasAppPermission`. -/
def userHasAppPermission (s : Store) (now : Time) (userID : Nat) (appID : String)
    (userStatus requiredLevel : UserStatus) : Bool :=
  if basicLevelDenied userStatus requiredLevel then false
  else if overrideDenied now (findUserAllowedApp s userID appID) then false
  else true

/-! ## encoding/json on `[]string`

`ApplyNKey` stores the approved list with `json.Marshal` and `ValidateNKey` reads
it back with `json.Unmarshal`. -/

/-- The double quote character. -/
def quoteChar : Char := Char.ofNat 34
/-- The backslash character. -/
def backslashChar : Char := Char.ofNat 92

/-- The table `hex` of `encoding/json`. -/
def hexDigit (n : Nat) : Char := "0123456789abcdef".data.getD n '0'

/-- One rune as `appendString` of `encoding/json` writes it (HTML escaping on, as
`json.Marshal` has it): short escapes, `\u00XX` for the other control characters and
for `<`, `>`, `&`, `\u2028` and `\u2029`, and the rune itself otherwise. -/
def escapeChar (c : Char) : List Char :=
  if c = quoteChar ∨ c = backslashChar then [backslashChar, c]
  else if c.toNat = 8 then [backslashChar, 'b']
  else if c.toNat = 12 then [backslashChar, 'f']
  else if c.toNat = 10 then [backslashChar, 'n']
  else if c.toNat = 13 then [backslashChar, 'r']
  else if c.toNat = 9 then [backslashChar, 't']
  else if c.toNat < 32 ∨ c = '<' ∨ c = '>' ∨ c = '&' then
    [backslashChar, 'u', '0', '0', hexDigit (c.toNat / 16), hexDigit (c.toNat % 16)]
  else if c.toNat = 0x2028 ∨ c.toNat = 0x2029 then
    [backslashChar, 'u', '2', '0', '2', hexDigit (c.toNat % 16)]
  else [c]

/-- A Go string as a JSON string literal. -/
def encodeString (s : String) : List Char :=
  quoteChar :: (s.data.flatMap escapeChar ++ [quoteChar])

/-- The elements of a JSON array, comma separated. -/
def encodeElems : List String → List Char
  | [] => []
  | [e] => encodeString e
  | e :: es => encodeString e ++ ',' :: encodeElems es

/-- The call `json.Marshal(v)` for `v []string`. The empty list stands for the nil
slice (the only empty slice `ApplyNKey` can hold), which encodes as `null`. -/
def jsonMarshalStrings (v : List String) : String :=
  match v with
  | [] => "null"
  | _ => String.mk ('[' :: (encodeElems v ++ [']']))

/-- The value of a hexadecimal digit, either case. -/
def hexValue (c : Char) : Option Nat :=
  if '0' ≤ c ∧ c ≤ '9' then some (c.toNat - '0'.toNat)
  else if 'a' ≤ c ∧ c ≤ 'f' then some (c.toNat - 'a'.toNat + 10)
  else if 'A' ≤ c ∧ c ≤ 'F' then some (c.toNat - 'A'.toNat + 10)
  else none

/-- The function `getu4` of `encoding/json`: the code unit of a leading `\uXXXX`. -/
def getu4 : List Char → Option Nat
  | b :: u :: d1 :: d2 :: d3 :: d4 :: _ =>
    if b = backslashChar ∧ u = 'u' then
      match hexValue d1, hexValue d2, hexValue d3, hexValue d4 with
      | some a, some b, some c, some d => some (((a * 16 + b) * 16 + c) * 16 + d)
      | _, _, _, _ => none
    else none
  | _ => none

/-- The function `utf16.IsSurrogate`. -/
def isSurrogate (r : Nat) : Bool := decide (0xd800 ≤ r ∧ r < 0xe000)

/-- The rune `unicode.ReplacementChar`. -/
def replacementChar : Nat := 0xFFFD

/-- The function `utf16.DecodeRune`; `none` is the `-1` of a failed `getu4`. -/
def decodeRune (r1 : Nat) (r2 : Option Nat) : Nat :=
  match r2 with
  | some r2 =>
    if 0xd800 ≤ r1 ∧ r1 < 0xdc00 ∧ 0xdc00 ≤ r2 ∧ r2 < 0xe000 then
      ((r1 - 0xd800) * 1024 + (r2 - 0xdc00)) + 0x10000
    else replacementChar
  | none => replacementChar

/-- The character after a backslash in a JSON string, other than `u`. -/
def simpleEscape (c : Char) : Option Char :=
  if c = quoteChar ∨ c = backslashChar ∨ c = '/' then some c
  else if c = 'b' then some (Char.ofNat 8)
  else if c = 'f' then some (Char.ofNat 12)
  else if c = 'n' then some (Char.ofNat 10)
  else if c = 'r' then some (Char.ofNat 13)
  else if c = 't' then some (Char.ofNat 9)
  else none

/-- The body of a JSON string literal up to its closing quote, decoded as `unquote`
of `encoding/json` does; also rejects what the scanner rejects (raw control
characters, unknown escapes). Returns the decoded runes and the input after the
closing quote. Each step consumes input, so fuel equal to the input length never
runs out. -/
def unquoteBody : Nat → List Char → List Char → Option (List Char × List Char)
  | 0, _, _ => none
  | fuel + 1, cs, acc =>
    match cs with
    | [] => none
    | c :: rest =>
      if c = quoteChar then some (acc, rest)
      else if c = backslashChar then
        match rest with
        | [] => none
        | e :: rest2 =>
          if e = 'u' then
            match getu4 cs with
            | none => none
            | some rr =>
              if isSurrogate rr then
                let dec := decodeRune rr (getu4 (cs.drop 6))
                if dec ≠ replacementChar then
                  unquoteBody fuel (cs.drop 12) (acc ++ [Char.ofNat dec])
                else unquoteBody fuel (cs.drop 6) (acc ++ [Char.ofNat replacementChar])
              else unquoteBody fuel (cs.drop 6) (acc ++ [Char.ofNat rr])
          else
            match simpleEscape e with
            | some ch => unquoteBody fuel rest2 (acc ++ [ch])
            | none => none
      else if c.toNat < 32 then none
      else unquoteBody fuel rest (acc ++ [c])

/-- JSON white space. -/
def isSpace (c : Char) : Bool :=
  decide (c = ' ') || decide (c.toNat = 9) || decide (c.toNat = 13) || decide (c.toNat = 10)

/-- Drop leading white space. -/
def skipSpace : List Char → List Char
  | [] => []
  | c :: cs => if isSpace c then skipSpace cs else c :: cs

/-- One array element decoded into a Go `string`: a string literal, or `null`,
which leaves the element at its zero value. -/
def parseElem (cs : List Char) : Option (String × List Char) :=
  match cs with
  | [] => none
  | c :: rest =>
    if c = quoteChar then
      match unquoteBody rest.length rest [] with
      | some (o, r) => some (String.mk o, r)
      | none => none
    else if cs.take 4 = ['n', 'u', 'l', 'l'] then some ("", cs.drop 4)
    else none

/-- The elements of a non-empty array up to and including the closing bracket. -/
def parseElems : Nat → List Char → List String → Option (List String × List Char)
  | 0, _, _ => none
  | fuel + 1, cs, acc =>
    match parseElem cs with
    | none => none
    | some (e, rest) =>
      match skipSpace rest with
      | c :: rest2 =>
        if c = ',' then parseElems fuel (skipSpace rest2) (acc ++ [e])
        else if c = ']' then some (acc ++ [e], rest2)
        else none
      | [] => none

/-- A JSON value that `json.Unmarshal` accepts for a `[]string` target: `null` or
an array of strings and nulls. -/
def parseValue (cs : List Char) : Option (List String × List Char) :=
  match cs with
  | [] => none
  | c :: rest =>
    if c = '[' then
      match skipSpace rest with
      | [] => none
      | c2 :: rest2 =>
        if c2 = ']' then some ([], rest2)
        else parseElems (c2 :: rest2).length (c2 :: rest2) []
    else if cs.take 4 = ['n', 'u', 'l', 'l'] then some ([], cs.drop 4)
    else none

/-- The call `json.Unmarshal(data, &appIDs)` for `appIDs []string`: `none` is a
non-nil error (a syntax error, or a value that is not an array of strings).
Both the nil slice and the empty slice are the empty list. -/
def jsonUnmarshalStrings (data : String) : Option (List String) :=
  match parseValue (skipSpace data.data) with
  | some (v, rest) => if skipSpace rest = [] then some v else none
  | none => none



/-! ## time.Duration.Seconds -/

/-- Floor of the binary logarithm, by halving; `0` at `0`. -/
def log2Aux : Nat → Nat → Nat
  | 0, _ => 0
  | fuel + 1, n => if n < 2 then 0 else log2Aux fuel (n / 2) + 1

/-- Floor of the binary logarithm of `n`. -/
def floorLog2 (n : Nat) : Nat := log2Aux n n

/-- The binary64 value nearest to `p / q` (`q > 0`), ties to even, as a pair
`(m, e)` standing for `m * 2 ^ e` with `m` of at most 53 bits (normal range). -/
def roundBinary64 (p q : Nat) : Nat × Int :=
  if p = 0 then (0, 0)
  else
    let e0 : Int := (floorLog2 p : Int) - (floorLog2 q : Int) - 52
    let e : Int :=
      if q * 2 ^ (e0 + 52).toNat ≤ p * 2 ^ (-(e0 + 52)).toNat then e0 else e0 - 1
    let num := p * 2 ^ (-e).toNat
    let den := q * 2 ^ e.toNat
    let m0 := num / den
    let r := num % den
    let m :=
      if 2 * r < den then m0
      else if den < 2 * r then m0 + 1
      else if m0 % 2 = 0 then m0
      else m0 + 1
    (m, e)

/-- The Go expression `int(d.Seconds())`. `Duration.Seconds` is
`float64(sec) + float64(nsec)/1e9` with `sec := d / Second`, `nsec := d % Second`;
both have the sign of `d`, and rounding is symmetric, so the computation is done
on magnitudes. The conversion to `int` truncates. -/
def secondsInt (d : Int) : Int :=
  let a := d.natAbs
  let sec := a / 1000000000
  let nsec := a % 1000000000
  let f1 := roundBinary64 nsec 1000000000
  let fs := roundBinary64 sec 1
  let emin := min fs.2 f1.2
  let sumNum := fs.1 * 2 ^ (fs.2 - emin).toNat + f1.1 * 2 ^ (f1.2 - emin).toNat
  let f := roundBinary64 (sumNum * 2 ^ emin.toNat) (2 ^ (-emin).toNat)
  let t := f.1 * 2 ^ f.2.toNat / 2 ^ (-f.2).toNat
  if d < 0 then -(t : Int) else (t : Int)


/-! ## internal/config/config.go -/

/-- The struct `Config`. -/
structure Config where
  Environment : String
  DatabaseURL : String
  JWTSecret : String
  JWTExpiration : Duration
  NKeyExpiration : Duration
  PushDeerAPI : String
  ServerPort : String
deriving DecidableEq, Repr

/-- The constant `time.Minute`. -/
def Minute : Duration := 60 * 1000000000

/-- The constant `time.Hour`. -/
def Hour : Duration := 60 * Minute

/-- The function `getEnv`; `env` is `os.Getenv`. -/
def getEnv (env : String → String) (key defaultValue : String) : String :=
  if env key ≠ "" then env key else defaultValue

/-- The function `getDurationEnv`; `parseDuration` is `time.ParseDuration`, with
`none` for an error. -/
def getDurationEnv (env : String → String) (parseDuration : String → Option Duration)
    (key : String) (defaultValue : Duration) : Duration :=
  if env key ≠ "" then
    match parseDuration (env key) with
    | some duration => duration
    | none => defaultValue
  else defaultValue

/-- The function `LoadConfig`. -/
def LoadConfig (env : String → String) (parseDuration : String → Option Duration) : Config :=
  { Environment := getEnv env "ENVIRONMENT" "development"
    DatabaseURL := getEnv env "DATABASE_URL" "sqlite://./tounetcore.db"
    JWTSecret := getEnv env "JWT_SECRET" "your-super-secret-jwt-key-change-in-production"
    JWTExpiration := getDurationEnv env parseDuration "JWT_EXPIRATION" (24 * Hour)
    NKeyExpiration := getDurationEnv env parseDuration "NKEY_EXPIRATION" (15 * Minute)
    PushDeerAPI := getEnv env "PUSHDEER_API" "https://api2.pushdeer.com/message/push"
    ServerPort := getEnv env "PORT" "44544" }

/-! ## internal/auth/auth.go: GenerateNKey -/

/-- The function `GenerateNKey`. `rnd` is the outcome of `rand.Read` on 32 bytes:
`none` when it fails, otherwise the `base64.URLEncoding` text of the bytes read. -/
def GenerateNKey (userID : Nat) (_appIDs : List String) (rnd : Option String) :
    Option String :=
  match rnd with
  | none => none
  | some encoded => some ("TOUNET_" ++ toString userID ++ "_" ++ encoded)

/-! ## internal/handlers/nkey.go: requests, responses, store writes -/

/-- What `AuthMiddleware` puts in the gin context from the session claims. -/
structure Context where
  user_id : Nat
  username : String
  user_status : UserStatus
deriving DecidableEq, Repr

/-- The struct `ApplyNKeyRequest` after JSON decoding. `AppIDs` is `none` for the
nil slice (field absent or `null`), which `binding:"required"` rejects. -/
structure ApplyNKeyRequest where
  Username : List String
  AppIDs : Option (List String)
deriving DecidableEq, Repr

/-- The struct `ValidateNKeyRequest` after JSON decoding. -/
structure ValidateNKeyRequest where
  NKey : String
  AppID : String
deriving DecidableEq, Repr

/-- The `data` object of a successful `ApplyNKey` response. -/
structure ApplyNKeyData where
  nkey : String
  expires_in : Int
  apps : List String
deriving DecidableEq, Repr

/-- A response of `ApplyNKey`: HTTP status and the JSON body. -/
structure ApplyNKeyResponse where
  status : Nat
  code : Nat
  message : String
  data : Option ApplyNKeyData
deriving DecidableEq, Repr

/-- The `data` object of a successful `ValidateNKey` response. -/
structure ValidateNKeyData where
  valid : Bool
  username : String
  user_role : UserStatus
deriving DecidableEq, Repr

/-- A response of `ValidateNKey`: HTTP status and the JSON body. -/
structure ValidateNKeyResponse where
  status : Nat
  code : Nat
  message : String
  data : Option ValidateNKeyData
deriving DecidableEq, Repr

/-- The call `c.ShouldBindJSON(&req)` in `ApplyNKey`: `body` is `none` when the
body is not JSON of the right shape; `app_ids` is required. -/
def bindApplyNKeyRequest (body : Option ApplyNKeyRequest) : Option (List String) :=
  match body with
  | none => none
  | some req => req.AppIDs

/-- The call `c.ShouldBindJSON(&req)` in `ValidateNKey`: both fields are required,
which for a string means non-empty. -/
def bindValidateNKeyRequest (body : Option ValidateNKeyRequest) : Option ValidateNKeyRequest :=
  match body with
  | none => none
  | some req => if req.NKey = "" ∨ req.AppID = "" then none else some req

/-- The next value of the auto-increment primary key of the `nkeys` table. -/
def nextNKeyID (s : Store) : Nat :=
  (s.nkeys.map (fun k => k.ID)).foldl max 0 + 1

/-- The call `db.Create(&nkeyRecord)`: `none` when `key_value` is already present
(unique index). The row gets the next primary key and `CreatedAt = now`; it is
appended, which keeps the table in primary-key order. -/
def createNKey (s : Store) (now : Time) (nkeyRecord : NKey) : Option Store :=
  if s.nkeys.any (fun k => decide (k.KeyValue = nkeyRecord.KeyValue)) then none
  else some { s with nkeys := s.nkeys ++ [{ nkeyRecord with ID := nextNKeyID s, CreatedAt := now }] }

/-- The call `db.Save(&nkey)` on a loaded row: every column of the row with that
primary key is rewritten. The preloaded `User` is upserted with `ON CONFLICT DO
NOTHING`, which leaves `users` as it is. -/
def saveNKey (s : Store) (nkey : NKey) : Store :=
  { s with nkeys := s.nkeys.map (fun k => if k.ID = nkey.ID then nkey else k) }

/-- The zero value of the Go struct `User`: what `nkey.User` holds when
`Preload("User")` finds no row. -/
def zeroUser : User :=
  { ID := 0, Username := "", PasswordHash := "", Phone := "", PushDeerToken := "",
    Status := "", CreatedAt := 0, UpdatedAt := 0, DeletedAt := none, LastLogin := none }

/-- The relation loaded by `Preload("User")` for a token row. -/
def preloadUser (s : Store) (nkey : NKey) : User :=
  match findUser s nkey.UserID with
  | some u => u
  | none => zeroUser

/-! ## internal/handlers/nkey.go: ApplyNKey -/

/-- The loop `for _, appID := range req.AppIDs` of `ApplyNKey`, from the current
`validAppIDs`: the error response of the first failing entry, or the final
`validAppIDs`. -/
def validateRequestedApps (s : Store) (now : Time) (c : Context) :
    List String → List String → Except ApplyNKeyResponse (List String)
  | [], validAppIDs => .ok validAppIDs
  | appID :: rest, validAppIDs =>
    match findActiveApp s appID with
    | none =>
      .error { status := 400, code := 400, message := "invalid app_id: " ++ appID, data := none }
    | some app =>
      if !userHasAppPermission s now c.user_id appID c.user_status app.RequiredPermissionLevel then
        .error { status := 403, code := 403, message := "no permission for app: " ++ appID,
                 data := none }
      else validateRequestedApps s now c rest (validAppIDs ++ [appID])

/-- The handler `NKeyHandler.ApplyNKey`: the response and the store afterwards.
The push notification is a detached no-op and is left out. -/
def ApplyNKey (cfg : Config) (s : Store) (now : Time) (c : Context)
    (body : Option ApplyNKeyRequest) (rnd : Option String) : ApplyNKeyResponse × Store :=
  match bindApplyNKeyRequest body with
  | none => ({ status := 400, code := 400, message := "invalid request data", data := none }, s)
  | some appIDs =>
    match findUser s c.user_id with
    | none => ({ status := 404, code := 404, message := "user not found", data := none }, s)
    | some _user =>
      match validateRequestedApps s now c appIDs [] with
      | .error resp => (resp, s)
      | .ok validAppIDs =>
        match GenerateNKey c.user_id validAppIDs rnd with
        | none =>
          ({ status := 500, code := 500, message := "failed to generate nkey", data := none }, s)
        | some nkey =>
          let nkeyRecord : NKey :=
            { ID := 0, KeyValue := nkey, UserID := c.user_id,
              AppIDs := jsonMarshalStrings validAppIDs,
              ExpiresAt := now + cfg.NKeyExpiration,
              FirstUsedAt := none, FirstUsedApp := "", IsUsed := false, CreatedAt := 0 }
          match createNKey s now nkeyRecord with
          | none =>
            ({ status := 500, code := 500, message := "failed to store nkey", data := none }, s)
          | some s' =>
            ({ status := 200, code := 200, message := "success",
               data := some { nkey := nkey, expires_in := secondsInt cfg.NKeyExpiration,
                              apps := validAppIDs } }, s')

/-! ## internal/handlers/nkey.go: ValidateNKey -/

/-- The handler `NKeyHandler.ValidateNKey`: the response and the store afterwards. -/
def ValidateNKey (s : Store) (now : Time) (body : Option ValidateNKeyRequest) :
    ValidateNKeyResponse × Store :=
  match bindValidateNKeyRequest body with
  | none => ({ status := 400, code := 400, message := "invalid request data", data := none }, s)
  | some req =>
    match findNKey s req.NKey with
    | none => ({ status := 401, code := 401, message := "invalid nkey", data := none }, s)
    | some nkey =>
      if nkey.ExpiresAt < now then
        ({ status := 401, code := 401, message := "expired nkey", data := none }, s)
      else
        match jsonUnmarshalStrings nkey.AppIDs with
        | none =>
          ({ status := 500, code := 500, message := "invalid nkey data", data := none }, s)
        | some appIDs =>
          let hasPermission := appIDs.any (fun appID => decide (appID = req.AppID))
          if !hasPermission then
            ({ status := 403, code := 403, message := "no permission for app", data := none }, s)
          else
            let s' :=
              if !nkey.IsUsed then
                saveNKey s { nkey with FirstUsedAt := some now, FirstUsedApp := req.AppID,
                                       IsUsed := true }
              else s
            let user := preloadUser s nkey
            ({ status := 200, code := 200, message := "success",
               data := some { valid := true, username := user.Username,
                              user_role := user.Status } }, s')

/-- A sequence of `ValidateNKey` calls, each at its own instant, from store `s`:
the store after the last call. -/
def runValidateNKey (s : Store) : List (Time × Option ValidateNKeyRequest) → Store
  | [] => s
  | (now, body) :: calls => runValidateNKey (ValidateNKey s now body).2 calls

/-! ## internal/auth/auth.go: passwords and session tokens -/

/-- The struct `Claims`: the custom fields and, of the embedded
`jwt.RegisteredClaims`, the three dates. A date is a pointer in Go and `none`
stands for nil, a claim the token does not carry. The remaining registered
claims (issuer, subject, audience, id) are never set by `GenerateJWT` and never
looked at by `ValidateJWT`; they are left out. -/
structure Claims where
  UserID : Nat
  Username : String
  Status : UserStatus
  ExpiresAt : Option Time
  NotBefore : Option Time
  IssuedAt : Option Time
deriving DecidableEq, Repr

/-- The library calls behind `auth.go`. `bcryptGenerate password` is
`bcrypt.GenerateFromPassword` (`none` for an error), `bcryptCompare hash password`
says whether `bcrypt.CompareHashAndPassword` returns nil, and
`signedString claims secret` is
`jwt.NewWithClaims(jwt.SigningMethodHS256, claims).SignedString([]byte(secret))`
(`none` for an error). -/
structure CryptoLib where
  bcryptGenerate : String → Option String
  bcryptCompare : String → String → Bool
  signedString : Claims → String → Option String

/-- The function `HashPassword`. -/
def HashPassword (lib : CryptoLib) (password : String) : Option String :=
  lib.bcryptGenerate password

/-- The function `CheckPassword`. -/
def CheckPassword (lib : CryptoLib) (password hash : String) : Bool :=
  lib.bcryptCompare hash password

/-- The call `jwt.NewNumericDate(t)`: `t` truncated to `jwt.TimePrecision`, one
second. -/
def NewNumericDate (t : Time) : Time :=
  t - t % 1000000000

/-- The struct literal `claims` of `GenerateJWT`. The literal reads the clock
twice: `expiryRead` is what `time.Now()` returns inside the `ExpiresAt` field,
`issuedRead` what it returns, afterwards, inside the `IssuedAt` field. -/
def newClaims (user : User) (expiration : Duration) (expiryRead issuedRead : Time) : Claims :=
  { UserID := user.ID, Username := user.Username, Status := user.Status,
    ExpiresAt := some (NewNumericDate (expiryRead + expiration)), NotBefore := none,
    IssuedAt := some (NewNumericDate issuedRead) }

/-- The function `GenerateJWT`, with the values of its two clock reads in program
order. -/
def GenerateJWT (lib : CryptoLib) (user : User) (secret : String) (expiration : Duration)
    (expiryRead issuedRead : Time) : Option String :=
  lib.signedString (newClaims user expiration expiryRead issuedRead) secret

/-- What `jwt.Parser.ParseUnverified` reads off a token string before any check:
whether the `alg` header names an HMAC method, so that `token.Method` is a
`*jwt.SigningMethodHMAC`, and the claims decoded from the payload. -/
structure ParsedToken where
  hmac : Bool
  claims : Claims
deriving DecidableEq, Repr

/-- The library calls behind `jwt.ParseWithClaims`. `parseUnverified tokenString`
is `none` for a malformed token (not three dot-separated base64url segments of
JSON with a known `alg`); `verify tokenString key` says whether
`token.Method.Verify` accepts the signature segment for the first two segments
under `key`. -/
structure JWTLib where
  parseUnverified : String → Option ParsedToken
  verify : String → String → Bool

/-- The default `jwt.Validator.Validate` at instant `now`: a present `exp` must lie
strictly after `now`, a present `nbf` must not lie after `now`; `iat` is not
checked without `jwt.WithIssuedAt`, and no issuer, subject or audience is
expected. -/
def validateClaims (now : Time) (claims : Claims) : Bool :=
  (match claims.ExpiresAt with
   | some exp => decide (now < exp)
   | none => true) &&
  (match claims.NotBefore with
   | some nbf => decide (nbf ≤ now)
   | none => true)

/-- The function `ValidateJWT`, called at instant `now`: the claims, or `none` for
an error. `jwt.ParseWithClaims` parses the token, asks the key function of
`ValidateJWT` for the key (an error unless the method is HMAC), verifies the
signature under `[]byte(secret)` and validates the claims; `token.Valid` is set
exactly when all four pass. -/
def ValidateJWT (jwtlib : JWTLib) (now : Time) (tokenString secret : String) : Option Claims :=
  match jwtlib.parseUnverified tokenString with
  | none => none
  | some token =>
    if !token.hmac then none
    else if !jwtlib.verify tokenString secret then none
    else if !validateClaims now token.claims then none
    else some token.claims

/-! ## internal/handlers/user.go: requests, responses, store operations -/

/-- The struct `RegisterRequest` after JSON decoding. -/
structure RegisterRequest where
  Username : String
  Password : String
  Phone : String
  PushDeerToken : String
  InviteCode : String
deriving DecidableEq, Repr

/-- The struct `LoginRequest` after JSON decoding. -/
structure LoginRequest where
  Username : String
  Password : String
deriving DecidableEq, Repr

/-- The `data` object of a successful `Register` response. -/
structure RegisterData where
  user_id : Nat
  token : String
deriving DecidableEq, Repr

/-- A response of `Register`: HTTP status and the JSON body (the `error` text that
accompanies a binding failure is the validator's and is left out). -/
structure RegisterResponse where
  status : Nat
  code : Nat
  message : String
  data : Option RegisterData
deriving DecidableEq, Repr

/-- A response of `Login`: HTTP status and the JSON body; `data` is the token. -/
structure LoginResponse where
  status : Nat
  code : Nat
  message : String
  data : Option String
deriving DecidableEq, Repr

/-- Which of the two writes of `Register` fail with a storage error: the
`db.Create(&user)` and the `db.Save(&inviteCode)`. -/
structure StoreFaults where
  createUser : Bool
  saveInvite : Bool
deriving DecidableEq, Repr

/-- A store on which every write goes through. -/
def noFaults : StoreFaults := { createUser := false, saveInvite := false }

/-- The call `c.ShouldBindJSON(&req)` in `Register`: username, password and invite
code are required, which for a string means non-empty. -/
def bindRegisterRequest (body : Option RegisterRequest) : Option RegisterRequest :=
  match body with
  | none => none
  | some req =>
    if req.Username = "" ∨ req.Password = "" ∨ req.InviteCode = "" then none else some req

/-- The call `c.ShouldBindJSON(&req)` in `Login`: both fields are required. -/
def bindLoginRequest (body : Option LoginRequest) : Option LoginRequest :=
  match body with
  | none => none
  | some req => if req.Username = "" ∨ req.Password = "" then none else some req

/-- The query `db.Where("code = ? AND code_user_id IS NULL", code).First(&inviteCode)`. -/
def findUnusedInviteCode (s : Store) (code : String) : Option InviteCode :=
  s.inviteCodes.find? (fun ic => decide (ic.Code = code) && ic.CodeUserID.isNone)

/-- The query `db.Where("username = ?", username).First(&user)`: soft-deleted rows
are invisible. -/
def findUserByUsername (s : Store) (username : String) : Option User :=
  s.users.find? (fun u => decide (u.Username = username) && u.DeletedAt.isNone)

/-- The next value of the auto-increment primary key of the `users` table. -/
def nextUserID (s : Store) : Nat :=
  (s.users.map (fun u => u.ID)).foldl max 0 + 1

/-- The call `db.Create(&user)`: `none` on a storage fault or when the username is
already present in the table (the unique index also covers soft-deleted rows).
The row gets the next primary key and `CreatedAt = UpdatedAt = now`; the result is
the row as written back into `user`, and the store with it appended. -/
def createUser (faults : StoreFaults) (s : Store) (now : Time) (user : User) :
    Option (User × Store) :=
  if faults.createUser then none
  else if s.users.any (fun u => decide (u.Username = user.Username)) then none
  else
    let created := { user with ID := nextUserID s, CreatedAt := now, UpdatedAt := now }
    some (created, { s with users := s.users ++ [created] })

/-- The call `db.Save(&inviteCode)` on a loaded row; its error is not looked at.
Without a fault every column of the row with that primary key is rewritten, with
a fault nothing is. -/
def saveInviteCode (faults : StoreFaults) (s : Store) (inviteCode : InviteCode) : Store :=
  if faults.saveInvite then s
  else
    { s with inviteCodes :=
        s.inviteCodes.map (fun ic => if ic.Code = inviteCode.Code then inviteCode else ic) }

/-- The call `db.Save(&user)` on a loaded row: every column of the row with that
primary key is rewritten and `UpdatedAt` becomes `now`. -/
def saveUser (s : Store) (now : Time) (user : User) : Store :=
  { s with users :=
      s.users.map (fun u => if u.ID = user.ID then { user with UpdatedAt := now } else u) }

/-! ## internal/handlers/user.go: Register -/

/-- The handler `UserHandler.Register`: the response and the store afterwards. -/
def Register (faults : StoreFaults) (lib : CryptoLib) (cfg : Config) (s : Store) (now : Time)
    (body : Option RegisterRequest) : RegisterResponse × Store :=
  match bindRegisterRequest body with
  | none => ({ status := 400, code := 400, message := "invalid request data", data := none }, s)
  | some req =>
    match findUnusedInviteCode s req.InviteCode with
    | none =>
      ({ status := 400, code := 400, message := "invalid or used invite code", data := none }, s)
    | some inviteCode =>
      match findUserByUsername s req.Username with
      | some _existingUser =>
        ({ status := 409, code := 409, message := "username already exists", data := none }, s)
      | none =>
        match HashPassword lib req.Password with
        | none =>
          ({ status := 500, code := 500, message := "failed to hash password", data := none }, s)
        | some hashedPassword =>
          let user : User :=
            { ID := 0, Username := req.Username, PasswordHash := hashedPassword,
              Phone := req.Phone, PushDeerToken := req.PushDeerToken, Status := StatusUser,
              CreatedAt := 0, UpdatedAt := 0, DeletedAt := none, LastLogin := none }
          match createUser faults s now user with
          | none =>
            ({ status := 500, code := 500, message := "failed to create user", data := none }, s)
          | some (user, s1) =>
            let s2 := saveInviteCode faults s1
              { inviteCode with CodeUserID := some user.ID, UsedAt := some now }
            match GenerateJWT lib user cfg.JWTSecret cfg.JWTExpiration now now with
            | none =>
              ({ status := 500, code := 500, message := "failed to generate token",
                 data := none }, s2)
            | some token =>
              ({ status := 200, code := 200, message := "success",
                 data := some { user_id := user.ID, token := token } }, s2)

/-! ## internal/handlers/user.go: Login -/

/-- The handler `UserHandler.Login`: the response and the store afterwards. -/
def Login (lib : CryptoLib) (cfg : Config) (s : Store) (now : Time)
    (body : Option LoginRequest) : LoginResponse × Store :=
  match bindLoginRequest body with
  | none => ({ status := 400, code := 400, message := "invalid request data", data := none }, s)
  | some req =>
    match findUserByUsername s req.Username with
    | none => ({ status := 401, code := 401, message := "invalid credentials", data := none }, s)
    | some user =>
      if !CheckPassword lib req.Password user.PasswordHash then
        ({ status := 401, code := 401, message := "invalid credentials", data := none }, s)
      else
        let user := { user with LastLogin := some now }
        let s' := saveUser s now user
        let user := { user with UpdatedAt := now }
        match GenerateJWT lib user cfg.JWTSecret cfg.JWTExpiration now now with
        | none =>
          ({ status := 500, code := 500, message := "failed to generate token", data := none }, s')
        | some token =>
          ({ status := 200, code := 200, message := "success", data := some token }, s')

/-! ## internal/handlers/user.go: ListAllowedApps -/

/-- One element of the `data` array of `ListAllowedApps`. -/
structure AllowedAppData where
  app_id : String
  name : String
  url : String
  enabled : Bool
  valid_until : Option Time
deriving DecidableEq, Repr

/-- A response of `ListAllowedApps`: HTTP status and the JSON body. -/
structure ListAllowedAppsResponse where
  status : Nat
  code : Nat
  message : String
  data : List AllowedAppData
deriving DecidableEq, Repr

/-- The `Where` clause that `switch userStatus` adds to the query, as a test on
the column `required_permission_level`. No case matches a role outside the four
constants, and then, as for an admin, no clause is added. -/
def roleFilter (userStatus requiredLevel : UserStatus) : Bool :=
  if userStatus = StatusAdmin then true
  else if userStatus = StatusTrusted then
    [StatusDisabledUser, StatusUser, StatusTrusted].contains requiredLevel
  else if userStatus = StatusUser then
    [StatusDisabledUser, StatusUser].contains requiredLevel
  else if userStatus = StatusDisabledUser then decide (requiredLevel = StatusDisabledUser)
  else true

/-- The rows of `query.Find(&apps)`: active apps that pass the role clause, in
table order. -/
def findAllowedApps (s : Store) (userStatus : UserStatus) : List App :=
  s.apps.filter (fun a => a.IsActive && roleFilter userStatus a.RequiredPermissionLevel)

/-- The lookup `userAppMap[appID]` after the map was filled from the rows with
`user_id = userID` in order: a later row overwrites an earlier one. -/
def userAppMap (s : Store) (userID : Nat) (appID : String) : Option UserAllowedApp :=
  ((s.userAllowedApps.filter (fun ua => decide (ua.UserID = userID))).reverse).find?
    (fun ua => decide (ua.AppID = appID))

/-- The element `appData` that `ListAllowedApps` builds for one app. -/
def allowedAppData (s : Store) (userID : Nat) (app : App) : AllowedAppData :=
  match userAppMap s userID app.AppID with
  | some userApp =>
    { app_id := app.AppID, name := app.Name, url := app.URL, enabled := userApp.Enabled,
      valid_until := userApp.ValidUntil }
  | none =>
    { app_id := app.AppID, name := app.Name, url := app.URL, enabled := true,
      valid_until := none }

/-- The handler `UserHandler.ListAllowedApps`; it writes nothing. -/
def ListAllowedApps (s : Store) (c : Context) : ListAllowedAppsResponse :=
  { status := 200, code := 200, message := "success",
    data := (findAllowedApps s c.user_status).map (allowedAppData s c.user_id) }

/-! ## internal/handlers/admin.go: DeleteUser, DeleteInviteCode -/

/-- What the two handlers read from the request besides the path parameter:
`c.ClientIP()` and the `User-Agent` header. -/
structure RequestInfo where
  ClientIP : String
  UserAgent : String
deriving DecidableEq, Repr

/-- A response of a delete handler: HTTP status and the JSON body. -/
structure AdminResponse where
  status : Nat
  code : Nat
  message : String
deriving DecidableEq, Repr

/-- The value of a run of decimal digits, continuing from `acc`; `none` when a
character is not a digit. -/
def parseDigits : List Char → Nat → Option Nat
  | [], acc => some acc
  | c :: cs, acc =>
    if '0' ≤ c ∧ c ≤ '9' then parseDigits cs (acc * 10 + (c.toNat - '0'.toNat)) else none

/-- The magnitude part of `strconv.Atoi`: at least one digit, digits only. -/
def parseMagnitude (cs : List Char) : Option Nat :=
  if cs = [] then none else parseDigits cs 0

/-- The call `strconv.Atoi(s)` with a 64-bit `int`: an optional sign and decimal
digits; `none` for a syntax or range error. -/
def Atoi (s : String) : Option Int :=
  let signed : Option Int :=
    match s.data with
    | [] => none
    | c :: cs =>
      if c = '-' then (parseMagnitude cs).map (fun n => -(n : Int))
      else if c = '+' then (parseMagnitude cs).map (fun n => (n : Int))
      else (parseMagnitude (c :: cs)).map (fun n => (n : Int))
  match signed with
  | none => none
  | some v => if -(2 ^ 63 : Int) ≤ v ∧ v < 2 ^ 63 then some v else none

/-- The query `db.First(&user, userID)` with the path parameter, a string, as its
condition. gorm (`Statement.BuildCondition`) looks at the string: one that
`strconv.Atoi` accepts is compared with the primary key, and the database reads
the text as the number it denotes; the empty string adds no condition; any
other string is sent as a raw SQL condition, whose first matching row is
`rawWhere userID s` here. Soft-deleted rows are invisible throughout. -/
def findUserByParam (rawWhere : String → Store → Option User) (s : Store) (userID : String) :
    Option User :=
  match Atoi userID with
  | some n => if 0 ≤ n then findUser s n.toNat else none
  | none =>
    if userID = "" then s.users.find? (fun u => u.DeletedAt.isNone)
    else rawWhere userID s

/-- The call `db.Delete(&user)` on a loaded row, a soft delete: `deleted_at` is
set on the live row with that primary key. gorm refuses (`none`) when the
primary key is zero, for want of a condition. -/
def softDeleteUser (s : Store) (now : Time) (user : User) : Option Store :=
  if user.ID = 0 then none
  else some { s with users := s.users.map (fun u =>
    if u.ID = user.ID ∧ u.DeletedAt.isNone then { u with DeletedAt := some now } else u) }

/-- The next value of the auto-increment primary key of the `audit_logs` table. -/
def nextAuditLogID (s : Store) : Nat :=
  (s.auditLogs.map (fun a => a.ID)).foldl max 0 + 1

/-- The call `db.Create(&auditLog)`: the row gets the next primary key and
`CreatedAt = now`. -/
def createAuditLog (s : Store) (now : Time) (auditLog : AuditLog) : Store :=
  { s with auditLogs := s.auditLogs ++ [{ auditLog with ID := nextAuditLogID s, CreatedAt := now }] }

/-- The handler `AdminHandler.DeleteUser` for path parameter `userID`, run in the
session `c` of the operator: the response and the store afterwards.
`fmt.Sprintf("%v", operatorID)` on a `uint` is its decimal numeral. -/
def DeleteUser (rawWhere : String → Store → Option User) (s : Store) (now : Time) (c : Context)
    (info : RequestInfo) (userID : String) : AdminResponse × Store :=
  if userID = toString c.user_id then
    ({ status := 400, code := 400, message := "cannot delete your own account" }, s)
  else
    match findUserByParam rawWhere s userID with
    | none => ({ status := 404, code := 404, message := "user not found" }, s)
    | some user =>
      match softDeleteUser s now user with
      | none => ({ status := 500, code := 500, message := "failed to delete user" }, s)
      | some s' =>
        let auditLog : AuditLog :=
          { ID := 0, ActionType := "DELETE_USER", TargetType := "USER", TargetID := userID,
            OperatorID := c.user_id, IPAddress := info.ClientIP, UserAgent := info.UserAgent,
            Details := "Deleted user: " ++ user.Username, CreatedAt := 0 }
        ({ status := 200, code := 200, message := "success" }, createAuditLog s' now auditLog)

/-- The query `db.Where("code = ?", inviteCode).First(&code)`. -/
def findInviteCode (s : Store) (inviteCode : String) : Option InviteCode :=
  s.inviteCodes.find? (fun ic => decide (ic.Code = inviteCode))

/-- The call `db.Delete(&code)` on a loaded row: the rows with that primary key
are removed. gorm refuses (`none`) when the primary key is the empty string,
for want of a condition. -/
def deleteInviteCode (s : Store) (code : InviteCode) : Option Store :=
  if code.Code = "" then none
  else some { s with inviteCodes := s.inviteCodes.filter (fun ic => !decide (ic.Code = code.Code)) }

/-- The handler `AdminHandler.DeleteInviteCode` for path parameter `inviteCode`,
run in the session `c` of the operator: the response and the store afterwards. -/
def DeleteInviteCode (s : Store) (now : Time) (c : Context) (info : RequestInfo)
    (inviteCode : String) : AdminResponse × Store :=
  match findInviteCode s inviteCode with
  | none => ({ status := 404, code := 404, message := "invite code not found" }, s)
  | some code =>
    if code.CodeUserID.isSome then
      ({ status := 400, code := 400, message := "cannot delete used invite code" }, s)
    else
      match deleteInviteCode s code with
      | none => ({ status := 500, code := 500, message := "failed to delete invite code" }, s)
      | some s' =>
        let auditLog : AuditLog :=
          { ID := 0, ActionType := "DELETE_INVITE_CODE", TargetType := "INVITE_CODE",
            TargetID := inviteCode, OperatorID := c.user_id, IPAddress := info.ClientIP,
            UserAgent := info.UserAgent, Details := "Deleted invite code: " ++ inviteCode,
            CreatedAt := 0 }
        ({ status := 200, code := 200, message := "success" }, createAuditLog s' now auditLog)

/-! ## Derived notions used in the statements -/

/-- One pass of the `ApplyNKey` loop body accepts `appID`: the app is found active
and `userHasAppPermission` returns `true` for the session role. -/
def appGranted (s : Store) (now : Time) (c : Context) (appID : String) : Bool :=
  match findActiveApp s appID with
  | none => false
  | some app => userHasAppPermission s now c.user_id appID c.user_status app.RequiredPermissionLevel

/-- The error response the `ApplyNKey` loop body produces at a rejected `appID`. -/
def appRejection (s : Store) (appID : String) : ApplyNKeyResponse :=
  match findActiveApp s appID with
  | none => { status := 400, code := 400, message := "invalid app_id: " ++ appID, data := none }
  | some _ =>
    { status := 403, code := 403, message := "no permission for app: " ++ appID, data := none }

/-- Primary keys of the `nkeys` table are unique. -/
def nkeyIDsUnique (s : Store) : Prop :=
  ∀ a ∈ s.nkeys, ∀ b ∈ s.nkeys, a.ID = b.ID → a = b

/-- Every row of the invite table with code `code` has a redeeming user; this
includes the case of no such row. -/
def inviteSpent (s : Store) (code : String) : Prop :=
  ∀ ic ∈ s.inviteCodes, ic.Code = code → ic.CodeUserID.isSome = true

/-- The row `Register` inserts for a bound request: the `user` literal of the
handler with the primary key and the timestamps `db.Create` assigns. -/
def registeredUser (s : Store) (now : Time) (req : RegisterRequest) (hashedPassword : String) :
    User :=
  { ID := nextUserID s, Username := req.Username, PasswordHash := hashedPassword,
    Phone := req.Phone, PushDeerToken := req.PushDeerToken, Status := StatusUser,
    CreatedAt := now, UpdatedAt := now, DeletedAt := none, LastLogin := none }

/-- One `Register` call together with its environment. -/
structure RegisterCall where
  faults : StoreFaults
  lib : CryptoLib
  now : Time
  body : Option RegisterRequest

/-- A sequence of `Register` calls from store `s`: the responses in call order and
the store after the last call. -/
def runRegister (cfg : Config) (s : Store) : List RegisterCall → List RegisterResponse × Store
  | [] => ([], s)
  | call :: calls =>
    let r := Register call.faults call.lib cfg s call.now call.body
    let rest := runRegister cfg r.2 calls
    (r.1 :: rest.1, rest.2)

/-- Whether a call asks for invite code `code` and was answered with 200. -/
def redeems (code : String) (p : RegisterCall × RegisterResponse) : Bool :=
  decide (p.2.status = 200) &&
    match p.1.body with
    | some req => decide (req.InviteCode = code)
    | none => false

/-- The number of calls of a run that were answered with 200 for invite code `code`. -/
def redemptions (cfg : Config) (s : Store) (code : String) (calls : List RegisterCall) : Nat :=
  ((calls.zip (runRegister cfg s calls).1).filter (redeems code)).length

/-- What `ValidateNKey` must not touch in a token row: primary key, value, owner,
app list and expiry. -/
def nkeyScope (k : NKey) : Nat × String × Nat × String × Time :=
  (k.ID, k.KeyValue, k.UserID, k.AppIDs, k.ExpiresAt)

/-- Primary keys of the `apps` table are unique. -/
def appIDsUnique (s : Store) : Prop :=
  ∀ a ∈ s.apps, ∀ b ∈ s.apps, a.AppID = b.AppID → a = b

/-! ## Sample data

A store shaped like the seeded one (`SeedData`), used to evaluate the handlers at
concrete inputs. -/

/-- A user row with the given id, name and role. -/
def sampleUser (id : Nat) (name : String) (role : UserStatus) : User :=
  { ID := id, Username := name, PasswordHash := "$2a$10$hash", Phone := "", PushDeerToken := "",
    Status := role, CreatedAt := 0, UpdatedAt := 0, DeletedAt := none, LastLogin := none }

/-- An app row with the given id, required level and active flag. -/
def sampleApp (id : String) (level : UserStatus) (active : Bool) : App :=
  { AppID := id, SecretKey := "secret_" ++ id ++ "_key_change_in_production", Name := id,
    Description := "", URL := "", RequiredPermissionLevel := level, IsActive := active,
    CreatedAt := 0, UpdatedAt := 0 }

/-- An override row for `(userID, appID)`. -/
def sampleOverride (id userID : Nat) (appID : String) (enabled : Bool)
    (validUntil : Option Time) : UserAllowedApp :=
  { ID := id, UserID := userID, AppID := appID, Enabled := enabled, ValidUntil := validUntil,
    CustomLimit := "", CreatedAt := 0, UpdatedAt := 0 }

/-- Four users, one per role, and three of the seeded apps; no overrides, no tokens. -/
def sampleStore : Store :=
  { users := [sampleUser 1 "root" StatusAdmin, sampleUser 2 "eve" StatusTrusted,
              sampleUser 3 "bob" StatusUser, sampleUser 4 "dan" StatusDisabledUser],
    apps := [sampleApp "searchall" StatusUser true,
             sampleApp "advanced_analytics" StatusTrusted true,
             sampleApp "livecontent_admin" StatusAdmin true],
    userAllowedApps := [], nkeys := [] }

/-- The session context of a user row. -/
def sessionOf (u : User) : Context :=
  { user_id := u.ID, username := u.Username, user_status := u.Status }

/-- The configuration with no environment variable set. -/
def defaultConfig : Config := LoadConfig (fun _ => "") (fun _ => none)

/-- An `ApplyNKey` request body for the given list. -/
def applyBody (appIDs : List String) : Option ApplyNKeyRequest :=
  some { Username := [], AppIDs := some appIDs }

/-- A `ValidateNKey` request. -/
def validateReq (nkey appID : String) : ValidateNKeyRequest :=
  { NKey := nkey, AppID := appID }

/-- An unused token row as `ApplyNKey` stores it. -/
def sampleNKey (id : Nat) (key : String) (owner : Nat) (apps : List String)
    (expiresAt : Time) : NKey :=
  { ID := id, KeyValue := key, UserID := owner, AppIDs := jsonMarshalStrings apps,
    ExpiresAt := expiresAt, FirstUsedAt := none, FirstUsedApp := "", IsUsed := false,
    CreatedAt := 0 }

/-- The sample store with one token of user 3 for `searchall` and
`advanced_analytics`, expiring at instant 1000. -/
def tokenStore : Store :=
  { sampleStore with
    nkeys := [sampleNKey 1 "TOUNET_3_abc" 3 ["searchall", "advanced_analytics"] 1000] }

/-- The token store after the first use of its token, for `advanced_analytics` at
instant 10. -/
def usedTokenStore : Store :=
  (ValidateNKey tokenStore 10 (some (validateReq "TOUNET_3_abc" "advanced_analytics"))).2

/-- The sample store with an override row for the admin user on `searchall`. -/
def overrideStore (enabled : Bool) (validUntil : Option Time) : Store :=
  { sampleStore with userAllowedApps := [sampleOverride 1 1 "searchall" enabled validUntil] }

/-- An environment that sets only `NKEY_EXPIRATION`. -/
def longTTLEnv (key : String) : String :=
  if key = "NKEY_EXPIRATION" then "4660h20m16.999999999s" else ""

/-- The value of `time.ParseDuration` at the one string `longTTLEnv` holds:
4660 h 20 min 16.999999999 s is 16777216999999999 ns. -/
def longTTLParse (value : String) : Option Duration :=
  if value = "4660h20m16.999999999s" then some 16777216999999999 else none

/-- The configuration loaded from `longTTLEnv`. -/
def longTTLConfig : Config := LoadConfig longTTLEnv longTTLParse

/-- A toy stand-in for the libraries, for evaluation: the hash of `p` is
`"bcrypt:" ++ p`, and the token is built from the user name and the secret. -/
def sampleLib : CryptoLib :=
  { bcryptGenerate := fun p => some ("bcrypt:" ++ p)
    bcryptCompare := fun h p => decide (h = "bcrypt:" ++ p)
    signedString := fun c secret => some ("jwt." ++ c.Username ++ "." ++ secret) }

/-- An invite row. -/
def sampleInvite (code : String) (usedBy : Option Nat) (usedAt : Option Time) : InviteCode :=
  { Code := code, Time := 0, CodeUserID := usedBy, UsedAt := usedAt }

/-- The sample store with one fresh invite and one invite redeemed by user 3. -/
def inviteStore : Store :=
  { sampleStore with
    inviteCodes := [sampleInvite "FRESH-CODE" none none, sampleInvite "USED-CODE" (some 3) (some 5)] }

/-- A `Register` request body. -/
def registerReq (username password code : String) : RegisterRequest :=
  { Username := username, Password := password, Phone := "555-0100",
    PushDeerToken := "PDU1", InviteCode := code }

/-- A `Register` call on a reliable store with the sample libraries. -/
def registerCall (now : Time) (username password code : String) : RegisterCall :=
  { faults := noFaults, lib := sampleLib, now := now,
    body := some (registerReq username password code) }

/-- A store on which the user write goes through and the invite write fails. -/
def inviteWriteFails : StoreFaults := { createUser := false, saveInvite := true }

/-- The sample store in which the stored role of user 3 was raised to admin after
the session was issued. -/
def promotedStore : Store :=
  { sampleStore with
    users := [sampleUser 1 "root" StatusAdmin, sampleUser 2 "eve" StatusTrusted,
              sampleUser 3 "bob" StatusAdmin, sampleUser 4 "dan" StatusDisabledUser] }

/-- The token store after `searchall` was deactivated, `advanced_analytics` was
deleted, and a disabled override for user 3 on `searchall` was added. -/
def changedAppsStore : Store :=
  { tokenStore with
    apps := [sampleApp "searchall" StatusUser false,
             sampleApp "livecontent_admin" StatusAdmin true],
    userAllowedApps := [sampleOverride 1 3 "searchall" false none] }

/-- The sample store with two more apps: one open to every role, one inactive. -/
def catalogStore : Store :=
  { sampleStore with
    apps := [sampleApp "searchall" StatusUser true,
             sampleApp "advanced_analytics" StatusTrusted true,
             sampleApp "livecontent_admin" StatusAdmin true,
             sampleApp "status_page" StatusDisabledUser true,
             sampleApp "retired" StatusDisabledUser false],
    userAllowedApps := [sampleOverride 1 3 "searchall" false (some 50)] }

/-- Request data of a sample admin call. -/
def sampleInfo : RequestInfo := { ClientIP := "192.0.2.1", UserAgent := "curl/8.0" }

/-- A database that finds no row for any raw condition. -/
def noRawWhere : String → Store → Option User := fun _ _ => none

/-- A toy JWT parser, for evaluation: it knows the tokens of `table`, each listed
with the key it was signed under and with what the parser reads off it. -/
def tableJWTLib (table : List (String × String × ParsedToken)) : JWTLib :=
  { parseUnverified := fun tok => (table.find? (fun e => decide (e.1 = tok))).map (fun e => e.2.2)
    verify := fun tok key => table.any (fun e => decide (e.1 = tok) && decide (e.2.1 = key)) }

/-- The parser that knows three tokens signed by `sampleLib` under `"s3cret"`:
the one of user 3 with a TTL of 1.5 s and the one of user 2 with the default TTL
of 24 h, both with clock reads 0.6 s and 100 ns later, and the one of user 4 with
the default TTL and clock reads 100 ns before and 100 ns after instant 1 s. -/
def sampleJWTLib : JWTLib :=
  tableJWTLib
    [("jwt.bob.s3cret", "s3cret",
        { hmac := true,
          claims := newClaims (sampleUser 3 "bob" StatusUser) 1500000000 600000000 600000100 }),
     ("jwt.eve.s3cret", "s3cret",
        { hmac := true,
          claims := newClaims (sampleUser 2 "eve" StatusTrusted) defaultConfig.JWTExpiration
            600000000 600000100 }),
     ("jwt.dan.s3cret", "s3cret",
        { hmac := true,
          claims := newClaims (sampleUser 4 "dan" StatusDisabledUser) defaultConfig.JWTExpiration
            999999900 1000000100 })]

/-- A `Register` call with the sample libraries whose invite write fails. -/
def lossyRegisterCall (now : Time) (username password code : String) : RegisterCall :=
  { faults := inviteWriteFails, lib := sampleLib, now := now,
    body := some (registerReq username password code) }

/-! ## The `ApplyNKey` loop -/

theorem validateRequestedApps_granted (s : Store) (now : Time) (c : Context) (l : List String) :
    ∀ acc : List String, (∀ a ∈ l, appGranted s now c a = true) →
      validateRequestedApps s now c l acc = .ok (acc ++ l) := by
  induction l with
  | nil => intro acc _; simp [validateRequestedApps]
  | cons a l ih =>
    intro acc h
    have ha := h a (List.mem_cons_self a l)
    unfold appGranted at ha
    cases hf : findActiveApp s a with
    | none => simp [hf] at ha
    | some app =>
      simp only [hf] at ha
      simp only [validateRequestedApps, hf, ha, Bool.not_true, Bool.false_eq_true, if_false]
      rw [ih (acc ++ [a]) (fun b hb => h b (List.mem_cons_of_mem a hb))]
      simp

theorem validateRequestedApps_rejected_head (s : Store) (now : Time) (c : Context)
    (a : String) (l acc : List String) (h : appGranted s now c a = false) :
    validateRequestedApps s now c (a :: l) acc = .error (appRejection s a) := by
  unfold appGranted at h
  unfold appRejection
  cases hf : findActiveApp s a with
  | none => simp [validateRequestedApps, hf]
  | some app =>
    simp only [hf] at h
    simp [validateRequestedApps, hf, h]

theorem validateRequestedApps_first_rejected (s : Store) (now : Time) (c : Context)
    (pre : List String) (a : String) (post : List String) :
    ∀ acc : List String, (∀ b ∈ pre, appGranted s now c b = true) →
      appGranted s now c a = false →
      validateRequestedApps s now c (pre ++ a :: post) acc = .error (appRejection s a) := by
  induction pre with
  | nil => intro acc _ h; exact validateRequestedApps_rejected_head s now c a post acc h
  | cons b pre ih =>
    intro acc hpre h
    have hb := hpre b (List.mem_cons_self b pre)
    unfold appGranted at hb
    cases hf : findActiveApp s b with
    | none => simp [hf] at hb
    | some app =>
      simp only [hf] at hb
      simp only [List.cons_append, validateRequestedApps, hf, hb, Bool.not_true,
        Bool.false_eq_true, if_false]
      exact ih (acc ++ [b]) (fun x hx => hpre x (List.mem_cons_of_mem b hx)) h

theorem appRejection_status (s : Store) (a : String) :
    (appRejection s a).status ≠ 200 ∧ (appRejection s a).data = none := by
  unfold appRejection
  cases findActiveApp s a <;> simp

theorem validateRequestedApps_some_rejected (s : Store) (now : Time) (c : Context)
    (l : List String) : ∀ acc : List String, (∃ a ∈ l, appGranted s now c a = false) →
      ∃ b ∈ l, appGranted s now c b = false
        ∧ validateRequestedApps s now c l acc = .error (appRejection s b) := by
  induction l with
  | nil => intro acc h; obtain ⟨a, ha, _⟩ := h; simp at ha
  | cons x l ih =>
    intro acc h
    cases hx : appGranted s now c x with
    | false =>
      exact ⟨x, List.mem_cons_self x l, hx, validateRequestedApps_rejected_head s now c x l acc hx⟩
    | true =>
      obtain ⟨a, ha, hbad⟩ := h
      have hal : a ∈ l := by
        rcases List.mem_cons.mp ha with rfl | h'
        · rw [hx] at hbad; exact absurd hbad (by decide)
        · exact h'
      obtain ⟨b, hb, hbbad, hrun⟩ := ih (acc ++ [x]) ⟨a, hal, hbad⟩
      refine ⟨b, List.mem_cons_of_mem x hb, hbbad, ?_⟩
      have hx' := hx
      unfold appGranted at hx'
      cases hf : findActiveApp s x with
      | none => simp [hf] at hx'
      | some app =>
        simp only [hf] at hx'
        simp only [validateRequestedApps, hf, hx', Bool.not_true, Bool.false_eq_true, if_false]
        exact hrun

/-- A request with a rejected entry gets an error response and changes nothing. -/
theorem ApplyNKey_rejected (cfg : Config) (s : Store) (now : Time) (c : Context)
    (req : ApplyNKeyRequest) (rnd : Option String) (L : List String)
    (hreq : req.AppIDs = some L) (hbad : ∃ a ∈ L, appGranted s now c a = false) :
    (ApplyNKey cfg s now c (some req) rnd).2 = s
    ∧ (ApplyNKey cfg s now c (some req) rnd).1.data = none
    ∧ (ApplyNKey cfg s now c (some req) rnd).1.status ≠ 200 := by
  obtain ⟨b, _, _, hrun⟩ := validateRequestedApps_some_rejected s now c L [] hbad
  obtain ⟨hst, hdata⟩ := appRejection_status s b
  unfold ApplyNKey
  simp only [bindApplyNKeyRequest, hreq]
  cases hu : findUser s c.user_id with
  | none => simp
  | some u => simp only [hrun]; exact ⟨trivial, hdata, hst⟩

/-! ## Role gate of `userHasAppPermission` -/

/-- C1 (the code departs from the claim): with no `UserAllowedApp` record, a
`user`-role and a `disableduser`-role identity are both granted an app whose
required level is `trusted`, although `HasPermission` denies both; `ApplyNKey`
then issues a `user`-role identity a token for the seeded `trusted`-level app. -/
theorem userHasAppPermission_trusted_level_unchecked :
    userHasAppPermission sampleStore 100 3 "advanced_analytics" StatusUser StatusTrusted = true
    ∧ HasPermission StatusUser StatusTrusted = false
    ∧ userHasAppPermission sampleStore 100 4 "advanced_analytics" StatusDisabledUser
        StatusTrusted = true
    ∧ HasPermission StatusDisabledUser StatusTrusted = false
    ∧ (ApplyNKey defaultConfig sampleStore 100 (sessionOf (sampleUser 3 "bob" StatusUser))
        (applyBody ["advanced_analytics"]) (some "r")).1.status = 200 := by
  decide

theorem basicLevelDenied_admin (role : UserStatus) (h : role ≠ StatusAdmin) :
    basicLevelDenied role StatusAdmin = true := by
  simp [basicLevelDenied, h]

/-- C2: for an app whose required level is `admin`, `userHasAppPermission` returns
`false` for every role other than `admin`, whatever the store holds as override;
`ApplyNKey` on a list whose first rejected entry is such an active app answers
403 "no permission for app: <id>" and leaves the store as it was; and on any list
containing that app it never answers 200 and changes nothing. -/
theorem admin_level_requires_admin_role (cfg : Config) (s : Store) (now : Time) (c : Context)
    (req : ApplyNKeyRequest) (rnd : Option String) (pre post : List String) (appID : String)
    (app : App)
    (hrole : c.user_status ≠ StatusAdmin)
    (hreq : req.AppIDs = some (pre ++ appID :: post))
    (huser : (findUser s c.user_id).isSome = true)
    (hpre : ∀ a ∈ pre, appGranted s now c a = true)
    (happ : findActiveApp s appID = some app)
    (hlevel : app.RequiredPermissionLevel = StatusAdmin) :
    (∀ (s' : Store) (now' : Time) (userID : Nat) (id : String),
        userHasAppPermission s' now' userID id c.user_status StatusAdmin = false)
    ∧ ApplyNKey cfg s now c (some req) rnd
        = ({ status := 403, code := 403, message := "no permission for app: " ++ appID,
             data := none }, s)
    ∧ (∀ (req' : ApplyNKeyRequest) (L : List String), req'.AppIDs = some L → appID ∈ L →
        (ApplyNKey cfg s now c (some req') rnd).1.status ≠ 200
        ∧ (ApplyNKey cfg s now c (some req') rnd).2 = s) := by
  have hdeny : ∀ (s' : Store) (now' : Time) (userID : Nat) (id : String),
      userHasAppPermission s' now' userID id c.user_status StatusAdmin = false := by
    intro s' now' userID id
    simp [userHasAppPermission, basicLevelDenied_admin _ hrole]
  have hrej : appGranted s now c appID = false := by
    simp [appGranted, happ, hlevel, hdeny]
  refine ⟨hdeny, ?_, ?_⟩
  · have hloop := validateRequestedApps_first_rejected s now c pre appID post [] hpre hrej
    obtain ⟨u, hu⟩ := Option.isSome_iff_exists.mp huser
    simp [ApplyNKey, bindApplyNKeyRequest, hreq, hu, hloop, appRejection, happ]
  · intro req' L hreq' hmem
    obtain ⟨h1, _, h3⟩ := ApplyNKey_rejected cfg s now c req' rnd L hreq' ⟨appID, hmem, hrej⟩
    exact ⟨h3, h1⟩

/-- Witness for C2: the `trusted` user asks for `["searchall", "livecontent_admin"]`. -/
theorem admin_level_requires_admin_role_witness :
    (∀ (s' : Store) (now' : Time) (userID : Nat) (id : String),
        userHasAppPermission s' now' userID id StatusTrusted StatusAdmin = false)
    ∧ ApplyNKey defaultConfig sampleStore 50 (sessionOf (sampleUser 2 "eve" StatusTrusted))
        (applyBody ["searchall", "livecontent_admin"]) (some "r")
        = ({ status := 403, code := 403, message := "no permission for app: livecontent_admin",
             data := none }, sampleStore) :=
  admin_level_requires_admin_role defaultConfig sampleStore 50
    (sessionOf (sampleUser 2 "eve" StatusTrusted))
    { Username := [], AppIDs := some ["searchall", "livecontent_admin"] } (some "r")
    ["searchall"] [] "livecontent_admin" (sampleApp "livecontent_admin" StatusAdmin true)
    (by decide) rfl (by decide) (by decide) (by decide) rfl
  |> fun h => ⟨h.1, h.2.1⟩

/-! ## `ValidateNKey`: expiry and scope -/

theorem bindValidateNKeyRequest_some (req : ValidateNKeyRequest)
    (h1 : req.NKey ≠ "") (h2 : req.AppID ≠ "") :
    bindValidateNKeyRequest (some req) = some req := by
  simp [bindValidateNKeyRequest, h1, h2]

/-- The run of `ValidateNKey` on a bound request whose token is found and not expired. -/
theorem ValidateNKey_unexpired (s : Store) (now : Time) (req : ValidateNKeyRequest) (nkey : NKey)
    (h1 : req.NKey ≠ "") (h2 : req.AppID ≠ "")
    (hfind : findNKey s req.NKey = some nkey) (hexp : ¬ nkey.ExpiresAt < now) :
    ValidateNKey s now (some req) =
      match jsonUnmarshalStrings nkey.AppIDs with
      | none =>
        ({ status := 500, code := 500, message := "invalid nkey data", data := none }, s)
      | some appIDs =>
        if req.AppID ∈ appIDs then
          ({ status := 200, code := 200, message := "success",
             data := some { valid := true, username := (preloadUser s nkey).Username,
                            user_role := (preloadUser s nkey).Status } },
           if nkey.IsUsed = true then s
           else saveNKey s { nkey with FirstUsedAt := some now, FirstUsedApp := req.AppID,
                                       IsUsed := true })
        else
          ({ status := 403, code := 403, message := "no permission for app", data := none }, s) := by
  simp only [ValidateNKey, bindValidateNKeyRequest_some req h1 h2, hfind, hexp, if_false]
  cases hdec : jsonUnmarshalStrings nkey.AppIDs with
  | none => rfl
  | some appIDs =>
    by_cases hmem : req.AppID ∈ appIDs
    · have hany : (appIDs.any fun appID => decide (appID = req.AppID)) = true := by
        simp only [List.any_eq_true, decide_eq_true_eq]
        exact ⟨req.AppID, hmem, rfl⟩
      cases hused : nkey.IsUsed <;> simp [hany, hmem, hused]
    · have hany : (appIDs.any fun appID => decide (appID = req.AppID)) = false := by
        rw [List.any_eq_false]
        intro x hx
        simp only [decide_eq_true_eq]
        rintro rfl
        exact hmem hx
      simp [hany, hmem]

/-- C3: on a bound request whose token is stored, `ValidateNKey` answers "expired
nkey" exactly when `now` is strictly after `ExpiresAt`, whatever the target app id
and the stored app list are (the expiry test comes first); the answer is then 401
and the store is untouched; at `now = ExpiresAt` the token is not reported expired. -/
theorem ValidateNKey_expired_iff (s : Store) (now : Time) (req : ValidateNKeyRequest)
    (nkey : NKey) (h1 : req.NKey ≠ "") (h2 : req.AppID ≠ "")
    (hfind : findNKey s req.NKey = some nkey) :
    ((ValidateNKey s now (some req)).1.message = "expired nkey" ↔ nkey.ExpiresAt < now)
    ∧ (nkey.ExpiresAt < now →
        ValidateNKey s now (some req)
          = ({ status := 401, code := 401, message := "expired nkey", data := none }, s))
    ∧ (now = nkey.ExpiresAt → (ValidateNKey s now (some req)).1.message ≠ "expired nkey") := by
  have hexpired : nkey.ExpiresAt < now →
      ValidateNKey s now (some req)
        = ({ status := 401, code := 401, message := "expired nkey", data := none }, s) := by
    intro h
    simp [ValidateNKey, bindValidateNKeyRequest_some req h1 h2, hfind, h]
  have hfresh : ¬ nkey.ExpiresAt < now →
      (ValidateNKey s now (some req)).1.message ≠ "expired nkey" := by
    intro h
    rw [ValidateNKey_unexpired s now req nkey h1 h2 hfind h]
    cases jsonUnmarshalStrings nkey.AppIDs with
    | none => simp only []; decide
    | some appIDs =>
      by_cases hmem : req.AppID ∈ appIDs
      · simp only [hmem, if_true]; decide
      · simp only [hmem, if_false]; decide
  refine ⟨⟨fun h => ?_, fun h => by rw [hexpired h]⟩, hexpired,
    fun h => hfresh (by rw [h]; exact lt_irrefl _)⟩
  by_contra hn
  exact hfresh hn h

/-- Witness for C3: an expired token presented for an app outside its list. -/
theorem ValidateNKey_expired_iff_witness :
    ValidateNKey tokenStore 1001 (some (validateReq "TOUNET_3_abc" "livecontent_admin"))
      = ({ status := 401, code := 401, message := "expired nkey", data := none }, tokenStore) :=
  (ValidateNKey_expired_iff tokenStore 1001 (validateReq "TOUNET_3_abc" "livecontent_admin")
    (sampleNKey 1 "TOUNET_3_abc" 3 ["searchall", "advanced_analytics"] 1000)
    (by decide) (by decide) (by decide)).2.1 (by decide)

/-- C4: on a bound request whose token is stored, not expired, and whose `AppIDs`
decodes to `L`, `ValidateNKey` answers 403 "no permission for app" (store
untouched) exactly when the target app id is not an element of `L`, and answers
200 "success" otherwise. Membership in `L` is equality of strings. -/
theorem ValidateNKey_scope_iff (s : Store) (now : Time) (req : ValidateNKeyRequest)
    (nkey : NKey) (L : List String) (h1 : req.NKey ≠ "") (h2 : req.AppID ≠ "")
    (hfind : findNKey s req.NKey = some nkey) (hexp : ¬ nkey.ExpiresAt < now)
    (hdec : jsonUnmarshalStrings nkey.AppIDs = some L) :
    (req.AppID ∉ L →
        ValidateNKey s now (some req)
          = ({ status := 403, code := 403, message := "no permission for app", data := none }, s))
    ∧ (req.AppID ∈ L →
        (ValidateNKey s now (some req)).1
          = { status := 200, code := 200, message := "success",
              data := some { valid := true, username := (preloadUser s nkey).Username,
                             user_role := (preloadUser s nkey).Status } })
    ∧ ((ValidateNKey s now (some req)).1.status = 403 ↔ req.AppID ∉ L)
    ∧ ((ValidateNKey s now (some req)).1.status = 200 ↔ req.AppID ∈ L) := by
  have hrun := ValidateNKey_unexpired s now req nkey h1 h2 hfind hexp
  rw [hdec] at hrun
  by_cases hmem : req.AppID ∈ L
  · simp only [hmem, if_true] at hrun
    simp [hrun, hmem]
  · simp only [hmem, if_false] at hrun
    simp [hrun, hmem]

/-- Witness for C4: the token for `searchall` and `advanced_analytics` presented
for `SearchAll`, which differs from `searchall` in case only. -/
theorem ValidateNKey_scope_iff_witness :
    ValidateNKey tokenStore 1000 (some (validateReq "TOUNET_3_abc" "SearchAll"))
      = ({ status := 403, code := 403, message := "no permission for app", data := none },
         tokenStore) :=
  (ValidateNKey_scope_iff tokenStore 1000 (validateReq "TOUNET_3_abc" "SearchAll")
    (sampleNKey 1 "TOUNET_3_abc" 3 ["searchall", "advanced_analytics"] 1000)
    ["searchall", "advanced_analytics"]
    (by decide) (by decide) (by decide) (by decide) (by decide)).1 (by decide)

/-! ## `ValidateNKey`: first-use bookkeeping -/

theorem findNKey_some {s : Store} {v : String} {nkey : NKey} (h : findNKey s v = some nkey) :
    nkey ∈ s.nkeys ∧ nkey.KeyValue = v := by
  unfold findNKey at h
  exact ⟨List.mem_of_find?_eq_some h, by simpa using List.find?_some h⟩

theorem nkeyIDsUnique_saveNKey (s : Store) (nkey : NKey) (h : nkeyIDsUnique s) :
    nkeyIDsUnique (saveNKey s nkey) := by
  intro a ha b hb hab
  simp only [saveNKey, List.mem_map] at ha hb
  obtain ⟨a0, ha0, rfl⟩ := ha
  obtain ⟨b0, hb0, rfl⟩ := hb
  by_cases h1 : a0.ID = nkey.ID <;> by_cases h2 : b0.ID = nkey.ID
  · simp [h1, h2]
  · simp only [h1, h2, if_true, if_false] at hab
    exact absurd hab.symm h2
  · simp only [h1, h2, if_true, if_false] at hab
  · simp only [h1, h2, if_false] at hab ⊢
    exact h a0 ha0 b0 hb0 hab

/-- A call that is not answered with 200 leaves the whole store as it was. -/
theorem ValidateNKey_failed_store (s : Store) (now : Time) (body : Option ValidateNKeyRequest)
    (h : (ValidateNKey s now body).1.status ≠ 200) : (ValidateNKey s now body).2 = s := by
  unfold ValidateNKey at h ⊢
  cases hb : bindValidateNKeyRequest body with
  | none => simp
  | some req =>
    cases hf : findNKey s req.NKey with
    | none => simp [hf]
    | some nkey =>
      by_cases hexp : nkey.ExpiresAt < now
      · simp [hf, hexp]
      · cases hdec : jsonUnmarshalStrings nkey.AppIDs with
        | none => simp [hf, hexp, hdec]
        | some appIDs =>
          cases hany : appIDs.any (fun appID => decide (appID = req.AppID)) with
          | false => simp only [hf, hexp, hdec, hany]; simp
          | true => simp only [hb, hf, hexp, hdec, hany] at h; simp at h

/-- C6: a used token stays usable. On a bound request whose token is stored, not
expired and already used, for any app id of its decoded list, `ValidateNKey`
answers 200 "success" with the username and role of the owner row and leaves the
store as it is; and a first use (same request on any store where the token is
unused, unexpired, has the same app list and the same owner row) gets the same
response. -/
theorem ValidateNKey_used_token_succeeds (s : Store) (now : Time) (req : ValidateNKeyRequest)
    (nkey : NKey) (L : List String) (h1 : req.NKey ≠ "") (h2 : req.AppID ≠ "")
    (hfind : findNKey s req.NKey = some nkey) (hexp : ¬ nkey.ExpiresAt < now)
    (hused : nkey.IsUsed = true) (hdec : jsonUnmarshalStrings nkey.AppIDs = some L)
    (hmem : req.AppID ∈ L) :
    ValidateNKey s now (some req)
      = ({ status := 200, code := 200, message := "success",
           data := some { valid := true, username := (preloadUser s nkey).Username,
                          user_role := (preloadUser s nkey).Status } }, s)
    ∧ (∀ u : User, findUser s nkey.UserID = some u →
        (ValidateNKey s now (some req)).1.data
          = some { valid := true, username := u.Username, user_role := u.Status })
    ∧ (∀ (s0 : Store) (now0 : Time) (nkey0 : NKey),
        findNKey s0 req.NKey = some nkey0 → ¬ nkey0.ExpiresAt < now0 → nkey0.IsUsed = false →
        nkey0.AppIDs = nkey.AppIDs → preloadUser s0 nkey0 = preloadUser s nkey →
        (ValidateNKey s0 now0 (some req)).1 = (ValidateNKey s now (some req)).1) := by
  have hrun := ValidateNKey_unexpired s now req nkey h1 h2 hfind hexp
  rw [hdec] at hrun
  simp only [hmem, hused, if_true] at hrun
  refine ⟨hrun, ?_, ?_⟩
  · intro u hu
    rw [hrun]
    simp [preloadUser, hu]
  · intro s0 now0 nkey0 hf0 hexp0 _ happs hpre
    have hrun0 := ValidateNKey_unexpired s0 now0 req nkey0 h1 h2 hf0 hexp0
    rw [happs, hdec] at hrun0
    simp only [hmem, if_true] at hrun0
    rw [hrun0, hrun, hpre]

/-- Witness for C6: the token first used for `advanced_analytics` is presented
again, for `searchall`. -/
theorem ValidateNKey_used_token_succeeds_witness :
    ValidateNKey usedTokenStore 20 (some (validateReq "TOUNET_3_abc" "searchall"))
      = ({ status := 200, code := 200, message := "success",
           data := some { valid := true, username := "bob", user_role := "user" } },
         usedTokenStore) :=
  (ValidateNKey_used_token_succeeds usedTokenStore 20 (validateReq "TOUNET_3_abc" "searchall")
    { sampleNKey 1 "TOUNET_3_abc" 3 ["searchall", "advanced_analytics"] 1000 with
      FirstUsedAt := some 10, FirstUsedApp := "advanced_analytics", IsUsed := true }
    ["searchall", "advanced_analytics"]
    (by decide) (by decide) (by decide) (by decide) rfl (by decide) (by decide)).1

/-! ## `ApplyNKey`: all or nothing -/

/-- C7: when some requested app id is unknown, inactive or denied, `ApplyNKey`
creates no token and returns the store exactly as it was, with an error response
(no data, status other than 200). -/
theorem ApplyNKey_all_or_nothing (cfg : Config) (s : Store) (now : Time) (c : Context)
    (req : ApplyNKeyRequest) (rnd : Option String) (L : List String)
    (hreq : req.AppIDs = some L) (hbad : ∃ a ∈ L, appGranted s now c a = false) :
    (ApplyNKey cfg s now c (some req) rnd).2 = s
    ∧ (ApplyNKey cfg s now c (some req) rnd).1.data = none
    ∧ (ApplyNKey cfg s now c (some req) rnd).1.status ≠ 200
    ∧ (ApplyNKey cfg s now c (some req) rnd).2.nkeys.length = s.nkeys.length := by
  obtain ⟨h1, h2, h3⟩ := ApplyNKey_rejected cfg s now c req rnd L hreq hbad
  exact ⟨h1, h2, h3, by rw [h1]⟩

/-- Witness for C7: the `user`-role user asks for `searchall` (granted) together
with `livecontent_admin` (denied). -/
theorem ApplyNKey_all_or_nothing_witness :
    (ApplyNKey defaultConfig sampleStore 50 (sessionOf (sampleUser 3 "bob" StatusUser))
      (applyBody ["searchall", "livecontent_admin"]) (some "r")).2 = sampleStore :=
  (ApplyNKey_all_or_nothing defaultConfig sampleStore 50
    (sessionOf (sampleUser 3 "bob" StatusUser))
    { Username := [], AppIDs := some ["searchall", "livecontent_admin"] } (some "r")
    ["searchall", "livecontent_admin"] rfl ⟨"livecontent_admin", by decide, by decide⟩).1

/-! ## Overrides -/

/-- C9: when the `UserAllowedApp` row found for (user, app) has `Enabled = false`,
`userHasAppPermission` returns `false` for every role, every required level and
every instant; `ApplyNKey` on a list whose first rejected entry is that app,
active, answers 403 "no permission for app: <id>" and leaves the store as it was;
and on any list containing that app it never answers 200 and changes nothing. -/
theorem disabled_override_denies (cfg : Config) (s : Store) (now : Time) (c : Context)
    (req : ApplyNKeyRequest) (rnd : Option String) (pre post : List String) (appID : String)
    (app : App) (userApp : UserAllowedApp)
    (hov : findUserAllowedApp s c.user_id appID = some userApp)
    (hdis : userApp.Enabled = false)
    (hreq : req.AppIDs = some (pre ++ appID :: post))
    (huser : (findUser s c.user_id).isSome = true)
    (hpre : ∀ a ∈ pre, appGranted s now c a = true)
    (happ : findActiveApp s appID = some app) :
    (∀ (now' : Time) (role level : UserStatus),
        userHasAppPermission s now' c.user_id appID role level = false)
    ∧ ApplyNKey cfg s now c (some req) rnd
        = ({ status := 403, code := 403, message := "no permission for app: " ++ appID,
             data := none }, s)
    ∧ (∀ (req' : ApplyNKeyRequest) (L : List String), req'.AppIDs = some L → appID ∈ L →
        (ApplyNKey cfg s now c (some req') rnd).1.status ≠ 200
        ∧ (ApplyNKey cfg s now c (some req') rnd).2 = s) := by
  have hdeny : ∀ (now' : Time) (role level : UserStatus),
      userHasAppPermission s now' c.user_id appID role level = false := by
    intro now' role level
    unfold userHasAppPermission
    cases basicLevelDenied role level with
    | true => simp
    | false => simp [hov, overrideDenied, hdis]
  have hrej : appGranted s now c appID = false := by
    simp [appGranted, happ, hdeny]
  refine ⟨hdeny, ?_, ?_⟩
  · have hloop := validateRequestedApps_first_rejected s now c pre appID post [] hpre hrej
    obtain ⟨u, hu⟩ := Option.isSome_iff_exists.mp huser
    simp [ApplyNKey, bindApplyNKeyRequest, hreq, hu, hloop, appRejection, happ]
  · intro req' L hreq' hmem
    obtain ⟨h1, _, h3⟩ := ApplyNKey_rejected cfg s now c req' rnd L hreq' ⟨appID, hmem, hrej⟩
    exact ⟨h3, h1⟩

/-- Witness for C9: the admin user has a disabled override on `searchall`. -/
theorem disabled_override_denies_witness :
    ApplyNKey defaultConfig (overrideStore false none) 50
        (sessionOf (sampleUser 1 "root" StatusAdmin))
        (applyBody ["livecontent_admin", "searchall"]) (some "r")
      = ({ status := 403, code := 403, message := "no permission for app: searchall",
           data := none }, overrideStore false none) :=
  (disabled_override_denies defaultConfig (overrideStore false none) 50
    (sessionOf (sampleUser 1 "root" StatusAdmin))
    { Username := [], AppIDs := some ["livecontent_admin", "searchall"] } (some "r")
    ["livecontent_admin"] [] "searchall" (sampleApp "searchall" StatusUser true)
    (sampleOverride 1 1 "searchall" false none)
    (by decide) rfl rfl (by decide) (by decide) (by decide)).2.1

/-- C10: an override only restricts. If `userHasAppPermission` returns `true` on
some store (whatever row it holds for the pair), it returns `true` on every store
without a row for the pair, for the same role and level; so a denial without a
row is a denial with any row. Without a row the result is the role switch alone,
and where the role switch denies, the result is `false` on every store. -/
theorem override_only_restricts (s s0 : Store) (now now0 : Time) (userID : Nat)
    (appID : String) (role level : UserStatus)
    (habsent : findUserAllowedApp s0 userID appID = none) :
    (userHasAppPermission s now userID appID role level = true →
        userHasAppPermission s0 now0 userID appID role level = true)
    ∧ (userHasAppPermission s0 now0 userID appID role level = false →
        userHasAppPermission s now userID appID role level = false)
    ∧ userHasAppPermission s0 now0 userID appID role level = !basicLevelDenied role level
    ∧ (basicLevelDenied role level = true →
        userHasAppPermission s now userID appID role level = false) := by
  have h0 : userHasAppPermission s0 now0 userID appID role level
      = !basicLevelDenied role level := by
    unfold userHasAppPermission
    cases basicLevelDenied role level <;> simp [habsent, overrideDenied]
  have hs : basicLevelDenied role level = true →
      userHasAppPermission s now userID appID role level = false := by
    intro h
    simp [userHasAppPermission, h]
  refine ⟨?_, ?_, h0, hs⟩
  · intro h
    rw [h0]
    cases hb : basicLevelDenied role level with
    | false => rfl
    | true => rw [hs hb] at h; exact absurd h (by decide)
  · intro h
    rw [h0] at h
    apply hs
    cases hb : basicLevelDenied role level with
    | false => rw [hb] at h; exact absurd h (by decide)
    | true => rfl

/-- Witness for C10: the `disableduser` user is denied `searchall` without an
override, hence also with an enabled, unlimited one. -/
theorem override_only_restricts_witness :
    userHasAppPermission
      { sampleStore with userAllowedApps := [sampleOverride 1 4 "searchall" true none] }
      50 4 "searchall" StatusDisabledUser StatusUser = false :=
  (override_only_restricts
    { sampleStore with userAllowedApps := [sampleOverride 1 4 "searchall" true none] }
    sampleStore 50 50 4 "searchall" StatusDisabledUser StatusUser (by decide)).2.1 (by decide)

/-! ## encoding/json: decoding what was encoded -/

theorem hexValue_hexDigit : ∀ d < 16, hexValue (hexDigit d) = some d := by decide

theorem char_eq_of_toNat {c : Char} {k : Nat} (h : c.toNat = k) : c = Char.ofNat k := by
  rw [← h, Char.ofNat_toNat]

theorem getu4_escape (a b c d : Nat) (ha : a < 16) (hb : b < 16) (hc : c < 16) (hd : d < 16)
    (t : List Char) :
    getu4 (backslashChar :: 'u' :: hexDigit a :: hexDigit b :: hexDigit c :: hexDigit d :: t)
      = some (((a * 16 + b) * 16 + c) * 16 + d) := by
  simp [getu4, hexValue_hexDigit, ha, hb, hc, hd]

theorem backslash_ne_quote : backslashChar ≠ quoteChar := by decide

theorem unquoteBody_plain (c : Char) (t acc : List Char) (n : Nat)
    (h1 : c ≠ quoteChar) (h2 : c ≠ backslashChar) (h3 : ¬ c.toNat < 32) :
    unquoteBody (n + 1) (c :: t) acc = unquoteBody n t (acc ++ [c]) := by
  simp [unquoteBody, h1, h2, h3]

theorem unquoteBody_simple (e ch : Char) (t acc : List Char) (n : Nat)
    (h1 : e ≠ 'u') (h2 : simpleEscape e = some ch) :
    unquoteBody (n + 1) (backslashChar :: e :: t) acc = unquoteBody n t (acc ++ [ch]) := by
  simp [unquoteBody, backslash_ne_quote, h1, h2]

theorem unquoteBody_u4 (d1 d2 d3 d4 : Char) (rr : Nat) (t acc : List Char) (n : Nat)
    (h1 : getu4 (backslashChar :: 'u' :: d1 :: d2 :: d3 :: d4 :: t) = some rr)
    (h2 : isSurrogate rr = false) :
    unquoteBody (n + 1) (backslashChar :: 'u' :: d1 :: d2 :: d3 :: d4 :: t) acc
      = unquoteBody n t (acc ++ [Char.ofNat rr]) := by
  simp [unquoteBody, backslash_ne_quote, h1, h2]

theorem hexDigit_zero : hexDigit 0 = '0' := by decide
theorem hexDigit_two : hexDigit 2 = '2' := by decide

theorem unquoteBody_escapeChar (c : Char) (t acc : List Char) (n : Nat) :
    unquoteBody (n + 1) (escapeChar c ++ t) acc = unquoteBody n t (acc ++ [c]) := by
  have hc : c = Char.ofNat c.toNat := (Char.ofNat_toNat c).symm
  unfold escapeChar
  split_ifs with h1 h2 h3 h4 h5 h6 h7 h8
  · rcases h1 with rfl | rfl
    · exact unquoteBody_simple _ _ _ _ _ (by decide) (by decide)
    · exact unquoteBody_simple _ _ _ _ _ (by decide) (by decide)
  · rw [hc, h2]; exact unquoteBody_simple _ _ _ _ _ (by decide) (by decide)
  · rw [hc, h3]; exact unquoteBody_simple _ _ _ _ _ (by decide) (by decide)
  · rw [hc, h4]; exact unquoteBody_simple _ _ _ _ _ (by decide) (by decide)
  · rw [hc, h5]; exact unquoteBody_simple _ _ _ _ _ (by decide) (by decide)
  · rw [hc, h6]; exact unquoteBody_simple _ _ _ _ _ (by decide) (by decide)
  · have hlt : c.toNat < 64 := by
      rcases h7 with h | rfl | rfl | rfl
      · omega
      all_goals decide
    have hg := getu4_escape 0 0 (c.toNat / 16) (c.toNat % 16) (by decide) (by decide)
      (by omega) (by omega) t
    rw [hexDigit_zero] at hg
    have hv : ((0 * 16 + 0) * 16 + c.toNat / 16) * 16 + c.toNat % 16 = c.toNat := by omega
    rw [hv] at hg
    have := unquoteBody_u4 _ _ _ _ _ t acc n hg (by simp [isSurrogate]; omega)
    rw [← hc] at this
    exact this
  · have hlt : c.toNat / 16 = 0x202 := by rcases h8 with h | h <;> omega
    have hg := getu4_escape 2 0 2 (c.toNat % 16) (by decide) (by decide)
      (by decide) (by omega) t
    rw [hexDigit_zero, hexDigit_two] at hg
    have hv : ((2 * 16 + 0) * 16 + 2) * 16 + c.toNat % 16 = c.toNat := by omega
    rw [hv] at hg
    have := unquoteBody_u4 _ _ _ _ _ t acc n hg (by simp [isSurrogate]; omega)
    rw [← hc] at this
    exact this
  · push_neg at h1 h7
    exact unquoteBody_plain c t acc n h1.1 h1.2 (by omega)

theorem unquoteBody_escape (s t : List Char) : ∀ (acc : List Char) (n : Nat), s.length < n →
    unquoteBody n (s.flatMap escapeChar ++ quoteChar :: t) acc = some (acc ++ s, t) := by
  induction s with
  | nil =>
    intro acc n hn
    obtain ⟨m, rfl⟩ : ∃ m, n = m + 1 := ⟨n - 1, by simp at hn; omega⟩
    simp [unquoteBody]
  | cons c s ih =>
    intro acc n hn
    obtain ⟨m, rfl⟩ : ∃ m, n = m + 1 := ⟨n - 1, by simp at hn; omega⟩
    simp only [List.flatMap_cons, List.append_assoc]
    rw [unquoteBody_escapeChar, ih _ _ (by simp at hn; omega)]
    simp

theorem escapeChar_length_pos (c : Char) : 1 ≤ (escapeChar c).length := by
  unfold escapeChar
  split_ifs <;> simp

theorem length_le_flatMap_escapeChar (s : List Char) :
    s.length ≤ (s.flatMap escapeChar).length := by
  induction s with
  | nil => simp
  | cons c s ih =>
    have := escapeChar_length_pos c
    simp only [List.flatMap_cons, List.length_cons, List.length_append]
    omega

theorem parseElem_encodeString (e : String) (t : List Char) :
    parseElem (encodeString e ++ t) = some (e, t) := by
  have hfuel : e.data.length <
      (e.data.flatMap escapeChar ++ quoteChar :: t).length := by
    have := length_le_flatMap_escapeChar e.data
    simp only [List.length_append, List.length_cons]
    omega
  have h := unquoteBody_escape e.data t [] _ hfuel
  simp only [encodeString, List.cons_append, List.append_assoc, List.singleton_append]
  simp only [parseElem, if_true, h, List.nil_append]

theorem isSpace_quote : isSpace quoteChar = false := by decide

theorem skipSpace_cons_of_not_space (c : Char) (t : List Char) (h : isSpace c = false) :
    skipSpace (c :: t) = c :: t := by
  simp [skipSpace, h]

theorem encodeString_append (e : String) (t : List Char) :
    encodeString e ++ t = quoteChar :: (e.data.flatMap escapeChar ++ quoteChar :: t) := by
  simp [encodeString]

theorem parseElems_encodeElems (es : List String) : ∀ (e : String) (t : List Char)
    (acc : List String) (n : Nat), es.length < n →
    parseElems n (encodeElems (e :: es) ++ Char.ofNat 93 :: t) acc = some (acc ++ e :: es, t) := by
  induction es with
  | nil =>
    intro e t acc n hn
    obtain ⟨m, rfl⟩ : ∃ m, n = m + 1 := ⟨n - 1, by simp at hn; omega⟩
    simp only [encodeElems, parseElems, parseElem_encodeString]
    rw [skipSpace_cons_of_not_space _ _ (by decide)]
    simp
  | cons e2 es ih =>
    intro e t acc n hn
    obtain ⟨m, rfl⟩ : ∃ m, n = m + 1 := ⟨n - 1, by simp at hn; omega⟩
    have hm : es.length < m := by simp at hn; omega
    simp only [encodeElems, parseElems, List.append_assoc, List.cons_append,
      parseElem_encodeString]
    rw [skipSpace_cons_of_not_space _ _ (by decide)]
    simp only [if_true]
    have hq : skipSpace (encodeElems (e2 :: es) ++ Char.ofNat 93 :: t)
        = encodeElems (e2 :: es) ++ Char.ofNat 93 :: t := by
      cases es with
      | nil =>
        simp only [encodeElems, encodeString_append]
        exact skipSpace_cons_of_not_space _ _ isSpace_quote
      | cons e3 es =>
        simp only [encodeElems, List.append_assoc, encodeString_append]
        exact skipSpace_cons_of_not_space _ _ isSpace_quote
    rw [hq, ih e2 t (acc ++ [e]) m hm]
    simp

theorem length_le_encodeElems (es : List String) : es.length ≤ (encodeElems es).length := by
  induction es with
  | nil => simp [encodeElems]
  | cons e es ih =>
    cases es with
    | nil => simp [encodeElems, encodeString]
    | cons e2 es =>
      simp only [encodeElems, List.length_append, List.length_cons] at ih ⊢
      omega

theorem encodeElems_cons_head (e : String) (es : List String) (t : List Char) :
    ∃ rest, encodeElems (e :: es) ++ t = quoteChar :: rest := by
  cases es with
  | nil => exact ⟨_, by simp only [encodeElems]; exact encodeString_append e t⟩
  | cons e3 es =>
    exact ⟨_, by simp only [encodeElems, List.append_assoc]; exact encodeString_append e _⟩

/-- Decoding what `jsonMarshalStrings` produced gives the list back. -/
theorem jsonUnmarshal_jsonMarshal (v : List String) :
    jsonUnmarshalStrings (jsonMarshalStrings v) = some v := by
  cases v with
  | nil => decide
  | cons e es =>
    have hlen := length_le_encodeElems (e :: es)
    have hp := parseElems_encodeElems es e [] []
    obtain ⟨rest2, hc2⟩ := encodeElems_cons_head e es [Char.ofNat 93]
    have hfuel : es.length < (quoteChar :: rest2).length := by
      rw [← hc2]
      simp only [List.length_append, List.length_cons, List.length_nil] at hlen ⊢
      omega
    have hp2 := hp _ hfuel
    rw [hc2] at hp2
    simp only [jsonMarshalStrings, jsonUnmarshalStrings]
    rw [skipSpace_cons_of_not_space _ _ (by decide)]
    simp only [parseValue, if_true, hc2]
    rw [skipSpace_cons_of_not_space _ _ isSpace_quote]
    have hne : quoteChar ≠ ']' := by decide
    simp only [hne, if_false, hp2]
    simp [skipSpace]

/-! ## time.Duration.Seconds on whole seconds -/

theorem log2Aux_spec : ∀ (fuel n : Nat), 0 < n → n ≤ fuel →
    2 ^ log2Aux fuel n ≤ n ∧ n < 2 ^ (log2Aux fuel n + 1) := by
  intro fuel
  induction fuel with
  | zero => intro n h1 h2; omega
  | succ fuel ih =>
    intro n h1 h2
    by_cases hn : n < 2
    · simp only [log2Aux, hn, if_true]
      omega
    · simp only [log2Aux, hn, if_false]
      obtain ⟨ha, hb⟩ := ih (n / 2) (by omega) (by omega)
      rw [pow_succ, pow_succ]
      rw [pow_succ] at hb
      omega

theorem floorLog2_spec (n : Nat) (h : 0 < n) :
    2 ^ floorLog2 n ≤ n ∧ n < 2 ^ (floorLog2 n + 1) :=
  log2Aux_spec n n h (le_refl n)

theorem floorLog2_unique (n k : Nat) (h1 : 2 ^ k ≤ n) (h2 : n < 2 ^ (k + 1)) :
    floorLog2 n = k := by
  have hn : 0 < n := lt_of_lt_of_le (by positivity) h1
  obtain ⟨ha, hb⟩ := floorLog2_spec n hn
  have h3 : floorLog2 n < k + 1 :=
    (Nat.pow_lt_pow_iff_right (by norm_num : 1 < 2)).mp (lt_of_le_of_lt ha h2)
  have h4 : k < floorLog2 n + 1 :=
    (Nat.pow_lt_pow_iff_right (by norm_num : 1 < 2)).mp (lt_of_le_of_lt h1 hb)
  omega

theorem floorLog2_mul_pow (p k : Nat) (h : 0 < p) :
    floorLog2 (p * 2 ^ k) = floorLog2 p + k := by
  obtain ⟨ha, hb⟩ := floorLog2_spec p h
  apply floorLog2_unique
  · rw [pow_add]; exact Nat.mul_le_mul_right _ ha
  · have : 2 ^ (floorLog2 p + k + 1) = 2 ^ (floorLog2 p + 1) * 2 ^ k := by ring
    rw [this]
    exact Nat.mul_lt_mul_of_pos_right hb (by positivity)

theorem floorLog2_pow (k : Nat) : floorLog2 (2 ^ k) = k :=
  floorLog2_unique _ k (le_refl _) (by rw [pow_succ]; have : 0 < 2 ^ k := by positivity
                                       omega)

theorem floorLog2_le_52 (p : Nat) (h0 : 0 < p) (h : p < 2 ^ 53) : floorLog2 p ≤ 52 := by
  obtain ⟨ha, _⟩ := floorLog2_spec p h0
  have : floorLog2 p < 53 :=
    (Nat.pow_lt_pow_iff_right (by norm_num : 1 < 2)).mp (lt_of_le_of_lt ha h)
  omega

theorem roundBinary64_exact (p k : Nat) (h0 : 0 < p) (h : p < 2 ^ 53) :
    roundBinary64 (p * 2 ^ k) (2 ^ k)
      = (p * 2 ^ (52 - floorLog2 p), (floorLog2 p : Int) - 52) := by
  have hl := floorLog2_le_52 p h0 h
  obtain ⟨ha, _⟩ := floorLog2_spec p h0
  have hP : p * 2 ^ k ≠ 0 := by positivity
  have he0 : ((floorLog2 (p * 2 ^ k) : Int) - (floorLog2 (2 ^ k) : Int) - 52)
      = (floorLog2 p : Int) - 52 := by
    rw [floorLog2_mul_pow p k h0, floorLog2_pow]; push_cast; ring
  have ht1 : ((floorLog2 p : Int) - 52 + 52).toNat = floorLog2 p := by simp
  have ht2 : (-((floorLog2 p : Int) - 52 + 52)).toNat = 0 := by simp
  have ht3 : (-((floorLog2 p : Int) - 52)).toNat = 52 - floorLog2 p := by omega
  have ht4 : ((floorLog2 p : Int) - 52).toNat = 0 := by omega
  have hcond : 2 ^ k * 2 ^ floorLog2 p ≤ p * 2 ^ k * 2 ^ 0 := by
    rw [pow_zero, mul_one, mul_comm]
    exact Nat.mul_le_mul_right _ ha
  have hdiv : p * 2 ^ k * 2 ^ (52 - floorLog2 p) / (2 ^ k * 2 ^ 0)
      = p * 2 ^ (52 - floorLog2 p) := by
    rw [pow_zero, mul_one]
    have : p * 2 ^ k * 2 ^ (52 - floorLog2 p) = p * 2 ^ (52 - floorLog2 p) * 2 ^ k := by ring
    rw [this]
    exact Nat.mul_div_cancel _ (by positivity)
  have hmod : p * 2 ^ k * 2 ^ (52 - floorLog2 p) % (2 ^ k * 2 ^ 0) = 0 := by
    rw [pow_zero, mul_one]
    have : p * 2 ^ k * 2 ^ (52 - floorLog2 p) = p * 2 ^ (52 - floorLog2 p) * 2 ^ k := by ring
    rw [this]
    exact Nat.mul_mod_left _ _
  have hden : 2 * 0 < 2 ^ k * 2 ^ 0 := by positivity
  simp only [roundBinary64, hP, if_false, he0, ht1, ht2, ht3, ht4, hcond, if_true, hdiv, hmod,
    hden]

theorem roundBinary64_zero (q : Nat) : roundBinary64 0 q = (0, 0) := by
  simp [roundBinary64]

theorem secondsInt_whole (n : Int) (h : n.natAbs < 2 ^ 53) :
    secondsInt (n * 1000000000) = n := by
  have habs : (n * 1000000000).natAbs = n.natAbs * 1000000000 := by
    rw [Int.natAbs_mul]; rfl
  have hsec : n.natAbs * 1000000000 / 1000000000 = n.natAbs := Nat.mul_div_cancel _ (by norm_num)
  have hnsec : n.natAbs * 1000000000 % 1000000000 = 0 := Nat.mul_mod_left _ _
  have hsign : (n * 1000000000 < 0) ↔ n < 0 := by
    constructor <;> intro h' <;> nlinarith
  have hmag : ∀ t : Nat, t = n.natAbs →
      (if n * 1000000000 < 0 then -(t : Int) else (t : Int)) = n := by
    intro t ht
    by_cases hneg : n < 0
    · rw [if_pos (hsign.mpr hneg), ht]; omega
    · rw [if_neg (fun h' => hneg (hsign.mp h')), ht]; omega
  unfold secondsInt
  simp only [habs, hsec, hnsec, roundBinary64_zero]
  apply hmag
  by_cases h0 : n.natAbs = 0
  · simp [h0, roundBinary64_zero]
  · have hpos : 0 < n.natAbs := Nat.pos_of_ne_zero h0
    have hl := floorLog2_le_52 n.natAbs hpos h
    have hfs : roundBinary64 n.natAbs 1
        = (n.natAbs * 2 ^ (52 - floorLog2 n.natAbs), (floorLog2 n.natAbs : Int) - 52) := by
      have := roundBinary64_exact n.natAbs 0 hpos h
      simpa using this
    have hmin : min ((floorLog2 n.natAbs : Int) - 52) 0 = (floorLog2 n.natAbs : Int) - 52 := by
      apply min_eq_left; omega
    have ht1 : ((floorLog2 n.natAbs : Int) - 52 - ((floorLog2 n.natAbs : Int) - 52)).toNat = 0 := by
      omega
    have ht2 : ((floorLog2 n.natAbs : Int) - 52).toNat = 0 := by omega
    have ht3 : (-((floorLog2 n.natAbs : Int) - 52)).toNat = 52 - floorLog2 n.natAbs := by omega
    simp only [hfs, hmin, ht1, ht2, ht3, pow_zero, mul_one, zero_mul, add_zero]
    rw [roundBinary64_exact n.natAbs (52 - floorLog2 n.natAbs) hpos h]
    simp only [ht2, ht3, pow_zero, mul_one]
    exact Nat.mul_div_cancel _ (by positivity)

theorem secondsInt_whole_int64 (d : Int)
    (hlo : -9223372036854775808 ≤ d) (hhi : d ≤ 9223372036854775807)
    (hwhole : d % 1000000000 = 0) : secondsInt d = d / 1000000000 := by
  have hd : d = d / 1000000000 * 1000000000 := by omega
  have hn : (d / 1000000000).natAbs < 2 ^ 53 := by
    have h53 : (2 : Nat) ^ 53 = 9007199254740992 := by norm_num
    rw [h53]
    omega
  conv_lhs => rw [hd]
  exact secondsInt_whole _ hn

/-! ## `ApplyNKey`: the stored token -/

/-- The row `ApplyNKey` creates for approved list `L` and generated value `key`. -/
theorem ApplyNKey_granted (cfg : Config) (s : Store) (now : Time) (c : Context)
    (req : ApplyNKeyRequest) (encoded : String) (L : List String) (u : User)
    (hreq : req.AppIDs = some L) (hu : findUser s c.user_id = some u)
    (hall : ∀ a ∈ L, appGranted s now c a = true)
    (hfresh : s.nkeys.any (fun k => decide (k.KeyValue
        = "TOUNET_" ++ toString c.user_id ++ "_" ++ encoded)) = false) :
    ApplyNKey cfg s now c (some req) (some encoded)
      = ({ status := 200, code := 200, message := "success",
           data := some { nkey := "TOUNET_" ++ toString c.user_id ++ "_" ++ encoded,
                          expires_in := secondsInt cfg.NKeyExpiration, apps := L } },
         { s with nkeys := s.nkeys ++
            [{ ID := nextNKeyID s, KeyValue := "TOUNET_" ++ toString c.user_id ++ "_" ++ encoded,
               UserID := c.user_id, AppIDs := jsonMarshalStrings L,
               ExpiresAt := now + cfg.NKeyExpiration, FirstUsedAt := none, FirstUsedApp := "",
               IsUsed := false, CreatedAt := now }] }) := by
  have hloop := validateRequestedApps_granted s now c L [] hall
  rw [List.nil_append] at hloop
  simp only [ApplyNKey, bindApplyNKeyRequest, hreq, hu, hloop, GenerateNKey, createNKey, hfresh]
  simp

/-- What a 200 answer of `ApplyNKey` implies about its inputs. -/
theorem ApplyNKey_ok_inv (cfg : Config) (s : Store) (now : Time) (c : Context)
    (req : ApplyNKeyRequest) (rnd : Option String) (L : List String)
    (hreq : req.AppIDs = some L)
    (h200 : (ApplyNKey cfg s now c (some req) rnd).1.status = 200) :
    ∃ (u : User) (encoded : String), findUser s c.user_id = some u ∧ rnd = some encoded
      ∧ (∀ a ∈ L, appGranted s now c a = true)
      ∧ s.nkeys.any (fun k => decide (k.KeyValue
          = "TOUNET_" ++ toString c.user_id ++ "_" ++ encoded)) = false := by
  by_cases hall : ∀ a ∈ L, appGranted s now c a = true
  swap
  · exfalso
    have hbad : ∃ a ∈ L, appGranted s now c a = false := by
      push_neg at hall
      obtain ⟨a, ha, hna⟩ := hall
      exact ⟨a, ha, by simpa using hna⟩
    exact (ApplyNKey_rejected cfg s now c req rnd L hreq hbad).2.2 h200
  · have hloop := validateRequestedApps_granted s now c L [] hall
    rw [List.nil_append] at hloop
    cases hu : findUser s c.user_id with
    | none => simp [ApplyNKey, bindApplyNKeyRequest, hreq, hu] at h200
    | some u =>
      cases rnd with
      | none => simp [ApplyNKey, bindApplyNKeyRequest, hreq, hu, hloop, GenerateNKey] at h200
      | some encoded =>
        refine ⟨u, encoded, rfl, rfl, hall, ?_⟩
        cases hany : s.nkeys.any (fun k => decide (k.KeyValue
            = "TOUNET_" ++ toString c.user_id ++ "_" ++ encoded)) with
        | false => rfl
        | true =>
          simp only [ApplyNKey, bindApplyNKeyRequest, hreq, hu, hloop, GenerateNKey, createNKey,
            hany] at h200
          simp at h200

theorem find_append_fresh (k : String) (nkey : NKey) (hk : nkey.KeyValue = k) :
    ∀ l : List NKey, l.any (fun x => decide (x.KeyValue = k)) = false →
      (l ++ [nkey]).find? (fun x => decide (x.KeyValue = k)) = some nkey := by
  intro l
  induction l with
  | nil => intro _; simp [hk]
  | cons x l ih =>
    intro h
    simp only [List.any_cons, Bool.or_eq_false_iff, decide_eq_false_iff_not] at h
    simp only [List.cons_append, List.find?_cons, h.1, decide_False]
    exact ih h.2

set_option maxRecDepth 20000 in
/-- C8 as stated fails: with `NKEY_EXPIRATION=4660h20m16.999999999s` the TTL is
16777216999999999 ns, that is 16777216 whole seconds, and a successful `ApplyNKey`
answers `expires_in = 16777217`, because `Duration.Seconds` rounds to the nearest
binary64 before `int` truncates. (On 1.6 s the same expression gives 1, so it is
not rounding to the nearest second either.) -/
theorem ApplyNKey_expires_in_not_whole_seconds :
    longTTLConfig.NKeyExpiration = 16777216999999999
    ∧ (ApplyNKey longTTLConfig sampleStore 100 (sessionOf (sampleUser 3 "bob" StatusUser))
        (applyBody ["searchall"]) (some "r")).1
      = { status := 200, code := 200, message := "success",
          data := some { nkey := "TOUNET_3_r", expires_in := 16777217, apps := ["searchall"] } }
    ∧ longTTLConfig.NKeyExpiration / 1000000000 = 16777216
    ∧ Int.tdiv longTTLConfig.NKeyExpiration 1000000000 = 16777216
    ∧ secondsInt 1600000000 = 1 := by
  decide

/-- C8, amended: a successful `ApplyNKey` on request list `L` at instant `now` with
TTL `d` appends exactly one token row; `ValidateNKey`'s query finds it under the
returned value; its `AppIDs` decodes, as `ValidateNKey` decodes it, to `L`; the
response `apps` is `L`; `ExpiresAt = now + d`; the row is unused; its owner is the
requesting user id; and `expires_in` is `int(d.Seconds())`, which is `d` in whole
seconds whenever `d` is a whole number of seconds in the `int64` range, and 900
for the default TTL. -/
theorem ApplyNKey_success_record (cfg : Config) (s : Store) (now : Time) (c : Context)
    (req : ApplyNKeyRequest) (rnd : Option String) (L : List String)
    (hreq : req.AppIDs = some L)
    (h200 : (ApplyNKey cfg s now c (some req) rnd).1.status = 200) :
    ∃ nkey : NKey,
      (ApplyNKey cfg s now c (some req) rnd).2 = { s with nkeys := s.nkeys ++ [nkey] }
      ∧ findNKey (ApplyNKey cfg s now c (some req) rnd).2 nkey.KeyValue = some nkey
      ∧ jsonUnmarshalStrings nkey.AppIDs = some L
      ∧ (ApplyNKey cfg s now c (some req) rnd).1.data
          = some { nkey := nkey.KeyValue, expires_in := secondsInt cfg.NKeyExpiration, apps := L }
      ∧ nkey.ExpiresAt = now + cfg.NKeyExpiration
      ∧ nkey.IsUsed = false ∧ nkey.FirstUsedAt = none ∧ nkey.FirstUsedApp = ""
      ∧ nkey.UserID = c.user_id
      ∧ (-9223372036854775808 ≤ cfg.NKeyExpiration → cfg.NKeyExpiration ≤ 9223372036854775807 →
          cfg.NKeyExpiration % 1000000000 = 0 →
          secondsInt cfg.NKeyExpiration = cfg.NKeyExpiration / 1000000000)
      ∧ (∀ (env : String → String) (parseDuration : String → Option Duration),
          env "NKEY_EXPIRATION" = "" →
          (LoadConfig env parseDuration).NKeyExpiration = 15 * Minute
          ∧ secondsInt (LoadConfig env parseDuration).NKeyExpiration = 900) := by
  obtain ⟨u, encoded, hu, hrnd, hall, hfresh⟩ := ApplyNKey_ok_inv cfg s now c req rnd L hreq h200
  subst hrnd
  rw [ApplyNKey_granted cfg s now c req encoded L u hreq hu hall hfresh]
  refine ⟨_, rfl, ?_, jsonUnmarshal_jsonMarshal L, rfl, rfl, rfl, rfl, rfl, rfl, ?_, ?_⟩
  · exact find_append_fresh _ _ rfl s.nkeys hfresh
  · intro hlo hhi hwhole
    exact secondsInt_whole_int64 _ hlo hhi hwhole
  · intro env parseDuration henv
    have hd : (LoadConfig env parseDuration).NKeyExpiration = 15 * Minute := by
      simp [LoadConfig, getDurationEnv, henv]
    rw [hd]
    exact ⟨rfl, by decide⟩

/-- Witness for C8 (amended): the `user`-role user asks for `searchall` and
`advanced_analytics` under the default configuration. -/
theorem ApplyNKey_success_record_witness :
    ∃ nkey : NKey,
      (ApplyNKey defaultConfig sampleStore 100 (sessionOf (sampleUser 3 "bob" StatusUser))
        (applyBody ["searchall", "advanced_analytics"]) (some "r")).2
        = { sampleStore with nkeys := sampleStore.nkeys ++ [nkey] }
      ∧ jsonUnmarshalStrings nkey.AppIDs = some ["searchall", "advanced_analytics"]
      ∧ (ApplyNKey defaultConfig sampleStore 100 (sessionOf (sampleUser 3 "bob" StatusUser))
          (applyBody ["searchall", "advanced_analytics"]) (some "r")).1.data
          = some { nkey := nkey.KeyValue, expires_in := 900,
                   apps := ["searchall", "advanced_analytics"] }
      ∧ nkey.ExpiresAt = 100 + 900000000000 := by
  obtain ⟨nkey, h1, _, h3, h4, h5, _⟩ :=
    ApplyNKey_success_record defaultConfig sampleStore 100
      (sessionOf (sampleUser 3 "bob" StatusUser))
      { Username := [], AppIDs := some ["searchall", "advanced_analytics"] } (some "r")
      ["searchall", "advanced_analytics"] rfl (by decide)
  have hsec : secondsInt defaultConfig.NKeyExpiration = 900 := by decide
  have httl : defaultConfig.NKeyExpiration = 900000000000 := by decide
  rw [hsec] at h4
  rw [httl] at h5
  exact ⟨nkey, h1, h3, h4, h5⟩

theorem unquoteBody_nil (n : Nat) (acc : List Char) : unquoteBody n [] acc = none := by
  cases n <;> simp [unquoteBody]

/-- Fuel beyond the input length changes nothing: `unquoteBody` never fails for
lack of fuel when started with the input length. -/
theorem unquoteBody_fuel (n : Nat) : ∀ (cs acc : List Char), cs.length ≤ n →
    unquoteBody (n + 1) cs acc = unquoteBody n cs acc := by
  induction n with
  | zero =>
    intro cs acc h
    have : cs = [] := List.length_eq_zero.mp (Nat.le_zero.mp h)
    subst this
    simp [unquoteBody]
  | succ n ih =>
    intro cs acc h
    cases cs with
    | nil => simp [unquoteBody]
    | cons c rest =>
      have hrest : rest.length ≤ n := by simpa using h
      cases rest with
      | nil =>
        rw [unquoteBody]
        conv_rhs => rw [unquoteBody]
        simp only [unquoteBody_nil]
      | cons e rest2 =>
        have hrest2 : rest2.length ≤ n := by simp at hrest; omega
        have h4 : (List.drop 4 rest2).length ≤ n := by rw [List.length_drop]; omega
        have h10 : (List.drop 10 rest2).length ≤ n := by rw [List.length_drop]; omega
        have e1 := fun a => ih (e :: rest2) a hrest
        have e2 := fun a => ih rest2 a hrest2
        have e3 := fun a => ih (List.drop 4 rest2) a h4
        have e4 := fun a => ih (List.drop 10 rest2) a h10
        rw [unquoteBody]
        conv_rhs => rw [unquoteBody]
        simp only [List.drop_succ_cons, e1, e2, e3, e4]

theorem unquoteBody_rest_length (n : Nat) : ∀ (cs acc o r : List Char),
    unquoteBody n cs acc = some (o, r) → r.length < cs.length := by
  induction n with
  | zero => intro cs acc o r h; simp [unquoteBody] at h
  | succ n ih =>
    intro cs acc o r h
    cases cs with
    | nil => simp [unquoteBody] at h
    | cons c rest =>
      simp only [unquoteBody] at h
      split_ifs at h with h1 h2 h3
      · simp only [Option.some.injEq, Prod.mk.injEq] at h
        rw [← h.2]; simp
      · cases rest with
        | nil => simp at h
        | cons e rest2 =>
          simp only at h
          split_ifs at h with h4
          · cases hg : getu4 (c :: e :: rest2) with
            | none => simp [hg] at h
            | some rr =>
              simp only [hg] at h
              split_ifs at h with h5 h6
              · have := ih _ _ _ _ h
                simp only [List.length_drop, List.length_cons] at this ⊢
                omega
              · have := ih _ _ _ _ h
                simp only [List.length_drop, List.length_cons] at this ⊢
                omega
              · have := ih _ _ _ _ h
                simp only [List.length_drop, List.length_cons] at this ⊢
                omega
          · cases hs : simpleEscape e with
            | none => simp [hs] at h
            | some ch =>
              simp only [hs] at h
              have := ih _ _ _ _ h
              simp only [List.length_cons]
              omega
      · have := ih _ _ _ _ h
        simp only [List.length_cons]
        omega

theorem skipSpace_length (cs : List Char) : (skipSpace cs).length ≤ cs.length := by
  induction cs with
  | nil => simp [skipSpace]
  | cons c cs ih =>
    simp only [skipSpace]
    split_ifs
    · simp only [List.length_cons]; omega
    · exact le_refl _

theorem parseElem_rest_length (cs : List Char) (e : String) (rest : List Char)
    (h : parseElem cs = some (e, rest)) : rest.length < cs.length := by
  cases cs with
  | nil => simp [parseElem] at h
  | cons c t =>
    simp only [parseElem] at h
    split_ifs at h with h1 h2
    · cases hu : unquoteBody t.length t [] with
      | none => simp [hu] at h
      | some p =>
        obtain ⟨o, r⟩ := p
        simp only [hu, Option.some.injEq, Prod.mk.injEq] at h
        have := unquoteBody_rest_length _ _ _ _ _ hu
        rw [← h.2]
        simp only [List.length_cons]
        omega
    · simp only [Option.some.injEq, Prod.mk.injEq] at h
      rw [← h.2]
      have : (List.take 4 (c :: t)).length = 4 := by rw [h2]; rfl
      simp only [List.length_take, List.length_cons, List.length_drop] at this ⊢
      omega

/-- Fuel beyond the input length changes nothing for `parseElems` either, so
`jsonUnmarshalStrings` returns `none` only for input that `json.Unmarshal` rejects. -/
theorem parseElems_fuel (n : Nat) : ∀ (cs : List Char) (acc : List String), cs.length ≤ n →
    parseElems (n + 1) cs acc = parseElems n cs acc := by
  induction n with
  | zero =>
    intro cs acc h
    have : cs = [] := List.length_eq_zero.mp (Nat.le_zero.mp h)
    subst this
    simp [parseElems, parseElem]
  | succ n ih =>
    intro cs acc h
    rw [parseElems]
    conv_rhs => rw [parseElems]
    cases hp : parseElem cs with
    | none => rfl
    | some p =>
      obtain ⟨e, rest⟩ := p
      have hlt := parseElem_rest_length cs e rest hp
      have hsk := skipSpace_length rest
      simp only
      cases hs : skipSpace rest with
      | nil => rfl
      | cons c rest2 =>
        have h2 : (skipSpace rest2).length ≤ n := by
          have := skipSpace_length rest2
          rw [hs] at hsk
          simp only [List.length_cons] at hsk
          omega
        simp only [ih (skipSpace rest2) (acc ++ [e]) h2]

/-! ## `Register`: the invite gate -/

theorem bindRegisterRequest_some (req : RegisterRequest)
    (h1 : req.Username ≠ "") (h2 : req.Password ≠ "") (h3 : req.InviteCode ≠ "") :
    bindRegisterRequest (some req) = some req := by
  simp [bindRegisterRequest, h1, h2, h3]

theorem bindRegisterRequest_eq_some {body : Option RegisterRequest} {req : RegisterRequest}
    (h : bindRegisterRequest body = some req) : body = some req := by
  cases body with
  | none => simp [bindRegisterRequest] at h
  | some r =>
    simp only [bindRegisterRequest] at h
    split_ifs at h
    exact h

theorem findUnusedInviteCode_none_of_spent (s : Store) (code : String)
    (h : inviteSpent s code) : findUnusedInviteCode s code = none := by
  unfold findUnusedInviteCode
  rw [List.find?_eq_none]
  intro ic hic
  by_cases hc : ic.Code = code
  · have := h ic hic hc
    cases hu : ic.CodeUserID with
    | none => rw [hu] at this; exact absurd this (by decide)
    | some u => simp
  · simp [hc]

theorem findUnusedInviteCode_some {s : Store} {code : String} {ic : InviteCode}
    (h : findUnusedInviteCode s code = some ic) :
    ic ∈ s.inviteCodes ∧ ic.Code = code ∧ ic.CodeUserID = none := by
  unfold findUnusedInviteCode at h
  have hp := List.find?_some h
  simp only [Bool.and_eq_true, decide_eq_true_eq, Option.isNone_iff_eq_none] at hp
  exact ⟨List.mem_of_find?_eq_some h, hp.1, hp.2⟩

/-- A bound request for a spent (or unknown) invite code is turned away at the
invite lookup. -/
theorem Register_spent (faults : StoreFaults) (lib : CryptoLib) (cfg : Config) (s : Store)
    (now : Time) (body : Option RegisterRequest) (req : RegisterRequest)
    (hbind : bindRegisterRequest body = some req) (hspent : inviteSpent s req.InviteCode) :
    Register faults lib cfg s now body
      = ({ status := 400, code := 400, message := "invalid or used invite code",
           data := none }, s) := by
  simp [Register, hbind, findUnusedInviteCode_none_of_spent s _ hspent]

/-- C11: for a bound request whose invite code has no row without a redeeming user
(no row at all, or `CodeUserID` set), `Register` answers 400 "invalid or used
invite code" and returns the store unchanged, so no user is created; this holds
for every state of the `users` table, in particular when the username is taken. -/
theorem Register_invite_checked_first (faults : StoreFaults) (lib : CryptoLib) (cfg : Config)
    (s : Store) (now : Time) (req : RegisterRequest)
    (h1 : req.Username ≠ "") (h2 : req.Password ≠ "") (h3 : req.InviteCode ≠ "")
    (hinv : ∀ ic ∈ s.inviteCodes, ic.Code = req.InviteCode → ic.CodeUserID.isSome = true) :
    Register faults lib cfg s now (some req)
      = ({ status := 400, code := 400, message := "invalid or used invite code",
           data := none }, s)
    ∧ (Register faults lib cfg s now (some req)).2.users = s.users :=
  have h := Register_spent faults lib cfg s now (some req) req
    (bindRegisterRequest_some req h1 h2 h3) hinv
  ⟨h, by rw [h]⟩

/-- Witness for C11: the redeemed invite presented with a taken username (`bob`)
and with a free one. -/
theorem Register_invite_checked_first_witness :
    Register noFaults sampleLib defaultConfig inviteStore 50
        (some (registerReq "bob" "pw" "USED-CODE"))
      = ({ status := 400, code := 400, message := "invalid or used invite code",
           data := none }, inviteStore)
    ∧ Register noFaults sampleLib defaultConfig inviteStore 50
        (some (registerReq "zoe" "pw" "USED-CODE"))
      = ({ status := 400, code := 400, message := "invalid or used invite code",
           data := none }, inviteStore) :=
  ⟨(Register_invite_checked_first noFaults sampleLib defaultConfig inviteStore 50
      (registerReq "bob" "pw" "USED-CODE") (by decide) (by decide) (by decide) (by decide)).1,
   (Register_invite_checked_first noFaults sampleLib defaultConfig inviteStore 50
      (registerReq "zoe" "pw" "USED-CODE") (by decide) (by decide) (by decide) (by decide)).1⟩

/-! ## `Register`: the two writes -/

/-- The run of `Register` once the checks before the writes have passed and the
user row can be inserted. -/
theorem Register_created (faults : StoreFaults) (lib : CryptoLib) (cfg : Config) (s : Store)
    (now : Time) (body : Option RegisterRequest) (req : RegisterRequest) (ic : InviteCode)
    (hashed : String)
    (hbind : bindRegisterRequest body = some req)
    (hic : findUnusedInviteCode s req.InviteCode = some ic)
    (hname : findUserByUsername s req.Username = none)
    (hhash : HashPassword lib req.Password = some hashed)
    (hfault : faults.createUser = false)
    (hfree : s.users.any (fun u => decide (u.Username = req.Username)) = false) :
    Register faults lib cfg s now body
      = (match GenerateJWT lib (registeredUser s now req hashed) cfg.JWTSecret
            cfg.JWTExpiration now now with
          | none =>
            { status := 500, code := 500, message := "failed to generate token", data := none }
          | some token =>
            { status := 200, code := 200, message := "success",
              data := some { user_id := (registeredUser s now req hashed).ID, token := token } },
         saveInviteCode faults
           { s with users := s.users ++ [registeredUser s now req hashed] }
           { ic with CodeUserID := some (registeredUser s now req hashed).ID,
                     UsedAt := some now }) := by
  simp only [Register, hbind, hic, hname, hhash, createUser, hfault, hfree, registeredUser]
  simp only [Bool.false_eq_true, if_false]
  cases hjwt : GenerateJWT lib
    { ID := nextUserID s, Username := req.Username, PasswordHash := hashed, Phone := req.Phone,
      PushDeerToken := req.PushDeerToken, Status := StatusUser, CreatedAt := now,
      UpdatedAt := now, DeletedAt := none, LastLogin := none }
    cfg.JWTSecret cfg.JWTExpiration now now <;> rfl

/-- Every run of `Register` either changes nothing and answers with an error, or
goes through `Register_created`. -/
theorem Register_cases (faults : StoreFaults) (lib : CryptoLib) (cfg : Config) (s : Store)
    (now : Time) (body : Option RegisterRequest) :
    ((Register faults lib cfg s now body).2 = s
      ∧ (Register faults lib cfg s now body).1.status ≠ 200
      ∧ (Register faults lib cfg s now body).1.data = none)
    ∨ ∃ (req : RegisterRequest) (ic : InviteCode) (hashed : String),
        bindRegisterRequest body = some req
        ∧ findUnusedInviteCode s req.InviteCode = some ic
        ∧ findUserByUsername s req.Username = none
        ∧ HashPassword lib req.Password = some hashed
        ∧ faults.createUser = false
        ∧ s.users.any (fun u => decide (u.Username = req.Username)) = false := by
  cases hbind : bindRegisterRequest body with
  | none => left; simp [Register, hbind]
  | some req =>
    cases hic : findUnusedInviteCode s req.InviteCode with
    | none => left; simp [Register, hbind, hic]
    | some ic =>
      cases hname : findUserByUsername s req.Username with
      | some u => left; simp [Register, hbind, hic, hname]
      | none =>
        cases hhash : HashPassword lib req.Password with
        | none => left; simp [Register, hbind, hic, hname, hhash]
        | some hashed =>
          cases hfault : faults.createUser with
          | true => left; simp [Register, hbind, hic, hname, hhash, createUser, hfault]
          | false =>
            cases hfree : s.users.any (fun u => decide (u.Username = req.Username)) with
            | true =>
              left
              simp only [Register, hbind, hic, hname, hhash, createUser, hfault, hfree]
              simp
            | false => right; exact ⟨req, ic, hashed, rfl, hic, hname, hhash, rfl, hfree⟩

theorem inviteSpent_saveInviteCode (faults : StoreFaults) (s : Store) (ic : InviteCode)
    (code : String) (hsome : ic.CodeUserID.isSome = true) (h : inviteSpent s code) :
    inviteSpent (saveInviteCode faults s ic) code := by
  unfold saveInviteCode
  cases faults.saveInvite with
  | true => exact h
  | false =>
    intro x hx hxc
    simp only [Bool.false_eq_true, if_false, List.mem_map] at hx
    obtain ⟨y, hy, rfl⟩ := hx
    by_cases hyc : y.Code = ic.Code
    · simp only [hyc, if_true]; exact hsome
    · simp only [hyc, if_false] at hxc ⊢
      exact h y hy hxc

/-- The invite write, when it goes through, leaves no unredeemed row for the code. -/
theorem inviteSpent_after_save (faults : StoreFaults) (s : Store) (ic : InviteCode)
    (hfault : faults.saveInvite = false) (hsome : ic.CodeUserID.isSome = true) :
    inviteSpent (saveInviteCode faults s ic) ic.Code := by
  intro x hx hxc
  simp only [saveInviteCode, hfault, Bool.false_eq_true, if_false, List.mem_map] at hx
  obtain ⟨y, hy, rfl⟩ := hx
  by_cases hyc : y.Code = ic.Code
  · simp only [hyc, if_true]; exact hsome
  · simp only [hyc, if_false] at hxc

/-- Once spent, an invite code stays spent through any `Register` call. -/
theorem inviteSpent_Register (faults : StoreFaults) (lib : CryptoLib) (cfg : Config)
    (s : Store) (now : Time) (body : Option RegisterRequest) (code : String)
    (h : inviteSpent s code) : inviteSpent (Register faults lib cfg s now body).2 code := by
  rcases Register_cases faults lib cfg s now body with ⟨hs, _, _⟩ | ⟨req, ic, hashed, hb, hic, hn, hh, hf, hfree⟩
  · rw [hs]; exact h
  · rw [Register_created faults lib cfg s now body req ic hashed hb hic hn hh hf hfree]
    exact inviteSpent_saveInviteCode faults _ _ code rfl h

/-- A 200 answer with a working invite write spends the code of the request. -/
theorem inviteSpent_of_success (faults : StoreFaults) (lib : CryptoLib) (cfg : Config)
    (s : Store) (now : Time) (body : Option RegisterRequest) (req : RegisterRequest)
    (hbody : body = some req) (hsave : faults.saveInvite = false)
    (h200 : (Register faults lib cfg s now body).1.status = 200) :
    inviteSpent (Register faults lib cfg s now body).2 req.InviteCode := by
  rcases Register_cases faults lib cfg s now body with ⟨_, hne, _⟩ | ⟨req', ic, hashed, hb, hic, hn, hh, hf, hfree⟩
  · exact absurd h200 hne
  · have hreq : req' = req := by
      have := bindRegisterRequest_eq_some hb
      rw [hbody] at this
      exact (Option.some.inj this).symm
    subst hreq
    rw [Register_created faults lib cfg s now body req' ic hashed hb hic hn hh hf hfree]
    have hcode := (findUnusedInviteCode_some hic).2.1
    have := inviteSpent_after_save faults
      { s with users := s.users ++ [registeredUser s now req' hashed] }
      { ic with CodeUserID := some (registeredUser s now req' hashed).ID, UsedAt := some now }
      hsave rfl
    rw [← hcode]
    exact this

/-! ## `Register`: sequences of calls -/

theorem redemptions_cons (cfg : Config) (s : Store) (code : String) (call : RegisterCall)
    (calls : List RegisterCall) :
    redemptions cfg s code (call :: calls)
      = (if redeems code (call, (Register call.faults call.lib cfg s call.now call.body).1) = true
          then 1 else 0)
        + redemptions cfg (Register call.faults call.lib cfg s call.now call.body).2 code calls := by
  simp only [redemptions, runRegister, List.zip_cons_cons, List.filter_cons]
  split_ifs <;> simp [Nat.add_comm]

/-- A single call for a spent code: never 200, no data, and the invite message
when the request binds. -/
theorem Register_spent_response (faults : StoreFaults) (lib : CryptoLib) (cfg : Config)
    (s : Store) (now : Time) (r : RegisterRequest) (hspent : inviteSpent s r.InviteCode) :
    (Register faults lib cfg s now (some r)).1.status ≠ 200
    ∧ (Register faults lib cfg s now (some r)).1.data = none
    ∧ (Register faults lib cfg s now (some r)).2 = s
    ∧ (r.Username ≠ "" → r.Password ≠ "" → r.InviteCode ≠ "" →
        (Register faults lib cfg s now (some r)).1
          = { status := 400, code := 400, message := "invalid or used invite code",
              data := none }) := by
  cases hb : bindRegisterRequest (some r) with
  | none =>
    refine ⟨by simp [Register, hb], by simp [Register, hb], by simp [Register, hb], ?_⟩
    intro h1 h2 h3
    rw [bindRegisterRequest_some r h1 h2 h3] at hb
    exact absurd hb (by simp)
  | some r' =>
    have hr : r' = r := (Option.some.inj (bindRegisterRequest_eq_some hb)).symm
    subst hr
    have h := Register_spent faults lib cfg s now (some r') r' hb hspent
    rw [h]
    exact ⟨by simp, rfl, rfl, fun _ _ _ => rfl⟩

theorem runRegister_spent (cfg : Config) (code : String) :
    ∀ (calls : List RegisterCall) (s : Store), inviteSpent s code →
      (∀ p ∈ calls.zip (runRegister cfg s calls).1, ∀ r : RegisterRequest,
          p.1.body = some r → r.InviteCode = code →
          p.2.status ≠ 200 ∧ p.2.data = none
          ∧ (r.Username ≠ "" → r.Password ≠ "" → r.InviteCode ≠ "" →
              p.2 = { status := 400, code := 400, message := "invalid or used invite code",
                      data := none }))
      ∧ redemptions cfg s code calls = 0 := by
  intro calls
  induction calls with
  | nil => intro s _; simp [runRegister, redemptions]
  | cons call calls ih =>
    intro s hspent
    obtain ⟨ih1, ih2⟩ := ih (Register call.faults call.lib cfg s call.now call.body).2
      (inviteSpent_Register call.faults call.lib cfg s call.now call.body code hspent)
    have hhead : ∀ r : RegisterRequest, call.body = some r → r.InviteCode = code →
        (Register call.faults call.lib cfg s call.now call.body).1.status ≠ 200
        ∧ (Register call.faults call.lib cfg s call.now call.body).1.data = none
        ∧ (r.Username ≠ "" → r.Password ≠ "" → r.InviteCode ≠ "" →
            (Register call.faults call.lib cfg s call.now call.body).1
              = { status := 400, code := 400, message := "invalid or used invite code",
                  data := none }) := by
      intro r hbody hcode
      rw [hbody]
      have h := Register_spent_response call.faults call.lib cfg s call.now r (by rw [hcode]; exact hspent)
      exact ⟨h.1, h.2.1, h.2.2.2⟩
    constructor
    · intro p hp r hbody hcode
      simp only [runRegister, List.zip_cons_cons, List.mem_cons] at hp
      rcases hp with rfl | hp
      · exact hhead r hbody hcode
      · exact ih1 p hp r hbody hcode
    · rw [redemptions_cons, ih2]
      have : redeems code (call, (Register call.faults call.lib cfg s call.now call.body).1)
          = false := by
        unfold redeems
        rcases Option.eq_none_or_eq_some call.body with hbody | ⟨r, hbody⟩
        · simp [hbody]
        · by_cases hcode : r.InviteCode = code
          · have := (hhead r hbody hcode).1
            simp [this]
          · simp [hbody, hcode]
      simp [this]

theorem redemptions_le_one (cfg : Config) (code : String) :
    ∀ (calls : List RegisterCall) (s : Store),
      (∀ call ∈ calls, call.faults.saveInvite = false) →
      redemptions cfg s code calls ≤ 1 := by
  intro calls
  induction calls with
  | nil => intro s _; simp [redemptions, runRegister]
  | cons call calls ih =>
    intro s hsave
    rw [redemptions_cons]
    have htail := ih (Register call.faults call.lib cfg s call.now call.body).2
      (fun c hc => hsave c (List.mem_cons_of_mem call hc))
    by_cases hred : redeems code (call, (Register call.faults call.lib cfg s call.now call.body).1)
        = true
    · simp only [hred, if_true]
      unfold redeems at hred
      simp only [Bool.and_eq_true, decide_eq_true_eq] at hred
      obtain ⟨h200, hmatch⟩ := hred
      rcases Option.eq_none_or_eq_some call.body with hbody | ⟨r, hbody⟩
      · rw [hbody] at hmatch; simp at hmatch
      · rw [hbody] at hmatch
        simp only [decide_eq_true_eq] at hmatch
        have hspent := inviteSpent_of_success call.faults call.lib cfg s call.now call.body r
          hbody (hsave call (List.mem_cons_self call calls)) h200
        rw [hmatch] at hspent
        rw [(runRegister_spent cfg code calls _ hspent).2]
    · have hred' : redeems code
          (call, (Register call.faults call.lib cfg s call.now call.body).1) = false := by
        simpa using hred
      rw [hred']
      simpa using htail

theorem bindRegisterRequest_nonempty {body : Option RegisterRequest} {req : RegisterRequest}
    (h : bindRegisterRequest body = some req) :
    req.Username ≠ "" ∧ req.Password ≠ "" ∧ req.InviteCode ≠ "" := by
  cases body with
  | none => simp [bindRegisterRequest] at h
  | some r =>
    simp only [bindRegisterRequest] at h
    split_ifs at h with hc
    have hr : r = req := Option.some.inj h
    subst hr
    push_neg at hc
    exact hc

/-- Once spent, an invite code stays spent through any sequence of `Register`
calls. -/
theorem inviteSpent_runRegister (cfg : Config) (code : String) :
    ∀ (calls : List RegisterCall) (s : Store), inviteSpent s code →
      inviteSpent (runRegister cfg s calls).2 code := by
  intro calls
  induction calls with
  | nil => intro s h; exact h
  | cons call calls ih =>
    intro s h
    exact ih _ (inviteSpent_Register call.faults call.lib cfg s call.now call.body code h)

set_option maxRecDepth 20000 in
/-- C12 as stated fails: `zoe` registers with the fresh invite while the write of
the invite record fails; the call is answered 200, and `amy` then registers with
the same code and is answered 200 too, so the run has two redemptions of the
code and both users are in the store. -/
theorem invite_redeemed_twice_after_lost_write :
    (runRegister defaultConfig inviteStore
        [lossyRegisterCall 50 "zoe" "pw" "FRESH-CODE",
         registerCall 60 "amy" "pw2" "FRESH-CODE"]).1.map (fun r => r.status) = [200, 200]
    ∧ redemptions defaultConfig inviteStore "FRESH-CODE"
        [lossyRegisterCall 50 "zoe" "pw" "FRESH-CODE",
         registerCall 60 "amy" "pw2" "FRESH-CODE"] = 2
    ∧ (runRegister defaultConfig inviteStore
        [lossyRegisterCall 50 "zoe" "pw" "FRESH-CODE",
         registerCall 60 "amy" "pw2" "FRESH-CODE"]).2.users.map (fun u => u.Username)
        = ["root", "eve", "bob", "dan", "zoe", "amy"] := by
  decide

/-- C12, amended: after a `Register` call for code `c` is answered with 200 and its
write of the invite record went through, every later `Register` call for `c`, in
any sequence of calls with any usernames, passwords and faults, is not answered
with 200, carries no data, and is answered 400 "invalid or used invite code" when
it binds; the run has exactly one redemption of `c`; and after any such sequence a
further call for `c` returns the store as it is, so it creates no user. When
every invite write goes through, no run from any store has more than one
redemption of any code. -/
theorem invite_redeemed_at_most_once (cfg : Config) (s : Store) (first : RegisterCall)
    (req : RegisterRequest) (calls : List RegisterCall)
    (hbody : first.body = some req) (hsave : first.faults.saveInvite = false)
    (h200 : (Register first.faults first.lib cfg s first.now first.body).1.status = 200) :
    (∀ p ∈ calls.zip
          (runRegister cfg (Register first.faults first.lib cfg s first.now first.body).2 calls).1,
        ∀ r : RegisterRequest, p.1.body = some r → r.InviteCode = req.InviteCode →
          p.2.status ≠ 200 ∧ p.2.data = none
          ∧ (r.Username ≠ "" → r.Password ≠ "" →
              p.2 = { status := 400, code := 400, message := "invalid or used invite code",
                      data := none }))
    ∧ redemptions cfg s req.InviteCode (first :: calls) = 1
    ∧ (∀ (faults : StoreFaults) (lib : CryptoLib) (now : Time) (r : RegisterRequest),
        r.InviteCode = req.InviteCode →
        (Register faults lib cfg
            (runRegister cfg (Register first.faults first.lib cfg s first.now first.body).2
              calls).2 now (some r)).2
          = (runRegister cfg (Register first.faults first.lib cfg s first.now first.body).2
              calls).2)
    ∧ (∀ (s0 : Store) (code : String) (calls0 : List RegisterCall),
        (∀ call ∈ calls0, call.faults.saveInvite = false) →
        redemptions cfg s0 code calls0 ≤ 1) := by
  have hspent := inviteSpent_of_success first.faults first.lib cfg s first.now first.body req
    hbody hsave h200
  have hne : req.InviteCode ≠ "" := by
    rcases Register_cases first.faults first.lib cfg s first.now first.body with
      ⟨_, hn, _⟩ | ⟨req', _, _, hb, _⟩
    · exact absurd h200 hn
    · have := bindRegisterRequest_eq_some hb
      rw [hbody] at this
      rw [Option.some.inj this]
      exact (bindRegisterRequest_nonempty hb).2.2
  obtain ⟨hall, hzero⟩ := runRegister_spent cfg req.InviteCode calls _ hspent
  refine ⟨?_, ?_, ?_, fun s0 code calls0 h => redemptions_le_one cfg code calls0 s0 h⟩
  · intro p hp r hb hc
    obtain ⟨h1, h2, h3⟩ := hall p hp r hb hc
    exact ⟨h1, h2, fun hu hpw => h3 hu hpw (by rw [hc]; exact hne)⟩
  · rw [redemptions_cons, hzero]
    have : redeems req.InviteCode
        (first, (Register first.faults first.lib cfg s first.now first.body).1) = true := by
      simp only [redeems, h200, decide_True, Bool.true_and]
      rw [hbody]
      simp
    simp [this]
  · intro faults lib now r hc
    have hlater := inviteSpent_runRegister cfg req.InviteCode calls _ hspent
    rw [← hc] at hlater
    exact (Register_spent_response faults lib cfg _ now r hlater).2.2.1

/-- Witness for C12 (amended): the fresh invite is redeemed by `zoe`; `amy` then
presents the same code. -/
theorem invite_redeemed_at_most_once_witness :
    redemptions defaultConfig inviteStore "FRESH-CODE"
      [registerCall 50 "zoe" "pw" "FRESH-CODE", registerCall 60 "amy" "pw2" "FRESH-CODE"] = 1 :=
  (invite_redeemed_at_most_once defaultConfig inviteStore
    (registerCall 50 "zoe" "pw" "FRESH-CODE") (registerReq "zoe" "pw" "FRESH-CODE")
    [registerCall 60 "amy" "pw2" "FRESH-CODE"] rfl rfl (by decide)).2.1

/-! ## `Register`: what the two writes leave behind -/

/-- The store after the created-run of `Register` when the invite write goes
through. -/
theorem Register_created_rows (faults : StoreFaults) (lib : CryptoLib) (cfg : Config)
    (s : Store) (now : Time) (body : Option RegisterRequest) (req : RegisterRequest)
    (ic : InviteCode) (hashed : String)
    (hbind : bindRegisterRequest body = some req)
    (hic : findUnusedInviteCode s req.InviteCode = some ic)
    (hname : findUserByUsername s req.Username = none)
    (hhash : HashPassword lib req.Password = some hashed)
    (hfault : faults.createUser = false)
    (hfree : s.users.any (fun u => decide (u.Username = req.Username)) = false)
    (hsave : faults.saveInvite = false) :
    (Register faults lib cfg s now body).2.users = s.users ++ [registeredUser s now req hashed]
    ∧ (Register faults lib cfg s now body).2.inviteCodes
        = s.inviteCodes.map (fun x =>
            if x.Code = req.InviteCode then
              { ic with CodeUserID := some (registeredUser s now req hashed).ID,
                        UsedAt := some now }
            else x)
    ∧ (∀ x ∈ (Register faults lib cfg s now body).2.inviteCodes, x.Code = req.InviteCode →
        x.CodeUserID = some (registeredUser s now req hashed).ID ∧ x.UsedAt = some now)
    ∧ (∃ x ∈ (Register faults lib cfg s now body).2.inviteCodes, x.Code = req.InviteCode)
    ∧ (Register faults lib cfg s now body).2.apps = s.apps
    ∧ (Register faults lib cfg s now body).2.userAllowedApps = s.userAllowedApps
    ∧ (Register faults lib cfg s now body).2.nkeys = s.nkeys := by
  obtain ⟨hmem, hcode, _⟩ := findUnusedInviteCode_some hic
  rw [Register_created faults lib cfg s now body req ic hashed hbind hic hname hhash hfault hfree]
  simp only [saveInviteCode, hsave, Bool.false_eq_true, if_false, hcode]
  refine ⟨trivial, trivial, ?_, ?_, trivial, trivial, trivial⟩
  · intro x hx hxc
    simp only [List.mem_map] at hx
    obtain ⟨y, _, rfl⟩ := hx
    by_cases hyc : y.Code = req.InviteCode
    · simp [hyc]
    · simp only [hyc, if_false] at hxc
  · refine ⟨_, List.mem_map.mpr ⟨ic, hmem, rfl⟩, ?_⟩
    simp [hcode]

/-- C13 as stated fails: with the user write going through and the invite write
failing, `Register` answers 200, the new user is in the store, and the invite is
unchanged and still unredeemed, so a second user then registers with the same
code. -/
theorem Register_not_atomic :
    (Register inviteWriteFails sampleLib defaultConfig inviteStore 50
        (some (registerReq "zoe" "pw" "FRESH-CODE"))).1.status = 200
    ∧ (Register inviteWriteFails sampleLib defaultConfig inviteStore 50
        (some (registerReq "zoe" "pw" "FRESH-CODE"))).2.users
        = inviteStore.users
          ++ [registeredUser inviteStore 50 (registerReq "zoe" "pw" "FRESH-CODE") "bcrypt:pw"]
    ∧ (Register inviteWriteFails sampleLib defaultConfig inviteStore 50
        (some (registerReq "zoe" "pw" "FRESH-CODE"))).2.inviteCodes = inviteStore.inviteCodes
    ∧ findUnusedInviteCode
        (Register inviteWriteFails sampleLib defaultConfig inviteStore 50
          (some (registerReq "zoe" "pw" "FRESH-CODE"))).2 "FRESH-CODE"
        = some (sampleInvite "FRESH-CODE" none none)
    ∧ (Register noFaults sampleLib defaultConfig
        (Register inviteWriteFails sampleLib defaultConfig inviteStore 50
          (some (registerReq "zoe" "pw" "FRESH-CODE"))).2
        60 (some (registerReq "amy" "pw2" "FRESH-CODE"))).1.status = 200 := by
  decide

/-- C13, amended: when the invite write does not fail, then for every outcome of
the user write, after `Register` returns either the store is exactly as before
(no user created, invite unchanged), or the new user row is in `users` and every
row of the invite has `CodeUserID` set to the new user's id and `UsedAt` set to
`now`, and such a row exists. A failing user write always leaves the store as it
was. -/
theorem Register_both_or_neither (faults : StoreFaults) (lib : CryptoLib) (cfg : Config)
    (s : Store) (now : Time) (body : Option RegisterRequest)
    (hsave : faults.saveInvite = false) :
    (((Register faults lib cfg s now body).2 = s
        ∧ (Register faults lib cfg s now body).1.status ≠ 200)
      ∨ ∃ (req : RegisterRequest) (ic : InviteCode) (hashed : String),
          body = some req
          ∧ findUnusedInviteCode s req.InviteCode = some ic
          ∧ (Register faults lib cfg s now body).2.users
              = s.users ++ [registeredUser s now req hashed]
          ∧ (Register faults lib cfg s now body).2.inviteCodes
              = s.inviteCodes.map (fun x =>
                  if x.Code = req.InviteCode then
                    { ic with CodeUserID := some (registeredUser s now req hashed).ID,
                              UsedAt := some now }
                  else x)
          ∧ (∀ x ∈ (Register faults lib cfg s now body).2.inviteCodes,
              x.Code = req.InviteCode →
              x.CodeUserID = some (registeredUser s now req hashed).ID ∧ x.UsedAt = some now)
          ∧ (∃ x ∈ (Register faults lib cfg s now body).2.inviteCodes,
              x.Code = req.InviteCode))
    ∧ (faults.createUser = true → (Register faults lib cfg s now body).2 = s) := by
  rcases Register_cases faults lib cfg s now body with
    ⟨hs, hn, _⟩ | ⟨req, ic, hashed, hb, hic, hname, hh, hf, hfree⟩
  · exact ⟨Or.inl ⟨hs, hn⟩, fun _ => hs⟩
  · obtain ⟨h1, h2, h3, h4, _⟩ := Register_created_rows faults lib cfg s now body req ic hashed
      hb hic hname hh hf hfree hsave
    refine ⟨Or.inr ⟨req, ic, hashed, bindRegisterRequest_eq_some hb, hic, h1, h2, h3, h4⟩, ?_⟩
    intro hc
    rw [hf] at hc
    exact absurd hc (by decide)

/-- Witness for C13 (amended): on a reliable store `zoe` registers with the fresh
invite; a row of that invite then carries her id, 5, and the instant. -/
theorem Register_both_or_neither_witness :
    ∃ x ∈ (Register noFaults sampleLib defaultConfig inviteStore 50
        (some (registerReq "zoe" "pw" "FRESH-CODE"))).2.inviteCodes,
      x.Code = "FRESH-CODE" ∧ x.CodeUserID = some 5 ∧ x.UsedAt = some 50 := by
  rcases (Register_both_or_neither noFaults sampleLib defaultConfig inviteStore 50
      (some (registerReq "zoe" "pw" "FRESH-CODE")) rfl).1 with
    ⟨_, hn⟩ | ⟨req, ic, hashed, hb, _, _, _, h3, h4⟩
  · exact absurd (by decide) hn
  · have hreq : req = registerReq "zoe" "pw" "FRESH-CODE" := (Option.some.inj hb).symm
    subst hreq
    obtain ⟨x, hx, hc⟩ := h4
    exact ⟨x, hx, hc, h3 x hx hc⟩

set_option maxRecDepth 20000 in
/-- C14 as stated fails: `zoe` registers with the fresh invite while the write of
the invite record fails; the call is answered 200 with her id, 5, and every row
of the invite still has `CodeUserID` and `UsedAt` null. -/
theorem Register_success_invite_unmarked :
    (Register inviteWriteFails sampleLib defaultConfig inviteStore 50
        (some (registerReq "zoe" "pw" "FRESH-CODE"))).1
      = { status := 200, code := 200, message := "success",
          data := some { user_id := 5, token := "jwt.zoe." ++ defaultConfig.JWTSecret } }
    ∧ (Register inviteWriteFails sampleLib defaultConfig inviteStore 50
        (some (registerReq "zoe" "pw" "FRESH-CODE"))).2.inviteCodes.filter
          (fun x => decide (x.Code = "FRESH-CODE"))
      = [{ Code := "FRESH-CODE", Time := 0, CodeUserID := none, UsedAt := none }] := by
  decide

/-- C14, amended: for every `Register` call answered with 200 the store gains
exactly one user row, with `Status = user`, the requested username, phone and
notification token and the hash of the password, and the response carries that
row's id. When the write of the invite record went through, every row of the
invite (there is one) has `CodeUserID` equal to that id and `UsedAt` equal to the
instant of the call, and the other invite rows are the old ones; when it failed,
the invite table is as before. -/
theorem Register_success_record (faults : StoreFaults) (lib : CryptoLib) (cfg : Config)
    (s : Store) (now : Time) (req : RegisterRequest)
    (h200 : (Register faults lib cfg s now (some req)).1.status = 200) :
    ∃ (user : User) (token : String),
      (Register faults lib cfg s now (some req)).2.users = s.users ++ [user]
      ∧ user.Status = StatusUser
      ∧ user.Username = req.Username
      ∧ user.Phone = req.Phone
      ∧ user.PushDeerToken = req.PushDeerToken
      ∧ HashPassword lib req.Password = some user.PasswordHash
      ∧ user.CreatedAt = now ∧ user.DeletedAt = none
      ∧ (Register faults lib cfg s now (some req)).1
          = { status := 200, code := 200, message := "success",
              data := some { user_id := user.ID, token := token } }
      ∧ (faults.saveInvite = false →
          (∀ x ∈ (Register faults lib cfg s now (some req)).2.inviteCodes,
              x.Code = req.InviteCode → x.CodeUserID = some user.ID ∧ x.UsedAt = some now)
          ∧ (∃ x ∈ (Register faults lib cfg s now (some req)).2.inviteCodes,
              x.Code = req.InviteCode)
          ∧ (∀ x ∈ (Register faults lib cfg s now (some req)).2.inviteCodes,
              x.Code ≠ req.InviteCode → x ∈ s.inviteCodes))
      ∧ (faults.saveInvite = true →
          (Register faults lib cfg s now (some req)).2.inviteCodes = s.inviteCodes) := by
  rcases Register_cases faults lib cfg s now (some req) with
    ⟨_, hn, _⟩ | ⟨req', ic, hashed, hb, hic, hname, hh, hf, hfree⟩
  · exact absurd h200 hn
  · have hreq : req' = req := (Option.some.inj (bindRegisterRequest_eq_some hb)).symm
    subst hreq
    have hrun := Register_created faults lib cfg s now (some req') req' ic hashed hb hic hname hh
      hf hfree
    have husers : (Register faults lib cfg s now (some req')).2.users
        = s.users ++ [registeredUser s now req' hashed] := by
      rw [hrun]
      cases hfs : faults.saveInvite <;> simp [saveInviteCode, hfs]
    cases hjwt : GenerateJWT lib (registeredUser s now req' hashed) cfg.JWTSecret
        cfg.JWTExpiration now now with
    | none =>
      rw [hrun, hjwt] at h200
      simp at h200
    | some token =>
      refine ⟨registeredUser s now req' hashed, token, husers, rfl, rfl, rfl, rfl, hh, rfl, rfl,
        ?_, ?_, ?_⟩
      · rw [hrun, hjwt]
      · intro hsave
        obtain ⟨_, h2, h3, h4, _⟩ := Register_created_rows faults lib cfg s now (some req') req'
          ic hashed hb hic hname hh hf hfree hsave
        refine ⟨h3, h4, ?_⟩
        intro x hx hxc
        rw [h2] at hx
        simp only [List.mem_map] at hx
        obtain ⟨y, hy, rfl⟩ := hx
        by_cases hyc : y.Code = req'.InviteCode
        · simp only [hyc, if_true] at hxc
          exact absurd (findUnusedInviteCode_some hic).2.1 hxc
        · simp only [hyc, if_false]
          exact hy
      · intro hfail
        rw [hrun]
        simp [saveInviteCode, hfail]

/-- Witness for C14 (amended): `zoe` registers with the fresh invite at instant 50
on a reliable store; the invite row then carries her id and the instant. -/
theorem Register_success_record_witness :
    ∃ (user : User) (token : String),
      (Register noFaults sampleLib defaultConfig inviteStore 50
        (some (registerReq "zoe" "pw" "FRESH-CODE"))).2.users = inviteStore.users ++ [user]
      ∧ user.Status = StatusUser
      ∧ user.Username = "zoe"
      ∧ (Register noFaults sampleLib defaultConfig inviteStore 50
          (some (registerReq "zoe" "pw" "FRESH-CODE"))).1
          = { status := 200, code := 200, message := "success",
              data := some { user_id := user.ID, token := token } }
      ∧ (∃ x ∈ (Register noFaults sampleLib defaultConfig inviteStore 50
            (some (registerReq "zoe" "pw" "FRESH-CODE"))).2.inviteCodes,
          x.Code = "FRESH-CODE" ∧ x.CodeUserID = some user.ID ∧ x.UsedAt = some 50) := by
  obtain ⟨user, token, h1, h2, h3, _, _, _, _, _, h9, h10, _⟩ :=
    Register_success_record noFaults sampleLib defaultConfig inviteStore 50
      (registerReq "zoe" "pw" "FRESH-CODE") (by decide)
  obtain ⟨hall, ⟨x, hx, hxc⟩, _⟩ := h10 rfl
  exact ⟨user, token, h1, h2, h3, h9, x, hx, hxc, hall x hx hxc⟩

/-! ## The permission hierarchy -/

/-- C15: `GetPermissionLevel` is 4, 3, 2, 1 on `admin`, `trusted`, `user`,
`disableduser` and 0 on every other string; `HasPermission have need` is `true`
exactly when the level of `have` is at least the level of `need`; and on the four
roles it is the total order admin > trusted > user > disableduser: reflexive, and
for each of the six pairs with `r1` strictly above `r2`, `HasPermission r1 r2` is
`true` and `HasPermission r2 r1` is `false`. -/
theorem permission_levels_total_order :
    GetPermissionLevel "admin" = 4 ∧ GetPermissionLevel "trusted" = 3
    ∧ GetPermissionLevel "user" = 2 ∧ GetPermissionLevel "disableduser" = 1
    ∧ (∀ us : UserStatus,
        GetPermissionLevel us
          = if us = "admin" then 4 else if us = "trusted" then 3 else if us = "user" then 2
            else if us = "disableduser" then 1 else 0)
    ∧ (∀ us : UserStatus,
        ¬ (us = "admin" ∨ us = "trusted" ∨ us = "user" ∨ us = "disableduser") ↔
          GetPermissionLevel us = 0)
    ∧ (∀ have_ need : UserStatus,
        HasPermission have_ need = true ↔ GetPermissionLevel have_ ≥ GetPermissionLevel need)
    ∧ (∀ r : UserStatus, HasPermission r r = true)
    ∧ (HasPermission StatusAdmin StatusTrusted = true
        ∧ HasPermission StatusTrusted StatusAdmin = false)
    ∧ (HasPermission StatusAdmin StatusUser = true
        ∧ HasPermission StatusUser StatusAdmin = false)
    ∧ (HasPermission StatusAdmin StatusDisabledUser = true
        ∧ HasPermission StatusDisabledUser StatusAdmin = false)
    ∧ (HasPermission StatusTrusted StatusUser = true
        ∧ HasPermission StatusUser StatusTrusted = false)
    ∧ (HasPermission StatusTrusted StatusDisabledUser = true
        ∧ HasPermission StatusDisabledUser StatusTrusted = false)
    ∧ (HasPermission StatusUser StatusDisabledUser = true
        ∧ HasPermission StatusDisabledUser StatusUser = false) := by
  refine ⟨by decide, by decide, by decide, by decide, ?_, ?_, ?_, fun r => by simp [HasPermission],
    by decide, by decide, by decide, by decide, by decide, by decide⟩
  · intro us
    simp only [GetPermissionLevel, StatusAdmin, StatusTrusted, StatusUser, StatusDisabledUser]
  · intro us
    simp only [GetPermissionLevel, StatusAdmin, StatusTrusted, StatusUser, StatusDisabledUser]
    constructor
    · intro h
      push_neg at h
      simp [h.1, h.2.1, h.2.2.1, h.2.2.2]
    · intro h
      split_ifs at h with h1 h2 h3 h4
      · exact absurd h (by decide)
      · exact absurd h (by decide)
      · exact absurd h (by decide)
      · exact absurd h (by decide)
      · push_neg
        exact ⟨h1, h2, h3, h4⟩
  · intro a b
    simp [HasPermission]

/-! ## `userHasAppPermission`: floor level and expiring overrides -/

/-- C16: for every role string, `disableduser` included, an app whose required
level is `disableduser` is granted when the store has no `UserAllowedApp` row for
the pair. -/
theorem floor_level_open_to_all (s : Store) (now : Time) (userID : Nat) (appID : String)
    (role : UserStatus) (habsent : findUserAllowedApp s userID appID = none) :
    userHasAppPermission s now userID appID role StatusDisabledUser = true := by
  have h : basicLevelDenied role StatusDisabledUser = false := by
    simp only [basicLevelDenied, StatusDisabledUser, StatusAdmin, StatusUser]
    have h1 : ¬ ("disableduser" = "admin") := by decide
    have h2 : ¬ ("disableduser" = "user") := by decide
    simp [h1, h2]
  simp [userHasAppPermission, h, habsent, overrideDenied]

/-- Witness for C16: an unrecognised role string on the sample store. -/
theorem floor_level_open_to_all_witness :
    userHasAppPermission sampleStore 50 9 "searchall" "guest" StatusDisabledUser = true :=
  floor_level_open_to_all sampleStore 50 9 "searchall" "guest" (by decide)

/-- C17: when the `UserAllowedApp` row found for the pair is enabled, then, if
`ValidUntil` is set and `now` is strictly after it, `userHasAppPermission` returns
`false` for every role and level; and if `ValidUntil` is null or `now` is not
after it, the result is the role switch alone, the same as on any store without a
row for the pair. -/
theorem expired_override_denies (s : Store) (now : Time) (userID : Nat) (appID : String)
    (userApp : UserAllowedApp)
    (hfind : findUserAllowedApp s userID appID = some userApp)
    (henabled : userApp.Enabled = true) :
    (∀ validUntil : Time, userApp.ValidUntil = some validUntil → validUntil < now →
        ∀ role level : UserStatus, userHasAppPermission s now userID appID role level = false)
    ∧ (userApp.ValidUntil = none ∨ (∃ validUntil : Time,
          userApp.ValidUntil = some validUntil ∧ ¬ validUntil < now) →
        ∀ role level : UserStatus,
          userHasAppPermission s now userID appID role level = !basicLevelDenied role level
          ∧ ∀ (s0 : Store) (now0 : Time), findUserAllowedApp s0 userID appID = none →
              userHasAppPermission s now userID appID role level
                = userHasAppPermission s0 now0 userID appID role level) := by
  constructor
  · intro validUntil hv hlt role level
    unfold userHasAppPermission
    cases basicLevelDenied role level with
    | true => simp
    | false => simp [hfind, overrideDenied, henabled, hv, hlt]
  · intro h role level
    have hov : overrideDenied now (some userApp) = false := by
      rcases h with hnone | ⟨validUntil, hv, hnlt⟩
      · simp [overrideDenied, henabled, hnone]
      · simp [overrideDenied, henabled, hv, hnlt]
    have hs : userHasAppPermission s now userID appID role level
        = !basicLevelDenied role level := by
      unfold userHasAppPermission
      cases basicLevelDenied role level <;> simp [hfind, hov]
    refine ⟨hs, ?_⟩
    intro s0 now0 h0
    rw [hs]
    unfold userHasAppPermission
    cases basicLevelDenied role level <;> simp [h0, overrideDenied]

/-- Witness for C17: the admin user's override on `searchall` ran out at instant
40; at instant 50 the admin is denied. -/
theorem expired_override_denies_witness :
    userHasAppPermission (overrideStore true (some 40)) 50 1 "searchall" StatusAdmin StatusUser
      = false :=
  (expired_override_denies (overrideStore true (some 40)) 50 1 "searchall"
    (sampleOverride 1 1 "searchall" true (some 40)) (by decide) rfl).1 40 rfl (by decide)
    StatusAdmin StatusUser

/-! ## `ApplyNKey`: the first failing entry -/

/-- A list with a rejected entry splits at its first rejected entry. -/
theorem first_rejected_split (s : Store) (now : Time) (c : Context) :
    ∀ L : List String, (∃ a ∈ L, appGranted s now c a = false) →
      ∃ (pre : List String) (a : String) (post : List String),
        L = pre ++ a :: post ∧ (∀ b ∈ pre, appGranted s now c b = true)
        ∧ appGranted s now c a = false := by
  intro L
  induction L with
  | nil => intro h; obtain ⟨a, ha, _⟩ := h; simp at ha
  | cons x L ih =>
    intro h
    cases hx : appGranted s now c x with
    | false => exact ⟨[], x, L, rfl, by simp, hx⟩
    | true =>
      obtain ⟨a, ha, hbad⟩ := h
      have hal : a ∈ L := by
        rcases List.mem_cons.mp ha with rfl | h'
        · rw [hx] at hbad; exact absurd hbad (by decide)
        · exact h'
      obtain ⟨pre, b, post, hL, hpre, hb⟩ := ih ⟨a, hal, hbad⟩
      refine ⟨x :: pre, b, post, by rw [hL]; rfl, ?_, hb⟩
      intro y hy
      rcases List.mem_cons.mp hy with rfl | h'
      · exact hx
      · exact hpre y h'

/-- The answer of `ApplyNKey` when the first rejected entry of the list is `a`. -/
theorem ApplyNKey_first_rejected (cfg : Config) (s : Store) (now : Time) (c : Context)
    (req : ApplyNKeyRequest) (rnd : Option String) (pre post : List String) (a : String)
    (u : User) (hreq : req.AppIDs = some (pre ++ a :: post))
    (hu : findUser s c.user_id = some u)
    (hpre : ∀ b ∈ pre, appGranted s now c b = true) (ha : appGranted s now c a = false) :
    ApplyNKey cfg s now c (some req) rnd = (appRejection s a, s) := by
  have hloop := validateRequestedApps_first_rejected s now c pre a post [] hpre ha
  simp [ApplyNKey, bindApplyNKeyRequest, hreq, hu, hloop]

/-- C18: for a bound request of an existing user whose list has a failing entry,
the list splits as `pre ++ a :: post` with every entry of `pre` accepted and `a`
the earliest failing entry; `ApplyNKey` answers 400 "invalid app_id: a" when `a`
is not found active and 403 "no permission for app: a" when it is found active
but denied, with the store unchanged; and the answer is the same for every other
tail `post'` in place of `post`. -/
theorem ApplyNKey_reports_first_failing (cfg : Config) (s : Store) (now : Time) (c : Context)
    (req : ApplyNKeyRequest) (rnd : Option String) (L : List String)
    (hreq : req.AppIDs = some L) (huser : (findUser s c.user_id).isSome = true)
    (hbad : ∃ a ∈ L, appGranted s now c a = false) :
    ∃ (pre : List String) (a : String) (post : List String),
      L = pre ++ a :: post
      ∧ (∀ b ∈ pre, appGranted s now c b = true)
      ∧ appGranted s now c a = false
      ∧ (findActiveApp s a = none →
          ApplyNKey cfg s now c (some req) rnd
            = ({ status := 400, code := 400, message := "invalid app_id: " ++ a,
                 data := none }, s))
      ∧ (∀ app : App, findActiveApp s a = some app →
          ApplyNKey cfg s now c (some req) rnd
            = ({ status := 403, code := 403, message := "no permission for app: " ++ a,
                 data := none }, s))
      ∧ (∀ (req' : ApplyNKeyRequest) (post' : List String) (rnd' : Option String),
          req'.AppIDs = some (pre ++ a :: post') →
          ApplyNKey cfg s now c (some req') rnd' = ApplyNKey cfg s now c (some req) rnd) := by
  obtain ⟨pre, a, post, hL, hpre, ha⟩ := first_rejected_split s now c L hbad
  obtain ⟨u, hu⟩ := Option.isSome_iff_exists.mp huser
  have hrun := ApplyNKey_first_rejected cfg s now c req rnd pre post a u (by rw [hreq, hL]) hu
    hpre ha
  refine ⟨pre, a, post, hL, hpre, ha, ?_, ?_, ?_⟩
  · intro hnone
    rw [hrun]
    simp [appRejection, hnone]
  · intro app hsome
    rw [hrun]
    simp [appRejection, hsome]
  · intro req' post' rnd' hreq'
    rw [hrun, ApplyNKey_first_rejected cfg s now c req' rnd' pre post' a u hreq' hu hpre ha]

/-- Witness for C18: the `user`-role user asks for a granted app, then an unknown
one, then a denied one. -/
theorem ApplyNKey_reports_first_failing_witness :
    ∃ (pre : List String) (a : String) (post : List String),
      ["searchall", "nosuchapp", "livecontent_admin"] = pre ++ a :: post
      ∧ (∀ b ∈ pre, appGranted sampleStore 50 (sessionOf (sampleUser 3 "bob" StatusUser)) b = true)
      ∧ appGranted sampleStore 50 (sessionOf (sampleUser 3 "bob" StatusUser)) a = false
      ∧ (findActiveApp sampleStore a = none →
          ApplyNKey defaultConfig sampleStore 50 (sessionOf (sampleUser 3 "bob" StatusUser))
              (applyBody ["searchall", "nosuchapp", "livecontent_admin"]) (some "r")
            = ({ status := 400, code := 400, message := "invalid app_id: " ++ a,
                 data := none }, sampleStore)) := by
  obtain ⟨pre, a, post, hL, hpre, ha, h400, _, _⟩ :=
    ApplyNKey_reports_first_failing defaultConfig sampleStore 50
      (sessionOf (sampleUser 3 "bob" StatusUser))
      { Username := [], AppIDs := some ["searchall", "nosuchapp", "livecontent_admin"] }
      (some "r") ["searchall", "nosuchapp", "livecontent_admin"] rfl (by decide)
      ⟨"nosuchapp", by decide, by decide⟩
  exact ⟨pre, a, post, hL, hpre, ha, h400⟩

/-! ## `ValidateNKey`: scope and lifetime are never written -/

/-- What `ValidateNKey` does to the store: nothing, or the first-use update of the
unused token it found. -/
theorem ValidateNKey_store_cases (s : Store) (now : Time) (body : Option ValidateNKeyRequest) :
    (ValidateNKey s now body).2 = s
    ∨ ∃ (req : ValidateNKeyRequest) (nkey : NKey),
        findNKey s req.NKey = some nkey
        ∧ (ValidateNKey s now body).2
            = saveNKey s { nkey with FirstUsedAt := some now, FirstUsedApp := req.AppID,
                                     IsUsed := true } := by
  by_cases hok : (ValidateNKey s now body).1.status = 200
  swap
  · exact Or.inl (ValidateNKey_failed_store s now body hok)
  · cases body with
    | none => simp [ValidateNKey, bindValidateNKeyRequest] at hok
    | some req =>
      by_cases hb : req.NKey = "" ∨ req.AppID = ""
      · simp [ValidateNKey, bindValidateNKeyRequest, hb] at hok
      · push_neg at hb
        cases hf : findNKey s req.NKey with
        | none => simp [ValidateNKey, bindValidateNKeyRequest_some req hb.1 hb.2, hf] at hok
        | some nkey =>
          by_cases hexp : nkey.ExpiresAt < now
          · simp [ValidateNKey, bindValidateNKeyRequest_some req hb.1 hb.2, hf, hexp] at hok
          · have hrun := ValidateNKey_unexpired s now req nkey hb.1 hb.2 hf hexp
            cases hdec : jsonUnmarshalStrings nkey.AppIDs with
            | none => rw [hrun, hdec] at hok; simp at hok
            | some appIDs =>
              rw [hdec] at hrun
              by_cases hmem : req.AppID ∈ appIDs
              swap
              · rw [hrun] at hok; simp [hmem] at hok
              · simp only [hmem, if_true] at hrun
                rw [hrun]
                cases hused : nkey.IsUsed with
                | true => left; simp
                | false => right; exact ⟨req, nkey, hf, by simp⟩

theorem nkeyScope_saveNKey (s : Store) (nkey nkey' : NKey) (hwf : nkeyIDsUnique s)
    (hmem : nkey ∈ s.nkeys) (hid : nkey'.ID = nkey.ID)
    (hscope : nkeyScope nkey' = nkeyScope nkey) :
    (saveNKey s nkey').nkeys.map nkeyScope = s.nkeys.map nkeyScope := by
  simp only [saveNKey, List.map_map]
  apply List.map_congr_left
  intro x hx
  simp only [Function.comp]
  by_cases hxid : x.ID = nkey'.ID
  · have : x = nkey := hwf x hx nkey hmem (by rw [hxid, hid])
    rw [if_pos hxid, hscope, this]
  · rw [if_neg hxid]

theorem ValidateNKey_scope_step (s : Store) (now : Time) (body : Option ValidateNKeyRequest)
    (hwf : nkeyIDsUnique s) :
    (ValidateNKey s now body).2.nkeys.map nkeyScope = s.nkeys.map nkeyScope
    ∧ nkeyIDsUnique (ValidateNKey s now body).2 := by
  rcases ValidateNKey_store_cases s now body with h | ⟨req, nkey, hf, h⟩
  · rw [h]; exact ⟨rfl, hwf⟩
  · rw [h]
    exact ⟨nkeyScope_saveNKey s nkey _ hwf (findNKey_some hf).1 rfl rfl,
      nkeyIDsUnique_saveNKey s _ hwf⟩

theorem runValidateNKey_scope (calls : List (Time × Option ValidateNKeyRequest)) :
    ∀ s : Store, nkeyIDsUnique s →
      (runValidateNKey s calls).nkeys.map nkeyScope = s.nkeys.map nkeyScope := by
  induction calls with
  | nil => intro s _; rfl
  | cons call calls ih =>
    intro s hwf
    obtain ⟨now, body⟩ := call
    obtain ⟨h1, h2⟩ := ValidateNKey_scope_step s now body hwf
    simp only [runValidateNKey]
    rw [ih _ h2, h1]

theorem find_of_same_scope (key : String) :
    ∀ (l l' : List NKey), l'.map nkeyScope = l.map nkeyScope →
      ∀ nkey : NKey, l.find? (fun k => decide (k.KeyValue = key)) = some nkey →
        ∃ nkey' : NKey, l'.find? (fun k => decide (k.KeyValue = key)) = some nkey'
          ∧ nkeyScope nkey' = nkeyScope nkey := by
  intro l
  induction l with
  | nil => intro l' _ nkey h; simp at h
  | cons x l ih =>
    intro l' hmap nkey h
    cases l' with
    | nil => simp at hmap
    | cons y l' =>
      simp only [List.map_cons, List.cons.injEq] at hmap
      obtain ⟨hxy, hrest⟩ := hmap
      have hkv : y.KeyValue = x.KeyValue := by
        have := congrArg (fun p => p.2.1) hxy
        simpa [nkeyScope] using this
      by_cases hx : x.KeyValue = key
      · simp only [List.find?_cons, hx, decide_True, Option.some.injEq] at h
        refine ⟨y, by simp [List.find?_cons, hkv, hx], ?_⟩
        rw [← h]; exact hxy
      · simp only [List.find?_cons, hx, decide_False] at h
        obtain ⟨nkey', h1, h2⟩ := ih l' hrest nkey h
        exact ⟨nkey', by simp [List.find?_cons, hkv, hx, h1], h2⟩

/-- C19: over any sequence of `ValidateNKey` calls (successful or failing) on a
store with unique token primary keys, the `nkeys` table keeps, row by row, each
token's primary key, `KeyValue`, `UserID`, `AppIDs` and `ExpiresAt`; so a token
found under a key before is found under it afterwards with these fields equal,
and its app list decodes to the same list. -/
theorem ValidateNKey_never_changes_scope (s : Store)
    (calls : List (Time × Option ValidateNKeyRequest)) (hwf : nkeyIDsUnique s) :
    (runValidateNKey s calls).nkeys.map nkeyScope = s.nkeys.map nkeyScope
    ∧ (∀ (key : String) (nkey : NKey), findNKey s key = some nkey →
        ∃ nkey' : NKey, findNKey (runValidateNKey s calls) key = some nkey'
          ∧ nkey'.KeyValue = nkey.KeyValue ∧ nkey'.UserID = nkey.UserID
          ∧ nkey'.AppIDs = nkey.AppIDs ∧ nkey'.ExpiresAt = nkey.ExpiresAt
          ∧ jsonUnmarshalStrings nkey'.AppIDs = jsonUnmarshalStrings nkey.AppIDs)
    ∧ (∀ (now : Time) (body : Option ValidateNKeyRequest),
        (ValidateNKey s now body).2.nkeys.map nkeyScope = s.nkeys.map nkeyScope) := by
  have hrun := runValidateNKey_scope calls s hwf
  refine ⟨hrun, ?_, fun now body => (ValidateNKey_scope_step s now body hwf).1⟩
  intro key nkey hfind
  obtain ⟨nkey', h1, h2⟩ := find_of_same_scope key s.nkeys _ hrun nkey hfind
  simp only [nkeyScope, Prod.mk.injEq] at h2
  exact ⟨nkey', h1, h2.2.1, h2.2.2.1, h2.2.2.2.1, h2.2.2.2.2, by rw [h2.2.2.2.1]⟩

/-- Witness for C19: the token row after a first use, a second use, an
out-of-scope call and a call after expiry. -/
theorem ValidateNKey_never_changes_scope_witness :
    (runValidateNKey tokenStore
        [(10, some (validateReq "TOUNET_3_abc" "advanced_analytics")),
         (20, some (validateReq "TOUNET_3_abc" "searchall")),
         (30, some (validateReq "TOUNET_3_abc" "livecontent_admin")),
         (2000, some (validateReq "TOUNET_3_abc" "searchall"))]).nkeys.map nkeyScope
      = tokenStore.nkeys.map nkeyScope :=
  (ValidateNKey_never_changes_scope tokenStore
    [(10, some (validateReq "TOUNET_3_abc" "advanced_analytics")),
     (20, some (validateReq "TOUNET_3_abc" "searchall")),
     (30, some (validateReq "TOUNET_3_abc" "livecontent_admin")),
     (2000, some (validateReq "TOUNET_3_abc" "searchall"))]
    (by unfold nkeyIDsUnique; decide)).1

/-! ## `Login`: failures look alike -/

theorem bindLoginRequest_some (req : LoginRequest) (h1 : req.Username ≠ "")
    (h2 : req.Password ≠ "") : bindLoginRequest (some req) = some req := by
  simp [bindLoginRequest, h1, h2]

/-- C20: for a bound request, `Login` gives the same answer, 401 with code 401 and
message "invalid credentials" and no data, when no user row is found under the
username and when a row is found but `CheckPassword` rejects the password; in
both cases the store is returned unchanged. The two answers are equal across any
two stores, requests, libraries and instants. -/
theorem Login_failures_indistinguishable (lib : CryptoLib) (cfg : Config) (s : Store)
    (now : Time) (req : LoginRequest) (h1 : req.Username ≠ "") (h2 : req.Password ≠ "") :
    (findUserByUsername s req.Username = none →
        Login lib cfg s now (some req)
          = ({ status := 401, code := 401, message := "invalid credentials", data := none }, s))
    ∧ (∀ user : User, findUserByUsername s req.Username = some user →
        CheckPassword lib req.Password user.PasswordHash = false →
        Login lib cfg s now (some req)
          = ({ status := 401, code := 401, message := "invalid credentials", data := none }, s))
    ∧ (∀ (lib' : CryptoLib) (cfg' : Config) (s' : Store) (now' : Time) (req' : LoginRequest)
          (user' : User),
        req'.Username ≠ "" → req'.Password ≠ "" →
        findUserByUsername s req.Username = none →
        findUserByUsername s' req'.Username = some user' →
        CheckPassword lib' req'.Password user'.PasswordHash = false →
        (Login lib cfg s now (some req)).1 = (Login lib' cfg' s' now' (some req')).1) := by
  have hunknown : ∀ (lib : CryptoLib) (cfg : Config) (s : Store) (now : Time)
      (req : LoginRequest), req.Username ≠ "" → req.Password ≠ "" →
      findUserByUsername s req.Username = none →
      Login lib cfg s now (some req)
        = ({ status := 401, code := 401, message := "invalid credentials", data := none },
           s) := by
    intro lib cfg s now req h1 h2 h
    simp [Login, bindLoginRequest_some req h1 h2, h]
  have hwrong : ∀ (lib : CryptoLib) (cfg : Config) (s : Store) (now : Time)
      (req : LoginRequest) (user : User), req.Username ≠ "" → req.Password ≠ "" →
      findUserByUsername s req.Username = some user →
      CheckPassword lib req.Password user.PasswordHash = false →
      Login lib cfg s now (some req)
        = ({ status := 401, code := 401, message := "invalid credentials", data := none },
           s) := by
    intro lib cfg s now req user h1 h2 h hc
    simp [Login, bindLoginRequest_some req h1 h2, h, hc]
  refine ⟨hunknown lib cfg s now req h1 h2, fun user => hwrong lib cfg s now req user h1 h2, ?_⟩
  intro lib' cfg' s' now' req' user' h1' h2' hnone hsome hc
  rw [hunknown lib cfg s now req h1 h2 hnone, hwrong lib' cfg' s' now' req' user' h1' h2' hsome hc]

/-- Witness for C20: an unknown username, and `bob` with a wrong password. -/
theorem Login_failures_indistinguishable_witness :
    Login sampleLib defaultConfig sampleStore 50 (some { Username := "nobody", Password := "x" })
      = ({ status := 401, code := 401, message := "invalid credentials", data := none },
         sampleStore)
    ∧ (Login sampleLib defaultConfig sampleStore 50
        (some { Username := "nobody", Password := "x" })).1
      = (Login sampleLib defaultConfig sampleStore 70
        (some { Username := "bob", Password := "guess" })).1 :=
  ⟨(Login_failures_indistinguishable sampleLib defaultConfig sampleStore 50
      { Username := "nobody", Password := "x" } (by decide) (by decide)).1 (by decide),
   (Login_failures_indistinguishable sampleLib defaultConfig sampleStore 50
      { Username := "nobody", Password := "x" } (by decide) (by decide)).2.2
      sampleLib defaultConfig sampleStore 70 { Username := "bob", Password := "guess" }
      (sampleUser 3 "bob" StatusUser) (by decide) (by decide) (by decide) (by decide)
      (by decide)⟩

/-! ## Session tokens: `ValidateJWT` after `GenerateJWT` -/

theorem NewNumericDate_add_whole (t d : Int) (h : d % 1000000000 = 0) :
    NewNumericDate (t + d) = NewNumericDate t + d := by
  show (t + d - (t + d) % 1000000000 : Int) = t - t % 1000000000 + d
  omega

set_option maxRecDepth 20000 in
/-- C21 as stated fails, in two ways, because `jwt.NewNumericDate` truncates both
dates to whole seconds and `GenerateJWT` reads the clock once for each. A token
issued at 0.6 s with a TTL of 1.5 s validates at instant 1 s with `ExpiresAt` =
2 s and `IssuedAt` = 0 s, while `IssuedAt + ttl` is 1.5 s. A token with the
default TTL of 24 h whose two clock reads fall 100 ns before and 100 ns after
instant 1 s validates with `ExpiresAt` = 86400 s and `IssuedAt` = 1 s, while
`IssuedAt + ttl` is 86401 s. -/
theorem ValidateJWT_expiry_not_issued_plus_ttl :
    (GenerateJWT sampleLib (sampleUser 3 "bob" StatusUser) "s3cret" 1500000000
          600000000 600000100 = some "jwt.bob.s3cret"
      ∧ ValidateJWT sampleJWTLib 1000000000 "jwt.bob.s3cret" "s3cret"
        = some { UserID := 3, Username := "bob", Status := StatusUser,
                 ExpiresAt := some 2000000000, NotBefore := none, IssuedAt := some 0 }
      ∧ (0 : Int) + 1500000000 ≠ 2000000000)
    ∧ (defaultConfig.JWTExpiration = 86400000000000
      ∧ GenerateJWT sampleLib (sampleUser 4 "dan" StatusDisabledUser) "s3cret"
          defaultConfig.JWTExpiration 999999900 1000000100 = some "jwt.dan.s3cret"
      ∧ ValidateJWT sampleJWTLib 2000000000 "jwt.dan.s3cret" "s3cret"
        = some { UserID := 4, Username := "dan", Status := StatusDisabledUser,
                 ExpiresAt := some 86400000000000, NotBefore := none,
                 IssuedAt := some 1000000000 }
      ∧ (1000000000 : Int) + 86400000000000 ≠ 86400000000000) := by
  decide

/-- C21, amended: let `GenerateJWT`, with clock reads `expiryRead` and then
`issuedRead`, return a token that the library parses back to the signed claims
with an HMAC method and verifies under the same secret. Then `ValidateJWT` at
every instant strictly before the expiry returns claims with the user's id, name
and role, `ExpiresAt` = `expiryRead + ttl` truncated to whole seconds and
`IssuedAt` = `issuedRead` truncated to whole seconds, so that
`ExpiresAt = IssuedAt + ttl` when `ttl` is a whole number of seconds and the two
reads fall in the same second; from the expiry on it fails. For every token,
`ValidateJWT` fails when the token is malformed, when its method is not HMAC,
when the signature does not verify under the given secret, and when it carries
an expiry that is not after the instant of the call. -/
theorem ValidateJWT_round_trip (lib : CryptoLib) (jwtlib : JWTLib) (user : User)
    (secret : String) (ttl : Duration) (expiryRead issuedRead : Time) (tokenString : String)
    (hsign : GenerateJWT lib user secret ttl expiryRead issuedRead = some tokenString)
    (hparse : jwtlib.parseUnverified tokenString
      = some { hmac := true, claims := newClaims user ttl expiryRead issuedRead })
    (hverify : jwtlib.verify tokenString secret = true) :
    (∀ now' : Time, now' < NewNumericDate (expiryRead + ttl) →
        ∃ claims : Claims, ValidateJWT jwtlib now' tokenString secret = some claims
          ∧ lib.signedString claims secret = some tokenString
          ∧ claims.UserID = user.ID ∧ claims.Username = user.Username
          ∧ claims.Status = user.Status
          ∧ claims.ExpiresAt = some (NewNumericDate (expiryRead + ttl))
          ∧ claims.IssuedAt = some (NewNumericDate issuedRead)
          ∧ (ttl % 1000000000 = 0 → NewNumericDate expiryRead = NewNumericDate issuedRead →
              claims.ExpiresAt = claims.IssuedAt.map (fun issued => issued + ttl)))
      ∧ (∀ now' : Time, NewNumericDate (expiryRead + ttl) ≤ now' →
          ValidateJWT jwtlib now' tokenString secret = none)
      ∧ (∀ (t key : String) (instant : Time), jwtlib.parseUnverified t = none →
          ValidateJWT jwtlib instant t key = none)
      ∧ (∀ (t key : String) (instant : Time) (token : ParsedToken),
          jwtlib.parseUnverified t = some token → token.hmac = false →
          ValidateJWT jwtlib instant t key = none)
      ∧ (∀ (t key : String) (instant : Time), jwtlib.verify t key = false →
          ValidateJWT jwtlib instant t key = none)
      ∧ (∀ (t key : String) (instant : Time) (token : ParsedToken) (exp : Time),
          jwtlib.parseUnverified t = some token → token.claims.ExpiresAt = some exp →
          exp ≤ instant → ValidateJWT jwtlib instant t key = none) := by
  refine ⟨?_, ?_, ?_, ?_, ?_, ?_⟩
  · intro now' hlt
    refine ⟨newClaims user ttl expiryRead issuedRead, ?_, hsign, rfl, rfl, rfl, rfl, rfl, ?_⟩
    · simp [ValidateJWT, hparse, hverify, validateClaims, newClaims, hlt]
    · intro hwhole hsame
      simp only [newClaims, Option.map_some', Option.some.injEq]
      rw [← hsame]
      exact NewNumericDate_add_whole expiryRead ttl hwhole
  · intro now' hle
    simp [ValidateJWT, hparse, hverify, validateClaims, newClaims, not_lt.mpr hle]
  · intro t key instant hnone
    simp [ValidateJWT, hnone]
  · intro t key instant token hsome hm
    simp [ValidateJWT, hsome, hm]
  · intro t key instant hv
    unfold ValidateJWT
    cases jwtlib.parseUnverified t with
    | none => rfl
    | some token => cases hm : token.hmac <;> simp [hv]
  · intro t key instant token exp hsome hexp hle
    unfold ValidateJWT
    simp only [hsome]
    cases hm : token.hmac
    · simp
    · cases hv : jwtlib.verify t key
      · simp
      · simp [validateClaims, hexp, not_lt.mpr hle]

set_option maxRecDepth 20000 in
/-- C21 (amended) at a concrete input: the token of user 2, with clock reads 0.6 s
and 100 ns later and the default TTL of 24 h, validated one hour later. -/
theorem ValidateJWT_round_trip_witness :
    ∃ claims : Claims,
      ValidateJWT sampleJWTLib (Hour + 600000000) "jwt.eve.s3cret" "s3cret" = some claims
        ∧ claims.UserID = 2 ∧ claims.Username = "eve" ∧ claims.Status = StatusTrusted
        ∧ claims.ExpiresAt = some (24 * Hour) ∧ claims.IssuedAt = some 0
        ∧ claims.ExpiresAt = claims.IssuedAt.map (fun issued => issued + 24 * Hour)
        ∧ ValidateJWT sampleJWTLib (24 * Hour) "jwt.eve.s3cret" "s3cret" = none
        ∧ ValidateJWT sampleJWTLib (Hour + 600000000) "jwt.eve.s3cret" "other" = none
        ∧ ValidateJWT sampleJWTLib (Hour + 600000000) "not-a-token" "s3cret" = none := by
  have h := ValidateJWT_round_trip sampleLib sampleJWTLib (sampleUser 2 "eve" StatusTrusted)
    "s3cret" defaultConfig.JWTExpiration 600000000 600000100 "jwt.eve.s3cret" (by decide)
    (by decide) (by decide)
  obtain ⟨claims, hval, _, hid, hname, hrole, hexp, hiat, hsum⟩ :=
    h.1 (Hour + 600000000) (by decide)
  exact ⟨claims, hval, hid, hname, hrole, hexp.trans (by decide), hiat.trans (by decide),
    hsum (by decide) (by decide),
    h.2.1 (24 * Hour) (by decide), h.2.2.2.2.1 "jwt.eve.s3cret" "other" _ (by decide),
    h.2.2.1 "not-a-token" "s3cret" _ (by decide)⟩

/-! ## `DeleteInviteCode` -/

/-- C22: when the lookup of `DeleteInviteCode` finds a row whose `CodeUserID` is
set, the answer is 400 "cannot delete used invite code" and the store, audit
table included, is returned as it was. Conversely, on any input, an answer of 200
or any change to the store implies that the lookup found a row whose
`CodeUserID` is null. -/
theorem DeleteInviteCode_used_code_kept (s : Store) (now : Time) (c : Context)
    (info : RequestInfo) (inviteCode : String) (code : InviteCode)
    (hfind : findInviteCode s inviteCode = some code) (hused : code.CodeUserID.isSome = true) :
    DeleteInviteCode s now c info inviteCode
        = ({ status := 400, code := 400, message := "cannot delete used invite code" }, s)
      ∧ (DeleteInviteCode s now c info inviteCode).2.inviteCodes = s.inviteCodes
      ∧ (DeleteInviteCode s now c info inviteCode).2.auditLogs = s.auditLogs
      ∧ (∀ (s0 : Store) (now0 : Time) (c0 : Context) (info0 : RequestInfo) (param : String),
          ((DeleteInviteCode s0 now0 c0 info0 param).1.status = 200
            ∨ (DeleteInviteCode s0 now0 c0 info0 param).2 ≠ s0) →
          ∃ found : InviteCode, findInviteCode s0 param = some found
            ∧ found.CodeUserID = none) := by
  have h : DeleteInviteCode s now c info inviteCode
      = ({ status := 400, code := 400, message := "cannot delete used invite code" }, s) := by
    simp [DeleteInviteCode, hfind, hused]
  refine ⟨h, by rw [h], by rw [h], ?_⟩
  intro s0 now0 c0 info0 param hchg
  unfold DeleteInviteCode at hchg
  cases hf : findInviteCode s0 param with
  | none => simp [hf] at hchg
  | some found =>
    rcases Option.eq_none_or_eq_some found.CodeUserID with hnone | ⟨uid, hsome⟩
    · exact ⟨found, rfl, hnone⟩
    · simp [hf, hsome] at hchg

set_option maxRecDepth 20000 in
/-- C22 at a concrete input: the invite redeemed by user 3 stays, the fresh one is
deleted with an audit row. -/
theorem DeleteInviteCode_used_code_kept_witness :
    (DeleteInviteCode inviteStore 9 (sessionOf (sampleUser 1 "root" StatusAdmin)) sampleInfo
        "USED-CODE"
      = ({ status := 400, code := 400, message := "cannot delete used invite code" }, inviteStore))
    ∧ (DeleteInviteCode inviteStore 9 (sessionOf (sampleUser 1 "root" StatusAdmin)) sampleInfo
        "FRESH-CODE")
      = ({ status := 200, code := 200, message := "success" },
         { inviteStore with
           inviteCodes := [sampleInvite "USED-CODE" (some 3) (some 5)],
           auditLogs := [{ ID := 1, ActionType := "DELETE_INVITE_CODE",
                           TargetType := "INVITE_CODE", TargetID := "FRESH-CODE", OperatorID := 1,
                           IPAddress := "192.0.2.1", UserAgent := "curl/8.0",
                           Details := "Deleted invite code: FRESH-CODE", CreatedAt := 9 }] }) :=
  ⟨(DeleteInviteCode_used_code_kept inviteStore 9 (sessionOf (sampleUser 1 "root" StatusAdmin))
      sampleInfo "USED-CODE" (sampleInvite "USED-CODE" (some 3) (some 5)) (by decide)
      (by decide)).1,
   by decide⟩

/-! ## `DeleteUser`: the self-delete guard -/

set_option maxRecDepth 20000 in
/-- C27 fails on the code. The guard of `DeleteUser` compares the path parameter
with the decimal numeral of the operator id as strings: the parameter
`toString c.user_id` is refused with 400 and the store is kept, for every operator;
but for operator 1 the parameter `"01"` has the numeric value 1, is not the
string `"1"`, and resolves to the operator's own row, which is soft-deleted with
an audit row and answered 200. -/
theorem DeleteUser_self_delete_by_padded_id :
    (∀ (rawWhere : String → Store → Option User) (s : Store) (now : Time) (c : Context)
        (info : RequestInfo),
        DeleteUser rawWhere s now c info (toString c.user_id)
          = ({ status := 400, code := 400, message := "cannot delete your own account" }, s))
    ∧ Atoi "01" = some 1
    ∧ findUserByParam noRawWhere sampleStore "01" = some (sampleUser 1 "root" StatusAdmin)
    ∧ DeleteUser noRawWhere sampleStore 9 (sessionOf (sampleUser 1 "root" StatusAdmin))
          sampleInfo "01"
        = ({ status := 200, code := 200, message := "success" },
           { sampleStore with
             users := [{ sampleUser 1 "root" StatusAdmin with DeletedAt := some 9 },
                       sampleUser 2 "eve" StatusTrusted, sampleUser 3 "bob" StatusUser,
                       sampleUser 4 "dan" StatusDisabledUser],
             auditLogs := [{ ID := 1, ActionType := "DELETE_USER", TargetType := "USER",
                             TargetID := "01", OperatorID := 1, IPAddress := "192.0.2.1",
                             UserAgent := "curl/8.0", Details := "Deleted user: root",
                             CreatedAt := 9 }] }) := by
  refine ⟨?_, by decide, by decide, by decide⟩
  intro rawWhere s now c info
  simp [DeleteUser]

/-! ## `ApplyNKey`: the role comes from the session -/

theorem findUser_isSome_of_same_rows (id : Nat) : ∀ (l1 l2 : List User),
    List.Forall₂ (fun u v => { u with Status := v.Status } = v) l1 l2 →
    ((l1.find? (fun u => decide (u.ID = id) && u.DeletedAt.isNone)).isSome
      = (l2.find? (fun u => decide (u.ID = id) && u.DeletedAt.isNone)).isSome) := by
  intro l1 l2 h
  induction h with
  | nil => rfl
  | @cons u v l1 l2 huv _ ih =>
    have hid : v.ID = u.ID := by rw [← huv]
    have hdel : v.DeletedAt = u.DeletedAt := by rw [← huv]
    simp only [List.find?_cons, hid, hdel]
    cases hp : (decide (u.ID = id) && u.DeletedAt.isNone) with
    | true => rfl
    | false => exact ih

theorem validateRequestedApps_congr (s1 s2 : Store) (now : Time) (c : Context)
    (happs : s1.apps = s2.apps) (hov : s1.userAllowedApps = s2.userAllowedApps) :
    ∀ (l acc : List String),
      validateRequestedApps s1 now c l acc = validateRequestedApps s2 now c l acc := by
  intro l
  induction l with
  | nil => intro acc; rfl
  | cons a l ih =>
    intro acc
    have hfa : findActiveApp s1 a = findActiveApp s2 a := by simp [findActiveApp, happs]
    have hperm : ∀ lvl, userHasAppPermission s1 now c.user_id a c.user_status lvl
        = userHasAppPermission s2 now c.user_id a c.user_status lvl := by
      intro lvl
      simp [userHasAppPermission, findUserAllowedApp, hov]
    rw [validateRequestedApps, validateRequestedApps, hfa]
    cases findActiveApp s2 a with
    | none => rfl
    | some app => simp only [hperm, ih]

/-- The answer of `ApplyNKey` and the token table it leaves depend on the store
only through: whether the session user has a live row, the app table, the
override table and the token table. -/
theorem ApplyNKey_congr (cfg : Config) (s1 s2 : Store) (now : Time) (c : Context)
    (body : Option ApplyNKeyRequest) (rnd : Option String)
    (hu : (findUser s1 c.user_id).isSome = (findUser s2 c.user_id).isSome)
    (happs : s1.apps = s2.apps) (hov : s1.userAllowedApps = s2.userAllowedApps)
    (hn : s1.nkeys = s2.nkeys) :
    (ApplyNKey cfg s1 now c body rnd).1 = (ApplyNKey cfg s2 now c body rnd).1
      ∧ (ApplyNKey cfg s1 now c body rnd).2.nkeys = (ApplyNKey cfg s2 now c body rnd).2.nkeys := by
  unfold ApplyNKey
  cases bindApplyNKeyRequest body with
  | none => exact ⟨rfl, hn⟩
  | some appIDs =>
    simp only
    cases h1 : findUser s1 c.user_id with
    | none =>
      rw [h1] at hu
      cases h2 : findUser s2 c.user_id with
      | none => exact ⟨rfl, hn⟩
      | some u2 => rw [h2] at hu; simp at hu
    | some u1 =>
      rw [h1] at hu
      cases h2 : findUser s2 c.user_id with
      | none => rw [h2] at hu; simp at hu
      | some u2 =>
        simp only
        rw [validateRequestedApps_congr s1 s2 now c happs hov appIDs []]
        cases validateRequestedApps s2 now c appIDs [] with
        | error resp => exact ⟨rfl, hn⟩
        | ok valid =>
          simp only
          cases GenerateNKey c.user_id valid rnd with
          | none => exact ⟨rfl, hn⟩
          | some nkey =>
            simp only [createNKey, nextNKeyID, hn]
            by_cases hany : (s2.nkeys.any fun k => decide (k.KeyValue = nkey)) = true
            · simp [hany, hn]
            · simp [hany]

/-- C23: the grant decision of `ApplyNKey` uses the role of the session context
(`user_status`, set by `AuthMiddleware` from the claims), never the `Status` column
of the stored user. Two stores whose user tables agree row by row on every column
but `Status`, with the same apps, overrides and tokens, give for every session,
request body and random string the same response (status, message, token value,
approved app list) and the same token table afterwards. -/
theorem ApplyNKey_ignores_stored_status (cfg : Config) (s1 s2 : Store) (now : Time)
    (c : Context) (body : Option ApplyNKeyRequest) (rnd : Option String)
    (husers : List.Forall₂ (fun u v => { u with Status := v.Status } = v) s1.users s2.users)
    (happs : s1.apps = s2.apps) (hov : s1.userAllowedApps = s2.userAllowedApps)
    (hn : s1.nkeys = s2.nkeys) :
    (ApplyNKey cfg s1 now c body rnd).1 = (ApplyNKey cfg s2 now c body rnd).1
      ∧ (ApplyNKey cfg s1 now c body rnd).2.nkeys = (ApplyNKey cfg s2 now c body rnd).2.nkeys :=
  ApplyNKey_congr cfg s1 s2 now c body rnd
    (findUser_isSome_of_same_rows c.user_id s1.users s2.users husers) happs hov hn

set_option maxRecDepth 20000 in
/-- C23 at a concrete input: user 3 holds a session with role `user` while the
stored row says `admin`; the admin-level app is refused as on the unchanged store,
and the user-level app is granted in both. -/
theorem ApplyNKey_ignores_stored_status_witness :
    ((ApplyNKey defaultConfig sampleStore 0 (sessionOf (sampleUser 3 "bob" StatusUser))
        (applyBody ["livecontent_admin"]) (some "abc")).1
      = (ApplyNKey defaultConfig promotedStore 0 (sessionOf (sampleUser 3 "bob" StatusUser))
        (applyBody ["livecontent_admin"]) (some "abc")).1
      ∧ (ApplyNKey defaultConfig sampleStore 0 (sessionOf (sampleUser 3 "bob" StatusUser))
        (applyBody ["livecontent_admin"]) (some "abc")).2.nkeys
      = (ApplyNKey defaultConfig promotedStore 0 (sessionOf (sampleUser 3 "bob" StatusUser))
        (applyBody ["livecontent_admin"]) (some "abc")).2.nkeys)
    ∧ (ApplyNKey defaultConfig promotedStore 0 (sessionOf (sampleUser 3 "bob" StatusUser))
        (applyBody ["livecontent_admin"]) (some "abc")).1.status = 403
    ∧ (ApplyNKey defaultConfig promotedStore 0 (sessionOf (sampleUser 3 "bob" StatusUser))
        (applyBody ["searchall"]) (some "abc")).1.status = 200 :=
  ⟨ApplyNKey_ignores_stored_status defaultConfig sampleStore promotedStore 0
      (sessionOf (sampleUser 3 "bob" StatusUser)) (applyBody ["livecontent_admin"]) (some "abc")
      (by decide) rfl rfl rfl,
   by decide, by decide⟩

/-! ## `ValidateNKey`: only the token row counts -/

/-- The answer of `ValidateNKey` and the token table it leaves depend on the store
only through the token table, and for the reported user through the user table. -/
theorem ValidateNKey_congr (s1 s2 : Store) (now : Time) (body : Option ValidateNKeyRequest)
    (hn : s1.nkeys = s2.nkeys) :
    (ValidateNKey s1 now body).1.status = (ValidateNKey s2 now body).1.status
      ∧ (ValidateNKey s1 now body).1.message = (ValidateNKey s2 now body).1.message
      ∧ (ValidateNKey s1 now body).2.nkeys = (ValidateNKey s2 now body).2.nkeys
      ∧ (s1.users = s2.users → (ValidateNKey s1 now body).1 = (ValidateNKey s2 now body).1) := by
  unfold ValidateNKey
  cases bindValidateNKeyRequest body with
  | none => exact ⟨rfl, rfl, hn, fun _ => rfl⟩
  | some req =>
    simp only [findNKey, hn]
    cases s2.nkeys.find? (fun k => decide (k.KeyValue = req.NKey)) with
    | none => exact ⟨rfl, rfl, hn, fun _ => rfl⟩
    | some nkey =>
      simp only
      by_cases hexp : nkey.ExpiresAt < now
      · simp [hexp, hn]
      · simp only [hexp, if_false]
        cases jsonUnmarshalStrings nkey.AppIDs with
        | none => exact ⟨rfl, rfl, hn, fun _ => rfl⟩
        | some appIDs =>
          simp only
          cases appIDs.any (fun appID => decide (appID = req.AppID)) with
          | false => exact ⟨rfl, rfl, hn, fun _ => rfl⟩
          | true =>
            refine ⟨rfl, rfl, ?_, ?_⟩
            · cases nkey.IsUsed <;> simp [saveNKey, hn]
            · intro hu
              simp [preloadUser, findUser, hu]

/-- C24: the answer of `ValidateNKey` is a function of the token table, the instant
and the request; the app table and the override table are never read. Two stores
with the same tokens and users give the same response and the same token table
afterwards, however their apps and overrides differ; so a stored, unexpired token
is answered 200 for every app id of its list on any such store. -/
theorem ValidateNKey_ignores_apps_and_overrides (s1 s2 : Store) (now : Time)
    (body : Option ValidateNKeyRequest)
    (hn : s1.nkeys = s2.nkeys) (hu : s1.users = s2.users) :
    (ValidateNKey s1 now body).1 = (ValidateNKey s2 now body).1
      ∧ (ValidateNKey s1 now body).2.nkeys = (ValidateNKey s2 now body).2.nkeys
      ∧ (∀ (req : ValidateNKeyRequest) (nkey : NKey) (L : List String),
          req.NKey ≠ "" → req.AppID ≠ "" → findNKey s1 req.NKey = some nkey →
          ¬ nkey.ExpiresAt < now → jsonUnmarshalStrings nkey.AppIDs = some L → req.AppID ∈ L →
          (ValidateNKey s2 now (some req)).1.status = 200) := by
  refine ⟨(ValidateNKey_congr s1 s2 now body hn).2.2.2 hu,
    (ValidateNKey_congr s1 s2 now body hn).2.2.1, ?_⟩
  intro req nkey L h1 h2 hfind hexp hdec hmem
  rw [← (ValidateNKey_congr s1 s2 now (some req) hn).1,
    ValidateNKey_unexpired s1 now req nkey h1 h2 hfind hexp, hdec]
  simp [hmem]

set_option maxRecDepth 20000 in
/-- C24 at a concrete input: the token of user 3 for `searchall` and
`advanced_analytics` is answered 200 for `advanced_analytics` at instant 10 although
that app no longer exists, and for `searchall` although it is inactive and
disabled for the user. -/
theorem ValidateNKey_ignores_apps_and_overrides_witness :
    (ValidateNKey tokenStore 10 (some (validateReq "TOUNET_3_abc" "advanced_analytics"))).1
        = (ValidateNKey changedAppsStore 10
            (some (validateReq "TOUNET_3_abc" "advanced_analytics"))).1
      ∧ (ValidateNKey changedAppsStore 10
          (some (validateReq "TOUNET_3_abc" "advanced_analytics"))).1.status = 200
      ∧ (ValidateNKey changedAppsStore 10
          (some (validateReq "TOUNET_3_abc" "searchall"))).1.status = 200 :=
  ⟨(ValidateNKey_ignores_apps_and_overrides tokenStore changedAppsStore 10
      (some (validateReq "TOUNET_3_abc" "advanced_analytics")) rfl rfl).1,
   (ValidateNKey_ignores_apps_and_overrides tokenStore changedAppsStore 10
      (some (validateReq "TOUNET_3_abc" "advanced_analytics")) rfl rfl).2.2
      (validateReq "TOUNET_3_abc" "advanced_analytics")
      (sampleNKey 1 "TOUNET_3_abc" 3 ["searchall", "advanced_analytics"] 1000)
      ["searchall", "advanced_analytics"] (by decide) (by decide) (by decide) (by decide)
      (by decide) (by decide),
   by decide⟩

/-! ## `ApplyNKey`: the empty list -/

theorem tounet_key_ne_empty (a b : String) : "TOUNET_" ++ a ++ "_" ++ b ≠ "" := by
  intro h
  have := congrArg String.length h
  simp only [String.length_append] at this
  have h7 : "TOUNET_".length = 7 := by decide
  have h0 : "".length = 0 := by decide
  omega

/-- C25: a request whose `app_ids` list is present and empty passes `ApplyNKey`
without any app lookup or permission check (the result below does not mention the
app or override tables): with a live session user, a random string and a fresh key
value the answer is 200 with an empty `apps`, and the stored token has
`AppIDs = "null"`, the encoding of the nil slice. Every later `ValidateNKey` call
for that token leaves the store as it is and is not answered 200; up to the expiry
the answer is 403 "no permission for app" for every target app id. -/
theorem ApplyNKey_empty_app_list (cfg : Config) (s : Store) (now : Time) (c : Context)
    (req : ApplyNKeyRequest) (encoded : String) (u : User)
    (hreq : req.AppIDs = some []) (hu : findUser s c.user_id = some u)
    (hfresh : s.nkeys.any (fun k => decide (k.KeyValue
        = "TOUNET_" ++ toString c.user_id ++ "_" ++ encoded)) = false) :
    ApplyNKey cfg s now c (some req) (some encoded)
      = ({ status := 200, code := 200, message := "success",
           data := some { nkey := "TOUNET_" ++ toString c.user_id ++ "_" ++ encoded,
                          expires_in := secondsInt cfg.NKeyExpiration, apps := [] } },
         { s with nkeys := s.nkeys ++
            [{ ID := nextNKeyID s, KeyValue := "TOUNET_" ++ toString c.user_id ++ "_" ++ encoded,
               UserID := c.user_id, AppIDs := "null",
               ExpiresAt := now + cfg.NKeyExpiration, FirstUsedAt := none, FirstUsedApp := "",
               IsUsed := false, CreatedAt := now }] })
      ∧ (∀ (now' : Time) (appID : String), appID ≠ "" → now' ≤ now + cfg.NKeyExpiration →
          ValidateNKey (ApplyNKey cfg s now c (some req) (some encoded)).2 now'
              (some { NKey := "TOUNET_" ++ toString c.user_id ++ "_" ++ encoded, AppID := appID })
            = ({ status := 403, code := 403, message := "no permission for app", data := none },
               (ApplyNKey cfg s now c (some req) (some encoded)).2))
      ∧ (∀ (now' : Time) (req' : ValidateNKeyRequest),
          req'.NKey = "TOUNET_" ++ toString c.user_id ++ "_" ++ encoded →
          (ValidateNKey (ApplyNKey cfg s now c (some req) (some encoded)).2 now' (some req')).1.status
              ≠ 200
            ∧ (ValidateNKey (ApplyNKey cfg s now c (some req) (some encoded)).2 now' (some req')).2
              = (ApplyNKey cfg s now c (some req) (some encoded)).2) := by
  have happly := ApplyNKey_granted cfg s now c req encoded [] u hreq hu
    (fun a ha => absurd ha (List.not_mem_nil a)) hfresh
  have hnull : jsonMarshalStrings [] = "null" := by decide
  rw [hnull] at happly
  have hfind : ∀ key, key = "TOUNET_" ++ toString c.user_id ++ "_" ++ encoded →
      findNKey (ApplyNKey cfg s now c (some req) (some encoded)).2 key
        = some { ID := nextNKeyID s, KeyValue := "TOUNET_" ++ toString c.user_id ++ "_" ++ encoded,
                 UserID := c.user_id, AppIDs := "null",
                 ExpiresAt := now + cfg.NKeyExpiration, FirstUsedAt := none, FirstUsedApp := "",
                 IsUsed := false, CreatedAt := now } := by
    intro key hkey
    rw [happly, hkey]
    exact find_append_fresh ("TOUNET_" ++ toString c.user_id ++ "_" ++ encoded) _ rfl s.nkeys
      hfresh
  have hdec : jsonUnmarshalStrings "null" = some [] := by decide
  refine ⟨happly, ?_, ?_⟩
  · intro now' appID happ hle
    rw [ValidateNKey_unexpired _ now' _ _ (tounet_key_ne_empty _ _) happ (hfind _ rfl)
      (not_lt.mpr hle), hdec]
    simp
  · intro now' req' hkey
    have hne : (ValidateNKey (ApplyNKey cfg s now c (some req) (some encoded)).2 now'
        (some req')).1.status ≠ 200 := by
      by_cases happ : req'.AppID = ""
      · simp [ValidateNKey, bindValidateNKeyRequest, happ]
      · by_cases hexp : now + cfg.NKeyExpiration < now'
        · simp [ValidateNKey, bindValidateNKeyRequest, happ, hkey ▸ tounet_key_ne_empty _ _,
            hfind req'.NKey hkey, hexp]
        · rw [ValidateNKey_unexpired _ now' req' _ (hkey ▸ tounet_key_ne_empty _ _) happ
            (hfind _ hkey) hexp, hdec]
          simp
    exact ⟨hne, ValidateNKey_failed_store _ _ _ hne⟩

set_option maxRecDepth 20000 in
/-- C25 at a concrete input: user 3 on the sample store, whose app table plays no
part. -/
theorem ApplyNKey_empty_app_list_witness :
    ∃ s' : Store,
      ApplyNKey defaultConfig sampleStore 0 (sessionOf (sampleUser 3 "bob" StatusUser))
          (applyBody []) (some "abc")
        = ({ status := 200, code := 200, message := "success",
             data := some { nkey := "TOUNET_3_abc", expires_in := 900, apps := [] } }, s')
      ∧ (s'.nkeys.map (fun k => (k.KeyValue, k.AppIDs, k.IsUsed))) = [("TOUNET_3_abc", "null", false)]
      ∧ ValidateNKey s' 10 (some (validateReq "TOUNET_3_abc" "searchall"))
        = ({ status := 403, code := 403, message := "no permission for app", data := none }, s') := by
  have h := ApplyNKey_empty_app_list defaultConfig sampleStore 0
    (sessionOf (sampleUser 3 "bob" StatusUser)) { Username := [], AppIDs := some [] } "abc"
    (sampleUser 3 "bob" StatusUser) rfl (by decide) (by decide)
  refine ⟨_, h.1, by decide, ?_⟩
  have h2 := h.2.1 10 "searchall" (by decide) (by decide)
  rw [h.1] at h2
  exact h2

/-! ## `ListAllowedApps`: the role filter -/

/-- On the four roles and the four levels the role clause of `ListAllowedApps` is
`HasPermission`. -/
theorem roleFilter_eq_HasPermission (r lvl : UserStatus)
    (hr : r = StatusAdmin ∨ r = StatusTrusted ∨ r = StatusUser ∨ r = StatusDisabledUser)
    (hl : lvl = StatusAdmin ∨ lvl = StatusTrusted ∨ lvl = StatusUser ∨ lvl = StatusDisabledUser) :
    roleFilter r lvl = HasPermission r lvl := by
  rcases hr with rfl | rfl | rfl | rfl <;> rcases hl with rfl | rfl | rfl | rfl <;> decide

/-- C26: for a session role among the four role constants and an app row whose
required level is among them, the row is in the query result of `ListAllowedApps`
exactly when it is active and `HasPermission role level` holds; the response is
200 with one element per result row, in order; and with unique app ids an element
carrying the app's id is in the response exactly under the same condition. An
inactive app is never listed, whatever the role string. -/
theorem ListAllowedApps_matches_hierarchy (s : Store) (c : Context) (app : App)
    (hr : c.user_status = StatusAdmin ∨ c.user_status = StatusTrusted
      ∨ c.user_status = StatusUser ∨ c.user_status = StatusDisabledUser)
    (hl : app.RequiredPermissionLevel = StatusAdmin ∨ app.RequiredPermissionLevel = StatusTrusted
      ∨ app.RequiredPermissionLevel = StatusUser
      ∨ app.RequiredPermissionLevel = StatusDisabledUser)
    (happ : app ∈ s.apps) :
    (app ∈ findAllowedApps s c.user_status
        ↔ app.IsActive = true ∧ HasPermission c.user_status app.RequiredPermissionLevel = true)
      ∧ ListAllowedApps s c
          = { status := 200, code := 200, message := "success",
              data := (findAllowedApps s c.user_status).map (allowedAppData s c.user_id) }
      ∧ (appIDsUnique s →
          ((∃ e ∈ (ListAllowedApps s c).data, e.app_id = app.AppID)
            ↔ app.IsActive = true
              ∧ HasPermission c.user_status app.RequiredPermissionLevel = true))
      ∧ (∀ (role : UserStatus) (a : App), a.IsActive = false →
          a ∉ findAllowedApps s role
            ∧ (appIDsUnique s → a ∈ s.apps →
                ¬ ∃ e ∈ (ListAllowedApps s { c with user_status := role }).data,
                    e.app_id = a.AppID)) := by
  have hid : ∀ (uid : Nat) (a : App), (allowedAppData s uid a).app_id = a.AppID := by
    intro uid a
    unfold allowedAppData
    cases userAppMap s uid a.AppID <;> rfl
  have hrows : app ∈ findAllowedApps s c.user_status
      ↔ app.IsActive = true ∧ HasPermission c.user_status app.RequiredPermissionLevel = true := by
    simp only [findAllowedApps, List.mem_filter, Bool.and_eq_true,
      roleFilter_eq_HasPermission _ _ hr hl]
    exact ⟨fun h => h.2, fun h => ⟨happ, h⟩⟩
  have hentry : ∀ (role : UserStatus) (uid : Nat) (a : App), appIDsUnique s → a ∈ s.apps →
      ((∃ e ∈ ((findAllowedApps s role).map (allowedAppData s uid)), e.app_id = a.AppID)
        ↔ a ∈ findAllowedApps s role) := by
    intro role uid a hpk ha
    constructor
    · rintro ⟨e, he, hea⟩
      obtain ⟨b, hb, rfl⟩ := List.mem_map.mp he
      rw [hid] at hea
      have hbs : b ∈ s.apps := (List.mem_filter.mp hb).1
      rw [← hpk b hbs a ha hea]
      exact hb
    · intro h
      exact ⟨allowedAppData s uid a, List.mem_map.mpr ⟨a, h, rfl⟩, hid uid a⟩
  have hinactive : ∀ (role : UserStatus) (a : App), a.IsActive = false →
      a ∉ findAllowedApps s role := by
    intro role a hoff hmem
    have := (List.mem_filter.mp hmem).2
    simp [hoff] at this
  refine ⟨hrows, rfl, ?_, ?_⟩
  · intro hpk
    exact (hentry c.user_status c.user_id app hpk happ).trans hrows
  · intro role a hoff
    refine ⟨hinactive role a hoff, ?_⟩
    intro hpk ha h
    exact hinactive role a hoff ((hentry role c.user_id a hpk ha).mp h)

set_option maxRecDepth 20000 in
/-- C26 at a concrete input: a session with role `user` sees the two active apps
of level `user` and `disableduser`, the first with the user's override, and not the
trusted or admin app nor the inactive one. -/
theorem ListAllowedApps_matches_hierarchy_witness :
    ((sampleApp "advanced_analytics" StatusTrusted true ∈ findAllowedApps catalogStore StatusUser
        ↔ (sampleApp "advanced_analytics" StatusTrusted true).IsActive = true
          ∧ HasPermission StatusUser StatusTrusted = true)
      ∧ ListAllowedApps catalogStore (sessionOf (sampleUser 3 "bob" StatusUser))
          = { status := 200, code := 200, message := "success",
              data := [{ app_id := "searchall", name := "searchall", url := "", enabled := false,
                         valid_until := some 50 },
                       { app_id := "status_page", name := "status_page", url := "",
                         enabled := true, valid_until := none }] })
    ∧ HasPermission StatusUser StatusTrusted = false :=
  ⟨⟨(ListAllowedApps_matches_hierarchy catalogStore (sessionOf (sampleUser 3 "bob" StatusUser))
        (sampleApp "advanced_analytics" StatusTrusted true) (by decide) (by decide)
        (by decide)).1,
    by decide⟩, by decide⟩

end TouNetCore
